import Mathlib

/-!
# BlitzKV — verification of the page-packed storage engine

A shallow embedding of the BlitzKV core (page codec, page manager, database
facade) from `src/`, together with proofs and refutations of the stated
properties.  Bytes are natural numbers below `256`; machine integers are
naturals with explicit reductions modulo `2^32` / `2^64` where the source
casts; panics (`assert!`, slice out of range, `unwrap`, CRC mismatch) are
modelled as `Except` errors.
-/

namespace BlitzKV

set_option maxRecDepth 100000

/-- `2^32`, the range of `u32`. -/
def U32 : Nat := 4294967296

/-- `2^64`, the range of `u64`. -/
def U64 : Nat := 18446744073709551616

/-- All elements of the list are bytes (fit in `u8`). -/
def ByteOK (l : List Nat) : Prop := ∀ b ∈ l, b < 256

instance (l : List Nat) : Decidable (ByteOK l) := by
  unfold ByteOK; infer_instance

instance {ε α : Type} [DecidableEq ε] [DecidableEq α] : DecidableEq (Except ε α) := fun a b =>
  match a, b with
  | .error x, .error y =>
      if h : x = y then .isTrue (h ▸ rfl)
      else .isFalse (fun hc => h (Except.error.inj hc))
  | .ok x, .ok y =>
      if h : x = y then .isTrue (h ▸ rfl)
      else .isFalse (fun hc => h (Except.ok.inj hc))
  | .error _, .ok _ => .isFalse (fun hc => Except.noConfusion hc)
  | .ok _, .error _ => .isFalse (fun hc => Except.noConfusion hc)

/-! ## Little-endian integer serialization -/

/-- Little-endian byte encoding of `n` in `w` bytes (`to_le_bytes`,
truncating above `256^w` exactly as the Rust integer cast does). -/
def toLE : Nat → Nat → List Nat
  | 0, _ => []
  | w + 1, n => n % 256 :: toLE w (n / 256)

/-- `u32::to_le_bytes`. -/
def toLE32 (n : Nat) : List Nat := toLE 4 n

/-- `u64::to_le_bytes`. -/
def toLE64 (n : Nat) : List Nat := toLE 8 n

/-- Little-endian value of a byte list. -/
def readLE : List Nat → Nat
  | [] => 0
  | b :: rest => b + 256 * readLE rest

/-- `u32::from_le_bytes` on the first four bytes of the buffer. -/
def readLE32 (l : List Nat) : Nat := readLE (l.take 4)

/-- `u64::from_le_bytes` on the first eight bytes of the buffer. -/
def readLE64 (l : List Nat) : Nat := readLE (l.take 8)

theorem toLE_length (w n : Nat) : (toLE w n).length = w := by
  induction w generalizing n with
  | zero => rfl
  | succ w ih => simp [toLE, ih]

theorem toLE_byteOK (w n : Nat) : ByteOK (toLE w n) := by
  induction w generalizing n with
  | zero => intro b hb; simp [toLE] at hb
  | succ w ih =>
    intro b hb
    simp only [toLE, List.mem_cons] at hb
    rcases hb with h | h
    · subst h; exact Nat.mod_lt _ (by norm_num)
    · exact ih _ b h

theorem readLE_toLE (w n : Nat) : readLE (toLE w n) = n % 256 ^ w := by
  induction w generalizing n with
  | zero => simp [toLE, readLE, Nat.mod_one]
  | succ w ih =>
    simp only [toLE, readLE, ih]
    rw [Nat.pow_succ', Nat.mod_mul]

theorem take_append_of_length {α : Type} (l r : List α) (n : Nat)
    (h : n = l.length) : (l ++ r).take n = l := by
  subst h; simp

theorem drop_append_of_length {α : Type} (l r : List α) (n : Nat)
    (h : n = l.length) : (l ++ r).drop n = r := by
  subst h; simp

theorem readLE32_toLE32_append (n : Nat) (r : List Nat) :
    readLE32 (toLE32 n ++ r) = n % U32 := by
  unfold readLE32 toLE32
  rw [take_append_of_length _ _ _ (toLE_length 4 n).symm, readLE_toLE]
  norm_num [U32]

theorem readLE64_toLE64_append (n : Nat) (r : List Nat) :
    readLE64 (toLE64 n ++ r) = n % U64 := by
  unfold readLE64 toLE64
  rw [take_append_of_length _ _ _ (toLE_length 8 n).symm, readLE_toLE]
  norm_num [U64]

/-! ## CRC32 (the `crc32fast::hash` function: CRC-32/ISO-HDLC) -/

/-- One bit-step of the reflected CRC-32 algorithm with polynomial
`0xEDB88320`. -/
def crc32Step (c : Nat) : Nat :=
  if c % 2 = 1 then (c / 2) ^^^ 0xEDB88320 else c / 2

/-- Fold one byte into the CRC state. -/
def crc32ByteStep (c b : Nat) : Nat := crc32Step^[8] (c ^^^ b)

/-- `crc32fast::hash`: init `0xFFFFFFFF`, final xor `0xFFFFFFFF`. -/
def crc32_hash (data : List Nat) : Nat :=
  (data.foldl crc32ByteStep 0xFFFFFFFF) ^^^ 0xFFFFFFFF

theorem crc32Step_lt (c : Nat) (h : c < U32) : crc32Step c < U32 := by
  unfold crc32Step
  split
  · have hc : c < 2 ^ 32 := by simpa [U32] using h
    have h1 : c / 2 < 2 ^ 32 := by omega
    have h2 : (0xEDB88320 : Nat) < 2 ^ 32 := by norm_num
    have := Nat.xor_lt_two_pow h1 h2
    simpa [U32] using this
  · exact lt_of_le_of_lt (Nat.div_le_self c 2) h

theorem crc32Step_iter_lt (k c : Nat) (h : c < U32) : crc32Step^[k] c < U32 := by
  induction k generalizing c with
  | zero => simpa using h
  | succ k ih =>
    rw [Function.iterate_succ_apply]
    exact ih _ (crc32Step_lt c h)

theorem crc32ByteStep_lt (c b : Nat) (hc : c < U32) (hb : b < U32) :
    crc32ByteStep c b < U32 := by
  unfold crc32ByteStep
  apply crc32Step_iter_lt
  have h1 : c < 2 ^ 32 := by simpa [U32] using hc
  have h2 : b < 2 ^ 32 := by simpa [U32] using hb
  simpa [U32] using Nat.xor_lt_two_pow h1 h2

theorem crc32_hash_lt (data : List Nat) (h : ∀ b ∈ data, b < U32) :
    crc32_hash data < U32 := by
  unfold crc32_hash
  have hfold : ∀ (l : List Nat) (c : Nat), c < U32 → (∀ b ∈ l, b < U32) →
      l.foldl crc32ByteStep c < U32 := by
    intro l
    induction l with
    | nil => intro c hc _; simpa using hc
    | cons x xs ih =>
      intro c hc hl
      simp only [List.foldl_cons]
      exact ih _ (crc32ByteStep_lt c x hc (hl x (by simp)))
        (fun b hb => hl b (by simp [hb]))
  have h1 := hfold data 0xFFFFFFFF (by norm_num [U32]) h
  have h2 : (0xFFFFFFFF : Nat) < 2 ^ 32 := by norm_num
  have := Nat.xor_lt_two_pow (by simpa [U32] using h1) h2
  simpa [U32] using this

/-! ## The `Page` data model (`src/storage/page.rs`) -/

/-- `MAGIC_HEADER = "blitzkv"` as bytes. -/
def MAGIC_BYTES : List Nat := [98, 108, 105, 116, 122, 107, 118]

def MAGIC_SIZE : Nat := 7
def ID_SIZE : Nat := 8
def SIZE_FIELD_SIZE : Nat := 4
def CRC32_SIZE : Nat := 4

/-- `HEADER_SIZE = MAGIC_SIZE + ID_SIZE + SIZE_FIELD_SIZE + CRC32_SIZE = 23`. -/
def HEADER_SIZE : Nat := MAGIC_SIZE + ID_SIZE + SIZE_FIELD_SIZE + CRC32_SIZE

/-- `ENTRY_METADATA_SIZE = 8` (per-entry overhead). -/
def ENTRY_METADATA_SIZE : Nat := SIZE_FIELD_SIZE * 2

structure EntryMetadata where
  key_size : Nat
  value_size : Nat
deriving DecidableEq

structure Entry where
  metadata : EntryMetadata
  key : List Nat
  value : List Nat
deriving DecidableEq

structure PageHeader where
  magic : List Nat
  id : Nat
  size : Nat
  crc32 : Nat
deriving DecidableEq

structure Page where
  header : PageHeader
  data : List Entry
  current_size : Nat
deriving DecidableEq

/-- `Entry::total_size`. -/
def Entry.total_size (e : Entry) : Nat :=
  ENTRY_METADATA_SIZE + e.key.length + e.value.length

/-- Total serialized size of a list of entries. -/
def entries_size (l : List Entry) : Nat := (l.map Entry.total_size).sum

/-- `Page::new`.  `current_size` starts at `HEADER_SIZE + SIZE_FIELD_SIZE`
(header plus entry count). -/
def Page.new (id size : Nat) : Page :=
  { header := { magic := MAGIC_BYTES, id := id, size := size, crc32 := 0 },
    data := [],
    current_size := HEADER_SIZE + SIZE_FIELD_SIZE }

/-- `Page::push_entry`.  Returns `(self.current_size as u32)` — the byte
offset, not the entry index — together with the updated page; fails when
`new_size as u32 > self.header.size` (a `u32` comparison, hence the
reduction modulo `2^32`). -/
def Page.push_entry (p : Page) (key value : List Nat) : Option (Nat × Page) :=
  let offset := p.current_size % U32
  let new_size := p.current_size + ENTRY_METADATA_SIZE + key.length + value.length
  if new_size % U32 > p.header.size then
    none
  else
    some (offset,
      { p with
        data := p.data ++
          [{ metadata := { key_size := key.length % U32,
                           value_size := value.length % U32 },
             key := key, value := value }],
        current_size := new_size })

/-- `Page::remove_entry`: removes the first entry whose key matches and
shrinks `current_size` by its serialized size. -/
def Page.remove_entry (p : Page) (key : List Nat) : Bool × Page :=
  match p.data.find? (fun e => e.key = key) with
  | some removed =>
      (true,
       { p with
         data := p.data.eraseP (fun e => e.key = key),
         current_size := p.current_size - removed.total_size })
  | none => (false, p)

/-- `Page::size`. -/
def Page.size (p : Page) : Nat := p.current_size

/-- `Page::capacity`. -/
def Page.capacity (p : Page) : Nat := p.header.size

/-- `Page::id`. -/
def Page.pageId (p : Page) : Nat := p.header.id

/-- Modelled from the spec: `Page::free_space` is called by
`database.rs` but missing from the `src/` page implementation.
Spec §4.C: `free_space() = capacity - current_size`. -/
def Page.free_space (p : Page) : Nat := p.header.size - p.current_size

/-- Modelled from the spec: `Page::get` is called by `database.rs` and
`page_manager.rs` but missing from the `src/` page implementation.
Spec §4.C: returns the value at `entry_index` only if the key at that
index equals `k`; otherwise falls back to a linear scan by key and
returns the first match, or nothing. -/
def Page.get (p : Page) (entry_index : Nat) (key : List Nat) : Option (List Nat) :=
  match p.data[entry_index]? with
  | some e =>
      if e.key = key then some e.value
      else (p.data.find? (fun x => x.key = key)).map Entry.value
  | none => (p.data.find? (fun x => x.key = key)).map Entry.value

/-! ## Page codec (`write_to_buffer` / `read_from_buffer`) -/

/-- `Entry::write_to_buffer`: stored metadata, then key bytes, then value
bytes. -/
def Entry.write_bytes (e : Entry) : List Nat :=
  toLE32 e.metadata.key_size ++ toLE32 e.metadata.value_size ++ e.key ++ e.value

/-- The byte region CRC32 is computed over: entry count followed by the
serialized entries (bytes `[HEADER_SIZE .. current_size)`). -/
def Page.body_bytes (p : Page) : List Nat :=
  toLE32 p.data.length ++ (p.data.map Entry.write_bytes).flatten

/-- `Page::write_to_buffer`: header (with the CRC32 of the body patched
in), then entry count, then entries.  Returns the meaningful prefix of
the write buffer; trailing bytes up to `page_size` are not read back by
the decoder. -/
def Page.write_to_buffer (p : Page) : List Nat :=
  let body := p.body_bytes
  let crc := crc32_hash body
  p.header.magic ++ toLE64 p.header.id ++ toLE32 p.header.size ++ toLE32 crc ++ body

/-- Panics of the Rust source (assertion failures, slice range errors,
`unwrap` on `None`, the CRC mismatch panic), modelled as errors. -/
inductive PanicErr where
  | assertFailed
  | sliceOutOfRange
  | unwrapFailed
  | crcMismatch
deriving DecidableEq

/-- `PageHeader::read_from_buffer` (asserts `buf.len() >= HEADER_SIZE`). -/
def PageHeader.read_from_buffer (buf : List Nat) : Except PanicErr (PageHeader × Nat) :=
  if buf.length < HEADER_SIZE then .error .assertFailed
  else .ok
    ({ magic := buf.take MAGIC_SIZE,
       id := readLE64 (buf.drop MAGIC_SIZE),
       size := readLE32 (buf.drop (MAGIC_SIZE + ID_SIZE)),
       crc32 := readLE32 (buf.drop (MAGIC_SIZE + ID_SIZE + SIZE_FIELD_SIZE)) },
     HEADER_SIZE)

/-- `EntryMetadata::read_from_buffer` (asserts
`buf.len() >= ENTRY_METADATA_SIZE`). -/
def EntryMetadata.read_from_buffer (buf : List Nat) : Except PanicErr (EntryMetadata × Nat) :=
  if buf.length < ENTRY_METADATA_SIZE then .error .assertFailed
  else .ok
    ({ key_size := readLE32 buf, value_size := readLE32 (buf.drop SIZE_FIELD_SIZE) },
     ENTRY_METADATA_SIZE)

/-- `Entry::read_from_buffer`; slicing key and value bytes out of range
panics. -/
def Entry.read_from_buffer (buf : List Nat) : Except PanicErr (Entry × Nat) :=
  match EntryMetadata.read_from_buffer buf with
  | .error e => .error e
  | .ok (metadata, meta_size) =>
    let key_size := metadata.key_size
    let value_size := metadata.value_size
    if buf.length < meta_size + key_size + value_size then .error .sliceOutOfRange
    else .ok
      ({ metadata := metadata,
         key := (buf.drop meta_size).take key_size,
         value := (buf.drop (meta_size + key_size)).take value_size },
       meta_size + key_size + value_size)

/-- The entry-reading loop of `Page::read_from_buffer`; returns the
entries and the number of bytes consumed. -/
def readEntries : Nat → List Nat → Except PanicErr (List Entry × Nat)
  | 0, _ => .ok ([], 0)
  | n + 1, buf =>
      match Entry.read_from_buffer buf with
      | .error e => .error e
      | .ok (e, sz) =>
        match readEntries n (buf.drop sz) with
        | .error e2 => .error e2
        | .ok (rest, sz2) => .ok (e :: rest, sz + sz2)

/-- `Page::read_from_buffer`: parses the header (no magic check!), the
entry count and the entries, then recomputes CRC32 over
`buf[HEADER_SIZE..offset]` and panics on mismatch.  `current_size` is the
consumed prefix length. -/
def Page.read_from_buffer (buf : List Nat) : Except PanicErr Page :=
  match PageHeader.read_from_buffer buf with
  | .error e => .error e
  | .ok (header, header_size) =>
    if buf.length < header_size + SIZE_FIELD_SIZE then .error .sliceOutOfRange
    else
      let entry_count := readLE32 (buf.drop header_size)
      match readEntries entry_count (buf.drop (header_size + SIZE_FIELD_SIZE)) with
      | .error e => .error e
      | .ok (data, esz) =>
        let offset := header_size + SIZE_FIELD_SIZE + esz
        let computed := crc32_hash ((buf.drop HEADER_SIZE).take (offset - HEADER_SIZE))
        if computed ≠ header.crc32 then .error .crcMismatch
        else .ok { header := header, data := data, current_size := offset }

/-! ## Well-formedness of in-memory pages -/

/-- The invariants every entry built by `push_entry` satisfies. -/
def EntryWF (e : Entry) : Prop :=
  e.metadata.key_size = e.key.length ∧ e.metadata.value_size = e.value.length ∧
  ByteOK e.key ∧ ByteOK e.value

/-- Well-formedness of an in-memory page: accurate size accounting,
size within capacity, `u32`/`u64` header bounds, byte-valued contents. -/
structure Page.WF (p : Page) : Prop where
  magic_eq : p.header.magic = MAGIC_BYTES
  id_lt : p.header.id < U64
  size_lt : p.header.size < U32
  cs : p.current_size = HEADER_SIZE + SIZE_FIELD_SIZE + entries_size p.data
  cap : p.current_size ≤ p.header.size
  ewf : ∀ e ∈ p.data, EntryWF e

/-! ## Codec roundtrip -/

theorem toLE32_length (n : Nat) : (toLE32 n).length = 4 := toLE_length 4 n

theorem toLE64_length (n : Nat) : (toLE64 n).length = 8 := toLE_length 8 n

theorem drop_append_add {α : Type} (l r : List α) (n m : Nat) (h : n = l.length) :
    (l ++ r).drop (n + m) = r.drop m := by
  subst h
  exact List.drop_append m

theorem entry_write_length (e : Entry) : (Entry.write_bytes e).length = e.total_size := by
  simp only [Entry.write_bytes, List.length_append, toLE32_length, Entry.total_size,
    ENTRY_METADATA_SIZE, SIZE_FIELD_SIZE]

theorem entries_size_cons (e : Entry) (es : List Entry) :
    entries_size (e :: es) = e.total_size + entries_size es := by
  simp [entries_size]

theorem entries_bytes_length (l : List Entry) :
    ((l.map Entry.write_bytes).flatten).length = entries_size l := by
  induction l with
  | nil => simp [entries_size]
  | cons e es ih =>
    simp only [List.map_cons, List.flatten_cons, List.length_append, entry_write_length, ih,
      entries_size_cons]

theorem body_bytes_length (p : Page) :
    p.body_bytes.length = 4 + entries_size p.data := by
  simp only [Page.body_bytes, List.length_append, toLE32_length, entries_bytes_length]

theorem total_size_le_entries_size {e : Entry} {l : List Entry} (h : e ∈ l) :
    e.total_size ≤ entries_size l := by
  unfold entries_size
  exact List.single_le_sum (fun b _ => Nat.zero_le b) _ (List.mem_map_of_mem _ h)

theorem entry_read_write (e : Entry) (rest : List Nat)
    (hks : e.metadata.key_size = e.key.length) (hvs : e.metadata.value_size = e.value.length)
    (hk : e.key.length < U32) (hv : e.value.length < U32) :
    Entry.read_from_buffer (e.write_bytes ++ rest) = .ok (e, e.total_size) := by
  have hlen : (e.write_bytes ++ rest).length =
      8 + e.key.length + e.value.length + rest.length := by
    simp only [List.length_append, entry_write_length, Entry.total_size,
      ENTRY_METADATA_SIZE, SIZE_FIELD_SIZE]
  have hbuf : e.write_bytes ++ rest = toLE32 e.metadata.key_size ++
      (toLE32 e.metadata.value_size ++ (e.key ++ (e.value ++ rest))) := by
    simp [Entry.write_bytes, List.append_assoc]
  have hdrop8 : (e.write_bytes ++ rest).drop ENTRY_METADATA_SIZE =
      e.key ++ (e.value ++ rest) := by
    rw [hbuf, show (ENTRY_METADATA_SIZE : Nat) = 4 + 4 from rfl,
      drop_append_add _ _ 4 4 (toLE32_length _).symm,
      drop_append_of_length _ _ _ (toLE32_length _).symm]
  have hdropk : (e.write_bytes ++ rest).drop (ENTRY_METADATA_SIZE + e.key.length) =
      e.value ++ rest := by
    rw [← List.drop_drop, hdrop8, drop_append_of_length _ _ _ rfl]
  have hmeta : EntryMetadata.read_from_buffer (e.write_bytes ++ rest) =
      .ok ({ key_size := e.key.length, value_size := e.value.length }, ENTRY_METADATA_SIZE) := by
    unfold EntryMetadata.read_from_buffer
    rw [if_neg (by rw [hlen]; simp only [ENTRY_METADATA_SIZE, SIZE_FIELD_SIZE]; omega)]
    have hv32 : readLE32 ((e.write_bytes ++ rest).drop SIZE_FIELD_SIZE) = e.value.length := by
      show readLE32 ((e.write_bytes ++ rest).drop 4) = e.value.length
      rw [hbuf, drop_append_of_length _ _ _ (toLE32_length _).symm,
        readLE32_toLE32_append, hvs, Nat.mod_eq_of_lt hv]
    have hk32 : readLE32 (e.write_bytes ++ rest) = e.key.length := by
      rw [hbuf, readLE32_toLE32_append, hks, Nat.mod_eq_of_lt hk]
    rw [hv32, hk32]
  unfold Entry.read_from_buffer
  rw [hmeta]
  simp only
  rw [if_neg (by rw [hlen]; simp only [ENTRY_METADATA_SIZE, SIZE_FIELD_SIZE]; omega)]
  have h1 : ((e.write_bytes ++ rest).drop ENTRY_METADATA_SIZE).take e.key.length = e.key := by
    rw [hdrop8, take_append_of_length _ _ _ rfl]
  have h2 : ((e.write_bytes ++ rest).drop (ENTRY_METADATA_SIZE + e.key.length)).take
      e.value.length = e.value := by
    rw [hdropk, take_append_of_length _ _ _ rfl]
  rw [h1, h2]
  cases e with
  | mk m k v =>
    cases m with
    | mk ks vs =>
      simp only at hks hvs
      rw [hks, hvs]
      rfl

theorem readEntries_encode (l : List Entry) (rest : List Nat)
    (h : ∀ e ∈ l, e.metadata.key_size = e.key.length ∧ e.metadata.value_size = e.value.length ∧
      e.key.length < U32 ∧ e.value.length < U32) :
    readEntries l.length ((l.map Entry.write_bytes).flatten ++ rest) =
      .ok (l, entries_size l) := by
  induction l with
  | nil => simp [readEntries, entries_size]
  | cons e es ih =>
    have he := h e (by simp)
    have hrec := ih (fun x hx => h x (by simp [hx]))
    simp only [List.map_cons, List.flatten_cons, List.length_cons, List.append_assoc]
    rw [readEntries]
    rw [entry_read_write e _ he.1 he.2.1 he.2.2.1 he.2.2.2]
    simp only
    rw [drop_append_of_length _ _ _ (entry_write_length e).symm]
    rw [hrec]
    simp only [entries_size_cons]

theorem entry_write_byteOK (e : Entry) (hk : ByteOK e.key) (hv : ByteOK e.value) :
    ByteOK e.write_bytes := by
  intro b hb
  simp only [Entry.write_bytes, List.mem_append] at hb
  rcases hb with ((h | h) | h) | h
  · exact toLE_byteOK 4 _ b h
  · exact toLE_byteOK 4 _ b h
  · exact hk b h
  · exact hv b h

theorem body_byteOK (p : Page) (h : ∀ e ∈ p.data, EntryWF e) : ByteOK p.body_bytes := by
  intro b hb
  simp only [Page.body_bytes, List.mem_append] at hb
  rcases hb with hcount | hflat
  · exact toLE_byteOK 4 _ b hcount
  · rw [List.mem_flatten] at hflat
    obtain ⟨bl, hbl, hmem⟩ := hflat
    rw [List.mem_map] at hbl
    obtain ⟨e, he, rfl⟩ := hbl
    obtain ⟨_, _, hkk, hvv⟩ := h e he
    exact entry_write_byteOK e hkk hvv b hmem

theorem data_length_lt {p : Page} (h : p.WF) : p.data.length < U32 := by
  have h8 : p.data.length ≤ entries_size p.data := by
    unfold entries_size
    calc p.data.length = (p.data.map Entry.total_size).length := by simp
    _ ≤ (p.data.map Entry.total_size).sum := by
        apply List.length_le_sum_of_one_le
        intro i hi
        simp only [List.mem_map] at hi
        obtain ⟨e, _, rfl⟩ := hi
        simp only [Entry.total_size, ENTRY_METADATA_SIZE, SIZE_FIELD_SIZE]
        omega
  have := h.cs
  have := h.cap
  have := h.size_lt
  simp only [HEADER_SIZE, SIZE_FIELD_SIZE, MAGIC_SIZE, ID_SIZE, CRC32_SIZE] at *
  omega

theorem entry_sizes_lt {p : Page} (h : p.WF) {e : Entry} (he : e ∈ p.data) :
    e.key.length < U32 ∧ e.value.length < U32 := by
  have ht := total_size_le_entries_size he
  have := h.cs
  have := h.cap
  have := h.size_lt
  simp only [Entry.total_size, ENTRY_METADATA_SIZE, SIZE_FIELD_SIZE,
    HEADER_SIZE, MAGIC_SIZE, ID_SIZE, CRC32_SIZE] at *
  omega

theorem crc32_body_lt (p : Page) (h : ∀ e ∈ p.data, EntryWF e) :
    crc32_hash p.body_bytes < U32 := by
  apply crc32_hash_lt
  intro b hb
  have h1 := body_byteOK p h b hb
  have h2 : (256 : Nat) < U32 := by norm_num [U32]
  omega

/-- Encode/decode roundtrip for well-formed pages: decoding the encoded
buffer succeeds and recovers the magic, id, capacity, entries and
`current_size`; the decoded header carries the CRC computed over the
body, so the CRC check passes. -/
theorem write_read_roundtrip (p : Page) (h : p.WF) :
    Page.read_from_buffer p.write_to_buffer =
      .ok { header := { magic := p.header.magic, id := p.header.id, size := p.header.size,
                        crc32 := crc32_hash p.body_bytes },
            data := p.data, current_size := p.current_size } := by
  have hmlen : p.header.magic.length = 7 := by rw [h.magic_eq]; rfl
  have hbuf : p.write_to_buffer = p.header.magic ++ (toLE64 p.header.id ++
      (toLE32 p.header.size ++ (toLE32 (crc32_hash p.body_bytes) ++ p.body_bytes))) := by
    simp [Page.write_to_buffer, List.append_assoc]
  have hblen : p.body_bytes.length = 4 + entries_size p.data := body_bytes_length p
  have hlen : p.write_to_buffer.length = 23 + (4 + entries_size p.data) := by
    rw [hbuf]
    simp only [List.length_append, hmlen, toLE64_length, toLE32_length, hblen]
    omega
  have hcrclt : crc32_hash p.body_bytes < U32 := crc32_body_lt p h.ewf
  have hdrop7 : p.write_to_buffer.drop 7 = toLE64 p.header.id ++
      (toLE32 p.header.size ++ (toLE32 (crc32_hash p.body_bytes) ++ p.body_bytes)) := by
    rw [hbuf, drop_append_of_length _ _ _ hmlen.symm]
  have hdrop15 : p.write_to_buffer.drop 15 =
      toLE32 p.header.size ++ (toLE32 (crc32_hash p.body_bytes) ++ p.body_bytes) := by
    rw [hbuf, show (15 : Nat) = 7 + 8 from rfl, drop_append_add _ _ 7 8 hmlen.symm,
      drop_append_of_length _ _ _ (toLE64_length _).symm]
  have hdrop19 : p.write_to_buffer.drop 19 =
      toLE32 (crc32_hash p.body_bytes) ++ p.body_bytes := by
    rw [hbuf, show (19 : Nat) = 7 + 12 from rfl, drop_append_add _ _ 7 12 hmlen.symm,
      show (12 : Nat) = 8 + 4 from rfl, drop_append_add _ _ 8 4 (toLE64_length _).symm,
      drop_append_of_length _ _ _ (toLE32_length _).symm]
  have hdrop23 : p.write_to_buffer.drop 23 = p.body_bytes := by
    rw [hbuf, show (23 : Nat) = 7 + 16 from rfl, drop_append_add _ _ 7 16 hmlen.symm,
      show (16 : Nat) = 8 + 8 from rfl, drop_append_add _ _ 8 8 (toLE64_length _).symm,
      show (8 : Nat) = 4 + 4 from rfl, drop_append_add _ _ 4 4 (toLE32_length _).symm,
      drop_append_of_length _ _ _ (toLE32_length _).symm]
  have hdrop27 : p.write_to_buffer.drop 27 = (p.data.map Entry.write_bytes).flatten := by
    rw [show (27 : Nat) = 23 + 4 from rfl, ← List.drop_drop, hdrop23, Page.body_bytes,
      drop_append_of_length _ _ _ (toLE32_length _).symm]
  have htake7 : p.write_to_buffer.take 7 = p.header.magic := by
    rw [hbuf, take_append_of_length _ _ _ hmlen.symm]
  have hheader : PageHeader.read_from_buffer p.write_to_buffer =
      .ok ({ magic := p.header.magic, id := p.header.id, size := p.header.size,
             crc32 := crc32_hash p.body_bytes }, HEADER_SIZE) := by
    unfold PageHeader.read_from_buffer
    rw [if_neg (by
      rw [hlen]
      simp only [HEADER_SIZE, MAGIC_SIZE, ID_SIZE, SIZE_FIELD_SIZE, CRC32_SIZE]
      omega)]
    have e1 : p.write_to_buffer.take MAGIC_SIZE = p.header.magic := htake7
    have e2 : readLE64 (p.write_to_buffer.drop MAGIC_SIZE) = p.header.id := by
      show readLE64 (p.write_to_buffer.drop 7) = p.header.id
      rw [hdrop7, readLE64_toLE64_append, Nat.mod_eq_of_lt h.id_lt]
    have e3 : readLE32 (p.write_to_buffer.drop (MAGIC_SIZE + ID_SIZE)) = p.header.size := by
      show readLE32 (p.write_to_buffer.drop 15) = p.header.size
      rw [hdrop15, readLE32_toLE32_append, Nat.mod_eq_of_lt h.size_lt]
    have e4 : readLE32 (p.write_to_buffer.drop (MAGIC_SIZE + ID_SIZE + SIZE_FIELD_SIZE)) =
        crc32_hash p.body_bytes := by
      show readLE32 (p.write_to_buffer.drop 19) = crc32_hash p.body_bytes
      rw [hdrop19, readLE32_toLE32_append, Nat.mod_eq_of_lt hcrclt]
    rw [e1, e2, e3, e4]
  have hcount : readLE32 (p.write_to_buffer.drop HEADER_SIZE) = p.data.length := by
    show readLE32 (p.write_to_buffer.drop 23) = p.data.length
    rw [hdrop23, Page.body_bytes, readLE32_toLE32_append, Nat.mod_eq_of_lt (data_length_lt h)]
  have hentries : readEntries (readLE32 (p.write_to_buffer.drop HEADER_SIZE))
      (p.write_to_buffer.drop (HEADER_SIZE + SIZE_FIELD_SIZE)) =
        .ok (p.data, entries_size p.data) := by
    rw [hcount]
    show readEntries p.data.length (p.write_to_buffer.drop 27) = _
    rw [hdrop27, ← List.append_nil ((p.data.map Entry.write_bytes).flatten)]
    apply readEntries_encode
    intro e he
    obtain ⟨h1, h2, _, _⟩ := h.ewf e he
    obtain ⟨h3, h4⟩ := entry_sizes_lt h he
    exact ⟨h1, h2, h3, h4⟩
  unfold Page.read_from_buffer
  rw [hheader]
  simp only
  rw [if_neg (by
    rw [hlen]
    simp only [HEADER_SIZE, MAGIC_SIZE, ID_SIZE, SIZE_FIELD_SIZE, CRC32_SIZE]
    omega)]
  rw [hentries]
  simp only
  have htakebody : (p.write_to_buffer.drop HEADER_SIZE).take
      (HEADER_SIZE + SIZE_FIELD_SIZE + entries_size p.data - HEADER_SIZE) = p.body_bytes := by
    show (p.write_to_buffer.drop 23).take (23 + 4 + entries_size p.data - 23) = p.body_bytes
    rw [hdrop23, show 23 + 4 + entries_size p.data - 23 = 4 + entries_size p.data by omega]
    exact List.take_of_length_le (by rw [hblen])
  rw [htakebody]
  rw [if_neg (by simp)]
  have hcs : HEADER_SIZE + SIZE_FIELD_SIZE + entries_size p.data = p.current_size := h.cs.symm
  rw [hcs]

/-- Generalization of the roundtrip: the decoder never inspects the magic
bytes, so replacing the 7 magic bytes with any 7 bytes still decodes. -/
theorem read_swapped_magic (p : Page) (h : p.WF) (m : List Nat) (hm : m.length = 7) :
    Page.read_from_buffer (m ++ p.write_to_buffer.drop 7) =
      .ok { header := { magic := m, id := p.header.id, size := p.header.size,
                        crc32 := crc32_hash p.body_bytes },
            data := p.data, current_size := p.current_size } := by
  have hmlen : p.header.magic.length = 7 := by rw [h.magic_eq]; rfl
  have hbuf0 : p.write_to_buffer = p.header.magic ++ (toLE64 p.header.id ++
      (toLE32 p.header.size ++ (toLE32 (crc32_hash p.body_bytes) ++ p.body_bytes))) := by
    simp [Page.write_to_buffer, List.append_assoc]
  have hbuf : m ++ p.write_to_buffer.drop 7 = m ++ (toLE64 p.header.id ++
      (toLE32 p.header.size ++ (toLE32 (crc32_hash p.body_bytes) ++ p.body_bytes))) := by
    rw [hbuf0, drop_append_of_length _ _ _ hmlen.symm]
  set buf := m ++ p.write_to_buffer.drop 7 with hbufdef
  have hblen : p.body_bytes.length = 4 + entries_size p.data := body_bytes_length p
  have hlen : buf.length = 23 + (4 + entries_size p.data) := by
    rw [hbuf]
    simp only [List.length_append, hm, toLE64_length, toLE32_length, hblen]
    omega
  have hcrclt : crc32_hash p.body_bytes < U32 := crc32_body_lt p h.ewf
  have hdrop7 : buf.drop 7 = toLE64 p.header.id ++
      (toLE32 p.header.size ++ (toLE32 (crc32_hash p.body_bytes) ++ p.body_bytes)) := by
    rw [hbuf, drop_append_of_length _ _ _ hm.symm]
  have hdrop15 : buf.drop 15 =
      toLE32 p.header.size ++ (toLE32 (crc32_hash p.body_bytes) ++ p.body_bytes) := by
    rw [hbuf, show (15 : Nat) = 7 + 8 from rfl, drop_append_add _ _ 7 8 hm.symm,
      drop_append_of_length _ _ _ (toLE64_length _).symm]
  have hdrop19 : buf.drop 19 =
      toLE32 (crc32_hash p.body_bytes) ++ p.body_bytes := by
    rw [hbuf, show (19 : Nat) = 7 + 12 from rfl, drop_append_add _ _ 7 12 hm.symm,
      show (12 : Nat) = 8 + 4 from rfl, drop_append_add _ _ 8 4 (toLE64_length _).symm,
      drop_append_of_length _ _ _ (toLE32_length _).symm]
  have hdrop23 : buf.drop 23 = p.body_bytes := by
    rw [hbuf, show (23 : Nat) = 7 + 16 from rfl, drop_append_add _ _ 7 16 hm.symm,
      show (16 : Nat) = 8 + 8 from rfl, drop_append_add _ _ 8 8 (toLE64_length _).symm,
      show (8 : Nat) = 4 + 4 from rfl, drop_append_add _ _ 4 4 (toLE32_length _).symm,
      drop_append_of_length _ _ _ (toLE32_length _).symm]
  have hdrop27 : buf.drop 27 = (p.data.map Entry.write_bytes).flatten := by
    rw [show (27 : Nat) = 23 + 4 from rfl, ← List.drop_drop, hdrop23, Page.body_bytes,
      drop_append_of_length _ _ _ (toLE32_length _).symm]
  have htake7 : buf.take 7 = m := by
    rw [hbuf, take_append_of_length _ _ _ hm.symm]
  have hheader : PageHeader.read_from_buffer buf =
      .ok ({ magic := m, id := p.header.id, size := p.header.size,
             crc32 := crc32_hash p.body_bytes }, HEADER_SIZE) := by
    unfold PageHeader.read_from_buffer
    rw [if_neg (by
      rw [hlen]
      simp only [HEADER_SIZE, MAGIC_SIZE, ID_SIZE, SIZE_FIELD_SIZE, CRC32_SIZE]
      omega)]
    have e1 : buf.take MAGIC_SIZE = m := htake7
    have e2 : readLE64 (buf.drop MAGIC_SIZE) = p.header.id := by
      show readLE64 (buf.drop 7) = p.header.id
      rw [hdrop7, readLE64_toLE64_append, Nat.mod_eq_of_lt h.id_lt]
    have e3 : readLE32 (buf.drop (MAGIC_SIZE + ID_SIZE)) = p.header.size := by
      show readLE32 (buf.drop 15) = p.header.size
      rw [hdrop15, readLE32_toLE32_append, Nat.mod_eq_of_lt h.size_lt]
    have e4 : readLE32 (buf.drop (MAGIC_SIZE + ID_SIZE + SIZE_FIELD_SIZE)) =
        crc32_hash p.body_bytes := by
      show readLE32 (buf.drop 19) = crc32_hash p.body_bytes
      rw [hdrop19, readLE32_toLE32_append, Nat.mod_eq_of_lt hcrclt]
    rw [e1, e2, e3, e4]
  have hcount : readLE32 (buf.drop HEADER_SIZE) = p.data.length := by
    show readLE32 (buf.drop 23) = p.data.length
    rw [hdrop23, Page.body_bytes, readLE32_toLE32_append, Nat.mod_eq_of_lt (data_length_lt h)]
  have hentries : readEntries (readLE32 (buf.drop HEADER_SIZE))
      (buf.drop (HEADER_SIZE + SIZE_FIELD_SIZE)) = .ok (p.data, entries_size p.data) := by
    rw [hcount]
    show readEntries p.data.length (buf.drop 27) = _
    rw [hdrop27, ← List.append_nil ((p.data.map Entry.write_bytes).flatten)]
    apply readEntries_encode
    intro e he
    obtain ⟨h1, h2, _, _⟩ := h.ewf e he
    obtain ⟨h3, h4⟩ := entry_sizes_lt h he
    exact ⟨h1, h2, h3, h4⟩
  unfold Page.read_from_buffer
  rw [hheader]
  simp only
  rw [if_neg (by
    rw [hlen]
    simp only [HEADER_SIZE, MAGIC_SIZE, ID_SIZE, SIZE_FIELD_SIZE, CRC32_SIZE]
    omega)]
  rw [hentries]
  simp only
  have htakebody : (buf.drop HEADER_SIZE).take
      (HEADER_SIZE + SIZE_FIELD_SIZE + entries_size p.data - HEADER_SIZE) = p.body_bytes := by
    show (buf.drop 23).take (23 + 4 + entries_size p.data - 23) = p.body_bytes
    rw [hdrop23, show 23 + 4 + entries_size p.data - 23 = 4 + entries_size p.data by omega]
    exact List.take_of_length_le (by rw [hblen])
  rw [htakebody]
  rw [if_neg (by simp)]
  have hcs : HEADER_SIZE + SIZE_FIELD_SIZE + entries_size p.data = p.current_size := h.cs.symm
  rw [hcs]

/-! ## Well-formedness through `new` / `push_entry` / `remove_entry` -/

theorem page_new_wf (id size : Nat) (hid : id < U64) (hsize : size < U32)
    (hmin : HEADER_SIZE + SIZE_FIELD_SIZE ≤ size) : (Page.new id size).WF := by
  refine ⟨rfl, hid, hsize, ?_, ?_, ?_⟩
  · simp [Page.new, entries_size]
  · simpa [Page.new] using hmin
  · intro e he
    simp [Page.new] at he

theorem push_entry_wf {p : Page} (h : p.WF) {k v : List Nat} (hk : ByteOK k) (hv : ByteOK v)
    (hsmall : p.current_size + ENTRY_METADATA_SIZE + k.length + v.length < U32)
    {idx : Nat} {p2 : Page} (hp : p.push_entry k v = some (idx, p2)) : p2.WF := by
  unfold Page.push_entry at hp
  by_cases hc : (p.current_size + ENTRY_METADATA_SIZE + k.length + v.length) % U32 >
      p.header.size
  · simp only [hc, if_pos] at hp
    exact absurd hp (by simp)
  · simp only [hc, if_neg, not_false_iff] at hp
    have hP : p2 = { p with
        data := p.data ++ [⟨⟨k.length % U32, v.length % U32⟩, k, v⟩],
        current_size := p.current_size + ENTRY_METADATA_SIZE + k.length + v.length } :=
      (congrArg Prod.snd (Option.some.inj hp)).symm
    subst hP
    have hklt : k.length < U32 := by
      simp only [ENTRY_METADATA_SIZE, SIZE_FIELD_SIZE] at hsmall; omega
    have hvlt : v.length < U32 := by
      simp only [ENTRY_METADATA_SIZE, SIZE_FIELD_SIZE] at hsmall; omega
    have hnowrap : (p.current_size + ENTRY_METADATA_SIZE + k.length + v.length) % U32 =
        p.current_size + ENTRY_METADATA_SIZE + k.length + v.length :=
      Nat.mod_eq_of_lt hsmall
    refine ⟨h.magic_eq, h.id_lt, h.size_lt, ?_, ?_, ?_⟩
    · show p.current_size + ENTRY_METADATA_SIZE + k.length + v.length =
        HEADER_SIZE + SIZE_FIELD_SIZE +
          entries_size (p.data ++ [⟨⟨k.length % U32, v.length % U32⟩, k, v⟩])
      have hes : entries_size (p.data ++ [⟨⟨k.length % U32, v.length % U32⟩, k, v⟩]) =
          entries_size p.data + (ENTRY_METADATA_SIZE + k.length + v.length) := by
        simp [entries_size, Entry.total_size]
      rw [hes, h.cs]
      ring
    · show p.current_size + ENTRY_METADATA_SIZE + k.length + v.length ≤ p.header.size
      omega
    · intro e he
      simp only [List.mem_append, List.mem_singleton] at he
      rcases he with he | he
      · exact h.ewf e he
      · subst he
        exact ⟨by simp [Nat.mod_eq_of_lt hklt], by simp [Nat.mod_eq_of_lt hvlt], hk, hv⟩

theorem find_eraseP_entries_size (l : List Entry) (key : List Nat) (r : Entry)
    (hf : l.find? (fun e => e.key = key) = some r) :
    entries_size (l.eraseP (fun e => e.key = key)) + r.total_size = entries_size l ∧
    (∀ e ∈ l.eraseP (fun e => e.key = key), e ∈ l) := by
  induction l with
  | nil => simp [List.find?] at hf
  | cons a as ih =>
    by_cases ha : a.key = key
    · rw [List.find?_cons_of_pos _ (by simp [ha])] at hf
      have har : a = r := Option.some.inj hf
      subst har
      rw [List.eraseP_cons_of_pos (by simp [ha])]
      exact ⟨by rw [entries_size_cons]; ring, fun e he => by simp [he]⟩
    · rw [List.find?_cons_of_neg _ (by simp [ha])] at hf
      rw [List.eraseP_cons_of_neg (by simp [ha])]
      obtain ⟨ih1, ih2⟩ := ih hf
      refine ⟨?_, ?_⟩
      · rw [entries_size_cons, entries_size_cons]
        omega
      · intro e he
        simp only [List.mem_cons] at he ⊢
        rcases he with he | he
        · exact Or.inl he
        · exact Or.inr (ih2 e he)

theorem remove_entry_wf {p : Page} (h : p.WF) (key : List Nat) :
    ((p.remove_entry key).2).WF := by
  unfold Page.remove_entry
  cases hf : p.data.find? (fun e => e.key = key) with
  | none => simpa using h
  | some r =>
    simp only
    obtain ⟨hsz, hsub⟩ := find_eraseP_entries_size p.data key r hf
    have hrmem : r ∈ p.data := List.mem_of_find?_eq_some hf
    have hrle : r.total_size ≤ entries_size p.data := total_size_le_entries_size hrmem
    refine ⟨h.magic_eq, h.id_lt, h.size_lt, ?_, ?_, ?_⟩
    · show p.current_size - r.total_size =
        HEADER_SIZE + SIZE_FIELD_SIZE + entries_size (p.data.eraseP (fun e => e.key = key))
      rw [h.cs]
      omega
    · show p.current_size - r.total_size ≤ p.header.size
      have := h.cap
      omega
    · intro e he
      exact h.ewf e (hsub e he)

/-- Pages reachable through `Page::new`, `push_entry`, and `remove_entry`
over byte-valued keys and values, with `u32`/`u64`-ranged header fields
and pushes whose size stays below the `u32` wrap. -/
inductive Page.Reached : Page → Prop
  | new (id size : Nat) (hid : id < U64) (hsize : size < U32)
      (hmin : HEADER_SIZE + SIZE_FIELD_SIZE ≤ size) : Page.Reached (Page.new id size)
  | push {p : Page} (hp : Page.Reached p) {k v : List Nat} (hk : ByteOK k) (hv : ByteOK v)
      (hsmall : p.current_size + ENTRY_METADATA_SIZE + k.length + v.length < U32)
      {idx : Nat} {p2 : Page} (hpush : p.push_entry k v = some (idx, p2)) : Page.Reached p2
  | remove {p : Page} (hp : Page.Reached p) (key : List Nat) :
      Page.Reached (p.remove_entry key).2

theorem reached_wf {p : Page} (h : Page.Reached p) : p.WF := by
  induction h with
  | new id size hid hsize hmin => exact page_new_wf id size hid hsize hmin
  | push hp hk hv hsmall hpush ih => exact push_entry_wf ih hk hv hsmall hpush
  | remove hp key ih => exact remove_entry_wf ih key

theorem header_read_size {buf : List Nat} {hd : PageHeader} {sz : Nat}
    (h : PageHeader.read_from_buffer buf = .ok (hd, sz)) : sz = HEADER_SIZE := by
  unfold PageHeader.read_from_buffer at h
  by_cases hl : buf.length < HEADER_SIZE
  · rw [if_pos hl] at h
    exact absurd h (by simp)
  · rw [if_neg hl] at h
    have := Except.ok.inj h
    exact (congrArg Prod.snd this).symm

/-! ## The block device (`src/storage/device.rs`) -/

/-- Device counters.  The latency histograms of the source record
wall-clock time and are omitted from the model. -/
structure SsdMetrics where
  reads : Nat
  writes : Nat
  read_bytes : Nat
  write_bytes : Nat
deriving DecidableEq

/-- `SsdError`, with Rust panics folded in as an extra constructor
(a panic aborts the process; it is modelled as an error that stops the
run). -/
inductive SsdError where
  | invalidPageSize
  | invalidPageId
  | panic (e : PanicErr)
deriving DecidableEq

/-- Association-list map (models `HashMap` / `BTreeMap` lookup and
insert-or-replace; iteration order is never observed by the claims). -/
def alookup {κ α : Type} [DecidableEq κ] : List (κ × α) → κ → Option α
  | [], _ => none
  | (k, v) :: rest, key => if k = key then some v else alookup rest key

def ainsert {κ α : Type} [DecidableEq κ] : List (κ × α) → κ → α → List (κ × α)
  | [], key, v => [(key, v)]
  | (k, w) :: rest, key, v =>
      if k = key then (key, v) :: rest else (k, w) :: ainsert rest key v

/-- The SSD device: the backing file as a map from page id to the
meaningful prefix of the written page-sized block (the decoder never
reads past the encoded prefix, and the source leaves the tail
undefined), plus counters. -/
structure SsdDevice where
  store : List (Nat × List Nat)
  page_size : Nat
  metrics : SsdMetrics
deriving DecidableEq

/-- `SsdDevice::new`: rejects `page_size == 0`. -/
def SsdDevice.new (page_size : Nat) : Except SsdError SsdDevice :=
  if page_size = 0 then .error .invalidPageSize
  else .ok { store := [], page_size := page_size,
             metrics := { reads := 0, writes := 0, read_bytes := 0, write_bytes := 0 } }

/-- `SsdDevice::read_page`.  The file read returns `page_size` bytes for
a written page and `0` bytes past end-of-file; the source runs
`assert_eq!(bytes_read, self.page_size)` before its `bytes_read == 0`
recovery branch, so the beyond-end-of-file case panics and the
fresh-empty-page branch is dead code. -/
def SsdDevice.read_page (d : SsdDevice) (page_id : Nat) :
    Except SsdError (SsdDevice × Page) :=
  match alookup d.store page_id with
  | none => .error (.panic .assertFailed)
  | some buf =>
      let d2 := { d with metrics := { d.metrics with
        reads := d.metrics.reads + 1,
        read_bytes := d.metrics.read_bytes + d.page_size } }
      match Page.read_from_buffer buf with
      | .error e => .error (.panic e)
      | .ok page => .ok (d2, page)

/-- `SsdDevice::write_page`: requires `page.capacity() == page_size`;
encodes into a page-sized buffer (`write_to_buffer` asserts that every
piece fits, which fails when `current_size > page_size`), writes, and
updates counters. -/
def SsdDevice.write_page (d : SsdDevice) (p : Page) : Except SsdError SsdDevice :=
  if p.capacity ≠ d.page_size then .error .invalidPageSize
  else if d.page_size < p.current_size then .error (.panic .assertFailed)
  else .ok { d with
    store := ainsert d.store p.pageId p.write_to_buffer,
    metrics := { d.metrics with
      writes := d.metrics.writes + 1,
      write_bytes := d.metrics.write_bytes + d.page_size } }

/-! ## Claim C2, C7, C8, C9 theorems -/

/-- C2 (code bug): on a fresh page, `push_entry` succeeds exactly under the
size bound, but returns the byte offset `current_size as u32` — `27` for the
first entry pushed onto `Page::new(0, 4096)` and `45` for the second — not
the entry's zero-based position (`0`, `1`) in the entry vector, which is
what the claim and the repo's own `test_page_allocation` test require. -/
theorem C2_push_entry_returns_offset_not_index :
    ((Page.new 0 4096).push_entry [107, 101, 121, 49] [118, 97, 108, 117, 101, 49]).map
        Prod.fst = some 27 ∧
    (Page.new 0 4096).data.length = 0 ∧
    (((Page.new 0 4096).push_entry [107, 101, 121, 49] [118, 97, 108, 117, 101, 49]).bind
        (fun r => (r.2.push_entry [107, 101, 121, 50] [118, 97, 108, 117, 101, 50]).map
          Prod.fst)) = some 45 := by
  decide

/-- C7 (code bug): reading a page whose offset lies beyond end-of-file
(nothing was ever written there, so the device read returns 0 bytes) does
not return a fresh empty page: the `assert_eq!(bytes_read, page_size)`
placed before the recovery branch panics first. -/
theorem C7_read_beyond_eof_panics :
    SsdDevice.read_page
      { store := [], page_size := 4096,
        metrics := { reads := 0, writes := 0, read_bytes := 0, write_bytes := 0 } } 0 =
      .error (.panic .assertFailed) := by
  rfl

/-- A buffer that is a valid encoded page except that its first magic byte
is corrupted (first 7 bytes are not "blitzkv"). -/
def badMagicBuf : List Nat := 0 :: (Page.new 5 64).write_to_buffer.drop 1

/-- C8 (counterexample): decoding does not fail on a buffer whose first 7
bytes differ from "blitzkv" — the decoder never checks the magic; this
buffer with corrupted magic and intact CRC is accepted. -/
theorem C8_counterexample_bad_magic_accepted :
    badMagicBuf.take 7 ≠ MAGIC_BYTES ∧
    (Page.read_from_buffer badMagicBuf).isOk = true := by
  decide

/-- C8 (amended): page decoding performs no magic check at all; it is
guarded only by the CRC (and structural bounds): (1) every accepted buffer
has its stored CRC equal to the CRC recomputed over the payload range
`[HEADER_SIZE .. current_size)`; (2) replacing the 7 magic bytes of a
well-formed encoded page by arbitrary bytes still decodes successfully. -/
theorem C8_decode_checks_crc_not_magic :
    (∀ buf q, Page.read_from_buffer buf = .ok q →
      crc32_hash ((buf.drop HEADER_SIZE).take (q.current_size - HEADER_SIZE)) =
        q.header.crc32) ∧
    (∀ (p : Page) (m : List Nat), p.WF → m.length = 7 →
      (Page.read_from_buffer (m ++ p.write_to_buffer.drop 7)).isOk = true) := by
  constructor
  · intro buf q hq
    unfold Page.read_from_buffer at hq
    cases hh : PageHeader.read_from_buffer buf with
    | error e => rw [hh] at hq; exact absurd hq (by simp)
    | ok hr =>
      obtain ⟨header, header_size⟩ := hr
      have hsz := header_read_size hh
      subst hsz
      rw [hh] at hq
      simp only at hq
      by_cases hlen : buf.length < HEADER_SIZE + SIZE_FIELD_SIZE
      · rw [if_pos hlen] at hq; exact absurd hq (by simp)
      · rw [if_neg hlen] at hq
        cases he : readEntries (readLE32 (buf.drop HEADER_SIZE))
            (buf.drop (HEADER_SIZE + SIZE_FIELD_SIZE)) with
        | error e => rw [he] at hq; exact absurd hq (by simp)
        | ok dr =>
          obtain ⟨data, esz⟩ := dr
          rw [he] at hq
          simp only at hq
          by_cases hcrc : crc32_hash ((buf.drop HEADER_SIZE).take
              (HEADER_SIZE + SIZE_FIELD_SIZE + esz - HEADER_SIZE)) ≠ header.crc32
          · rw [if_pos hcrc] at hq; exact absurd hq (by simp)
          · rw [if_neg hcrc] at hq
            push_neg at hcrc
            have hof := Except.ok.inj hq
            rw [← hof]
            exact hcrc
  · intro p m hwf hm
    rw [read_swapped_magic p hwf m hm]
    rfl

/-- C9 (counterexample): the claimed size identity uses a header size of
19; the code's `HEADER_SIZE` is 23 (it includes the 4-byte CRC field), so a
fresh page has `current_size = 27`, not `19 + 4 + 0 = 23`. -/
theorem C9_counterexample_header_is_23 :
    (Page.new 0 4096).current_size = 27 ∧
    (Page.new 0 4096).current_size ≠ 19 + 4 + entries_size (Page.new 0 4096).data := by
  decide

/-- C9 (amended): every page reachable through `new` / `push_entry` /
`remove_entry` (byte contents, capacity in `u32` range and at least 27,
pushes below the `u32` wrap) satisfies
`HEADER_SIZE (23) + 4 + Σ entry sizes = current_size` and
`current_size ≤ capacity`; moreover encoding and decoding it succeeds
(so the CRC verifies) and yields the same magic, id, capacity, entry
sequence and `current_size`. -/
theorem C9_page_invariants_roundtrip (p : Page) (h : Page.Reached p) :
    p.current_size = 23 + 4 + entries_size p.data ∧
    p.current_size ≤ p.capacity ∧
    Page.read_from_buffer p.write_to_buffer =
      .ok { header := { magic := p.header.magic, id := p.header.id, size := p.header.size,
                        crc32 := crc32_hash p.body_bytes },
            data := p.data, current_size := p.current_size } := by
  have hwf := reached_wf h
  refine ⟨?_, hwf.cap, write_read_roundtrip p hwf⟩
  have := hwf.cs
  simpa [HEADER_SIZE, SIZE_FIELD_SIZE, MAGIC_SIZE, ID_SIZE, CRC32_SIZE] using this

/-- The concrete page used to witness C9: `Page::new(0, 64)` after
`push_entry([1], [2])`. -/
def c9page : Page :=
  { header := { magic := MAGIC_BYTES, id := 0, size := 64, crc32 := 0 },
    data := [⟨⟨1, 1⟩, [1], [2]⟩],
    current_size := 37 }

theorem C9_page_invariants_roundtrip_witness :
    c9page.current_size = 23 + 4 + entries_size c9page.data ∧
    c9page.current_size ≤ c9page.capacity ∧
    Page.read_from_buffer c9page.write_to_buffer =
      .ok { header := { magic := c9page.header.magic, id := c9page.header.id,
                        size := c9page.header.size,
                        crc32 := crc32_hash c9page.body_bytes },
            data := c9page.data, current_size := c9page.current_size } :=
  C9_page_invariants_roundtrip c9page
    (Page.Reached.push
      (Page.Reached.new 0 64 (by norm_num [U64]) (by norm_num [U32]) (by decide))
      (by decide) (by decide) (by decide)
      (by decide : (Page.new 0 64).push_entry [1] [2] = some (27, c9page)))

example : (Page.read_from_buffer c9page.write_to_buffer).isOk = true := by decide

theorem C8_decode_checks_crc_not_magic_witness :
    (Page.read_from_buffer
      ([0, 0, 0, 0, 0, 0, 0] ++ (Page.new 5 64).write_to_buffer.drop 7)).isOk = true :=
  C8_decode_checks_crc_not_magic.2 (Page.new 5 64) [0, 0, 0, 0, 0, 0, 0]
    (page_new_wf 5 64 (by norm_num [U64]) (by norm_num [U32]) (by decide)) (by decide)

/-! ## The page manager (`src/database.rs`) -/

def DEFAULT_PAGE_SIZE : Nat := 4096
def DEFAULT_CACHE_SIZE : Nat := 50

structure Location where
  page_id : Nat
  page_index : Nat
deriving DecidableEq

/-- `PageStatus`.  `last_access` (wall-clock seconds) is omitted from the
model; no retained claim observes it. -/
structure PageStatus where
  in_memory : Option Page
  is_hot : Bool
  free_space : Nat
  access_count : Nat
deriving DecidableEq

/-- `PageManager`.  The `Rc<RefCell<Page>>` handles shared between the
LRU cache and `PageStatus.in_memory` always originate from the same
`Rc::clone`, so the model keeps the two copies equal and routes every
in-place page mutation through `setSharedPage`. The cache list is kept
in LRU order, least-recently-used first. -/
structure PageManager where
  pages : List (Nat × PageStatus)
  device : SsdDevice
  next_id : Nat
  page_size : Nat
  cache : List (Nat × Page)
  hit_count : Nat
  miss_count : Nat
  hot_free_spaces : List (Nat × List Nat)
  cold_free_spaces : List (Nat × List Nat)
deriving DecidableEq

/-- `BTreeMap` insert-or-replace keeping keys sorted. -/
def btInsertSorted : List (Nat × List Nat) → Nat → List Nat → List (Nat × List Nat)
  | [], k, v => [(k, v)]
  | (k0, v0) :: rest, k, v =>
      if k < k0 then (k, v) :: (k0, v0) :: rest
      else if k = k0 then (k, v) :: rest
      else (k0, v0) :: btInsertSorted rest k v

/-- `BTreeMap::remove`. -/
def btRemove : List (Nat × List Nat) → Nat → List (Nat × List Nat)
  | [], _ => []
  | (k0, v0) :: rest, k => if k0 = k then rest else (k0, v0) :: btRemove rest k

/-- `map.range(required..).next()`: the first (smallest, as the list is
sorted) key ≥ the bound, with its value. -/
def btMinGE : List (Nat × List Nat) → Nat → Option (Nat × List Nat)
  | [], _ => none
  | (k0, v0) :: rest, k => if k ≤ k0 then some (k0, v0) else btMinGE rest k

/-- `Vec::swap_remove(i)`: replaces element `i` with the last element and
pops. -/
def swapRemove (l : List Nat) (i : Nat) : List Nat :=
  (l.set i (l.getLastD 0)).dropLast

/-- `PageManager::update_free_space_index` on a single class map: remove
`page_id` from the `old_free` slot (dropping the slot when emptied) and
append it to the `new_free` slot; slots `0` are never stored. -/
def updateFreeMapRemove (m : List (Nat × List Nat)) (page_id old_free : Nat) :
    List (Nat × List Nat) :=
  if 0 < old_free then
    match alookup m old_free with
    | some page_list =>
        let l2 := match page_list.findIdx? (fun pid => pid = page_id) with
          | some pos => swapRemove page_list pos
          | none => page_list
        if l2 = [] then btRemove m old_free else btInsertSorted m old_free l2
    | none => m
  else m

def updateFreeMap (m : List (Nat × List Nat)) (page_id old_free new_free : Nat) :
    List (Nat × List Nat) :=
  let m1 := updateFreeMapRemove m page_id old_free
  if 0 < new_free then
    match alookup m1 new_free with
    | some l => btInsertSorted m1 new_free (l ++ [page_id])
    | none => btInsertSorted m1 new_free [page_id]
  else m1

def PageManager.update_free_space_index (pm : PageManager)
    (page_id old_free new_free : Nat) (is_hot : Bool) : PageManager :=
  if is_hot then
    { pm with hot_free_spaces := updateFreeMap pm.hot_free_spaces page_id old_free new_free }
  else
    { pm with cold_free_spaces := updateFreeMap pm.cold_free_spaces page_id old_free new_free }

/-- `PageManager::find_suitable_page_id`: smallest indexed
`free_space ≥ required_space` in the class map, first page id of its
list; an empty list at that slot yields `None` without trying larger
slots. -/
def PageManager.find_suitable_page_id (pm : PageManager) (required_space : Nat)
    (is_hot : Bool) : Option Nat :=
  let map := if is_hot then pm.hot_free_spaces else pm.cold_free_spaces
  match btMinGE map required_space with
  | some (_, page_ids) =>
      match page_ids with
      | [] => none
      | pid :: _ => some pid
  | none => none

/-- `LruCache::get`: on a hit, refresh the entry to most-recently-used
and return the shared handle. -/
def cacheGet (cache : List (Nat × Page)) (pid : Nat) : Option (Page × List (Nat × Page)) :=
  match alookup cache pid with
  | none => none
  | some p => some (p, cache.filter (fun kv => kv.1 ≠ pid) ++ [(pid, p)])

/-- `LruCache::insert` with capacity `DEFAULT_CACHE_SIZE`: insert as
most-recently-used, evicting the least-recently-used entry when full.
Eviction drops only the cached handle. -/
def cacheInsert (cache : List (Nat × Page)) (pid : Nat) (p : Page) : List (Nat × Page) :=
  let base := match alookup cache pid with
    | some _ => cache.filter (fun kv => kv.1 ≠ pid)
    | none => if DEFAULT_CACHE_SIZE ≤ cache.length then cache.tail else cache
  base ++ [(pid, p)]

/-- In-place mutation of the page handle shared (`Rc::clone`) between
`PageStatus.in_memory` and the cache: both views change together. -/
def PageManager.setSharedPage (pm : PageManager) (pid : Nat) (p : Page) : PageManager :=
  { pm with
    pages := pm.pages.map (fun kv =>
      if kv.1 = pid then (kv.1, { kv.2 with in_memory := some p }) else kv),
    cache := pm.cache.map (fun kv => if kv.1 = pid then (kv.1, p) else kv) }

/-- `PageManager::ensure_page_loaded`. -/
def PageManager.ensure_page_loaded (pm : PageManager) (page_id : Nat) :
    Except SsdError (PageManager × Page) :=
  match cacheGet pm.cache page_id with
  | some (page, cache2) =>
      let pm2 := { pm with cache := cache2, hit_count := pm.hit_count + 1 }
      let pm3 := match alookup pm2.pages page_id with
        | some status =>
            let status2 := { status with access_count := status.access_count + 1 }
            { pm2 with pages := ainsert pm2.pages page_id status2 }
        | none => pm2
      .ok (pm3, page)
  | none =>
      let pm2 := { pm with miss_count := pm.miss_count + 1 }
      match pm2.device.read_page page_id with
      | .error e => .error e
      | .ok (dev2, page) =>
          let free_space := page.free_space
          let pm3 := { pm2 with device := dev2 }
          let entry := match alookup pm3.pages page_id with
            | some st => st
            | none => { in_memory := none, is_hot := false, free_space := free_space,
                        access_count := 0 }
          let entry2 := { entry with
            in_memory := some page, free_space := free_space,
            access_count := entry.access_count + 1 }
          let pm4 := { pm3 with pages := ainsert pm3.pages page_id entry2 }
          let pm5 := pm4.update_free_space_index page_id 0 free_space entry2.is_hot
          let pm6 := { pm5 with cache := cacheInsert pm5.cache page_id page }
          .ok (pm6, page)

/-- The fresh-page path of `PageManager::set_inner` (lines 293-333),
reached when no indexed page fits or the candidate's push fails. -/
def PageManager.set_new_page (pm : PageManager) (key value : List Nat) (is_hot : Bool) :
    Except SsdError (PageManager × Option Location) :=
  let page_id := pm.next_id
  let new_page := Page.new page_id pm.page_size
  match new_page.push_entry key value with
  | some (page_index, p2) =>
      match pm.device.write_page p2 with
      | .error e => .error e
      | .ok dev2 =>
          let free_space := p2.free_space
          let st : PageStatus := {
            in_memory := some p2, is_hot := is_hot,
            free_space := free_space, access_count := 1 }
          let pm2 := { pm with device := dev2, pages := ainsert pm.pages page_id st }
          let pm3 := pm2.update_free_space_index page_id 0 free_space is_hot
          let pm4 := { pm3 with
            cache := cacheInsert pm3.cache page_id p2,
            next_id := pm3.next_id + 1 }
          .ok (pm4, some { page_id := page_id, page_index := page_index })
  | none => .ok (pm, none)

/-- `PageManager::set_inner`. -/
def PageManager.set_inner (pm : PageManager) (key value : List Nat) (is_hot : Bool) :
    Except SsdError (PageManager × Option Location) :=
  let required_space := key.length + value.length + 8
  match pm.find_suitable_page_id required_space is_hot with
  | some page_id =>
      match pm.ensure_page_loaded page_id with
      | .error e => .error e
      | .ok (pm2, page_rc) =>
          match alookup pm2.pages page_id with
          | none => .error (.panic .unwrapFailed)
          | some status =>
              let old_free := status.free_space
              match page_rc.push_entry key value with
              | some (page_index, p2) =>
                  let pm3 := pm2.setSharedPage page_id p2
                  match pm3.device.write_page p2 with
                  | .error e => .error e
                  | .ok dev2 =>
                      let new_free := p2.free_space
                      let pm4 := { pm3 with device := dev2 }
                      match alookup pm4.pages page_id with
                      | none => .error (.panic .unwrapFailed)
                      | some status2 =>
                          let status3 := { status2 with
                            free_space := new_free, is_hot := is_hot }
                          let pm5 := { pm4 with pages := ainsert pm4.pages page_id status3 }
                          let pm6 := pm5.update_free_space_index page_id old_free new_free
                            is_hot
                          .ok (pm6, some { page_id := page_id, page_index := page_index })
              | none => pm2.set_new_page key value is_hot
  | none => pm.set_new_page key value is_hot

/-- `PageManager::set` (the wrapper that refreshes the free-space slot a
second time from the in-memory handle). -/
def PageManager.set (pm : PageManager) (key value : List Nat) (is_hot : Bool) :
    Except SsdError (PageManager × Option Location) :=
  match pm.set_inner key value is_hot with
  | .error e => .error e
  | .ok (pm2, location) =>
      match location with
      | some loc =>
          match alookup pm2.pages loc.page_id with
          | some status =>
              let old_free := status.free_space
              let hot := status.is_hot
              match status.in_memory with
              | some page_rc =>
                  let new_free := page_rc.free_space
                  let status2 := { status with free_space := new_free }
                  let pm3 := { pm2 with pages := ainsert pm2.pages loc.page_id status2 }
                  let pm4 := pm3.update_free_space_index loc.page_id old_free new_free hot
                  .ok (pm4, some loc)
              | none => .ok (pm2, some loc)
          | none => .ok (pm2, some loc)
      | none => .ok (pm2, none)

/-- `PageManager::get`. -/
def PageManager.get (pm : PageManager) (location : Location) (key : List Nat) :
    Except SsdError (PageManager × Option (List Nat)) :=
  match pm.ensure_page_loaded location.page_id with
  | .error e => .error e
  | .ok (pm2, page) => .ok (pm2, page.get location.page_index key)

/-- `PageManager::new` for a given page size (fresh backing file). -/
def PageManager.init (page_size : Nat) : PageManager :=
  { pages := [], next_id := 0, page_size := page_size,
    device := { store := [], page_size := page_size,
                metrics := { reads := 0, writes := 0, read_bytes := 0, write_bytes := 0 } },
    cache := [], hit_count := 0, miss_count := 0,
    hot_free_spaces := [], cold_free_spaces := [] }

/-! ## The database facade (`src/database.rs`) -/

/-- `ObjectMetadata`.  The decayed access frequency (`f64`) and the
wall-clock `last_access` are omitted; the hotness classification they
feed is abstracted as an oracle input to `Database.set`. -/
structure ObjectMetadata where
  location : Location
  size : Nat
deriving DecidableEq

inductive DatabaseError where
  | keyNotFound
  | storageFull
  | invalidData
  | storage (e : SsdError)
deriving DecidableEq

/-- `Database`.  The frequency histogram and the visualization-only
`page_metrics` are omitted; no retained claim observes them. -/
structure Database where
  index : List (List Nat × ObjectMetadata)
  page_manager : PageManager
  hot_threshold : Nat
deriving DecidableEq

/-- `Database::new` on a fresh file with the default 4096-byte pages. -/
def Database.init (hot_threshold : Nat) : Database :=
  { index := [], page_manager := PageManager.init DEFAULT_PAGE_SIZE,
    hot_threshold := hot_threshold }

/-- `Database::set`.  The hotness decision for an existing key
(`ObjectMetadata::update_hotness`: `f64` exponential decay over
wall-clock seconds) is abstracted as the `hot_oracle` argument; every
theorem below holds for both oracle values, hence for whichever the
floating-point computation produces.  A new key is placed cold, as in
the source.  The outer `Except` carries process-fatal panics and device
errors; the inner one is the `Result` the caller sees. -/
def Database.set (db : Database) (key value : List Nat) (hot_oracle : Bool) :
    Except SsdError (Database × Except DatabaseError Unit) :=
  let is_hot := match alookup db.index key with
    | some _ => hot_oracle
    | none => false
  match db.page_manager.set key value is_hot with
  | .error e => .error e
  | .ok (pm2, location) =>
      match location with
      | some loc =>
          let metadata : ObjectMetadata :=
            { location := loc, size := key.length + value.length }
          .ok ({ db with index := ainsert db.index key metadata, page_manager := pm2 },
               .ok ())
      | none => .ok ({ db with page_manager := pm2 }, .error .storageFull)

/-- `Database::get`. -/
def Database.get (db : Database) (key : List Nat) :
    Except SsdError (Database × Except DatabaseError (List Nat)) :=
  match alookup db.index key with
  | none => .ok (db, .error .keyNotFound)
  | some metadata =>
      match db.page_manager.get metadata.location key with
      | .error e => .error e
      | .ok (pm2, ov) =>
          match ov with
          | some v => .ok ({ db with page_manager := pm2 }, .ok v)
          | none => .ok ({ db with page_manager := pm2 }, .error .invalidData)

/-- One database operation: a `set` (with its hotness-oracle value) or a
`get`. -/
inductive Op where
  | set (key value : List Nat) (hot_oracle : Bool)
  | get (key : List Nat)

def Database.step (db : Database) : Op → Except SsdError Database
  | .set k v h =>
      match db.set k v h with
      | .error e => .error e
      | .ok (db2, _) => .ok db2
  | .get k =>
      match db.get k with
      | .error e => .error e
      | .ok (db2, _) => .ok db2

/-- Run a sequence of operations; a panic or device error aborts the
process, so an aborted run has no resulting state. -/
def Database.run (db : Database) : List Op → Except SsdError Database
  | [] => .ok db
  | op :: ops =>
      match db.step op with
      | .error e => .error e
      | .ok db2 => db2.run ops

/-- One page-manager operation (`set` or `get` against a location). -/
inductive PMOp where
  | set (key value : List Nat) (is_hot : Bool)
  | get (loc : Location) (key : List Nat)

def PageManager.step (pm : PageManager) : PMOp → Except SsdError PageManager
  | .set k v h =>
      match pm.set k v h with
      | .error e => .error e
      | .ok (pm2, _) => .ok pm2
  | .get loc k =>
      match pm.get loc k with
      | .error e => .error e
      | .ok (pm2, _) => .ok pm2

def PageManager.run (pm : PageManager) : List PMOp → Except SsdError PageManager
  | [] => .ok pm
  | op :: ops =>
      match pm.step op with
      | .error e => .error e
      | .ok pm2 => pm2.run ops

/-! ## Concrete runs: claims C1, C3, C4, C5 -/

/-- 51 cold inserts of an entry that fills a 64-byte page past half (so
every insert allocates a fresh page and pages 0..50 exist, evicting page
0 from the 50-slot cache), then a `get` against page 0, which reloads
the evicted — but still indexed — page. -/
def c4ops : List PMOp :=
  List.replicate 51 (PMOp.set [1, 2, 3, 4] [5, 6, 7, 8, 9, 10, 11] false) ++
    [PMOp.get { page_id := 0, page_index := 0 } [1, 2, 3, 4]]

def c4final : PageManager :=
  match PageManager.run (PageManager.init 64) c4ops with
  | .ok pm => pm
  | .error _ => PageManager.init 64

/-- C4 (code-bug evidence): after the 52-operation sequence `c4ops` the
reload path (`ensure_page_loaded` passes `old_free = 0`) has inserted
page 0 a second time into the cold free-space index: it is listed twice
under key 18, violating the index-consistency invariant the claim
states. -/
theorem C4_page_listed_twice_after_reload :
    (PageManager.run (PageManager.init 64) c4ops).isOk = true ∧
    ((alookup c4final.cold_free_spaces 18).getD []).count 0 = 2 := by
  decide

/-- C5 (counterexample): on a fresh manager (so no suitable page exists),
`set` of an entry too large for an empty page (30 + 8 + 27 > 64) returns
no location and leaves `next_id` at 0 — no fresh page is allocated and `next_id` is not
incremented, contrary to the claim's unconditional allocation clause. -/
theorem C5_counterexample_no_allocation_when_entry_too_large :
    PageManager.set (PageManager.init 64) (List.replicate 30 7) [] false =
      .ok (PageManager.init 64, none) := by
  decide

def c1ops : List Op := [Op.set [1] [2] false, Op.set [1] [3] false]

def c1db : Database :=
  match (Database.init 3).run c1ops with
  | .ok db => db
  | .error _ => Database.init 3

/-- The caller-visible result of `Database::get` (dropping the updated
state). -/
def Database.getResult (db : Database) (key : List Nat) :
    Except DatabaseError (List Nat) :=
  match db.get key with
  | .ok (_, r) => r
  | .error e => .error (.storage e)

/-- C1 (counterexample): `set(k, [2]); set(k, [3])` places the second
version in the same page behind the first; the stored `page_index` is the
byte offset 37, which is out of range as an entry index, so the
spec-modelled `Page::get` falls back to the linear scan and returns the
FIRST match — the stale value `[2]` — although the last `set(k, _)` wrote
`[3]`.  (`hot_threshold = 3`: one prior access keeps `freq ≤ 2`, so the
hotness oracle value `false` matches the `f64` computation.) -/
theorem C1_counterexample_stale_value_shadows :
    ((Database.init 3).run c1ops).isOk = true ∧
    c1db.getResult [1] = .ok [2] ∧
    c1db.getResult [1] ≠ .ok [3] := by
  decide


/-- An entry so large that `new_size as u32` wraps: key of `2^32 - 35`
bytes. -/
def bigKey : List Nat := List.replicate (U32 - 35) 0

theorem set_init_wrap_asserts (k : List Nat) (hlen : k.length = U32 - 35) :
    (Database.init 3).set k [] false = .error (.panic .assertFailed) := by
  have harith : (27 + 8 + (U32 - 35) + 0) % U32 = 0 := by norm_num [U32]
  simp only [Database.set, Database.init, PageManager.init, alookup]
  simp only [PageManager.set, PageManager.set_inner, PageManager.find_suitable_page_id,
    btMinGE, PageManager.set_new_page, Page.push_entry, Page.new]
  simp only [List.length_nil, hlen]
  simp only [ENTRY_METADATA_SIZE, SIZE_FIELD_SIZE, HEADER_SIZE, MAGIC_SIZE, ID_SIZE,
    CRC32_SIZE, DEFAULT_PAGE_SIZE]
  norm_num [U32]
  simp only [SsdDevice.write_page, Page.capacity]
  norm_num [U32]

/-- C3 (counterexample): an entry far larger than `capacity - 23 - 4`
whose size computation wraps modulo `2^32` is accepted by `push_entry`
(`new_size as u32 = 0`), and `Database::set` then dies in the write
path's buffer assertion instead of returning `StorageFull` — the claimed
equivalence fails in the too-large direction. -/
theorem C3_counterexample_u32_wrap_not_storage_full :
    DEFAULT_PAGE_SIZE - 23 - 4 < 8 + bigKey.length ∧
    (Database.init 3).set bigKey [] false = .error (.panic .assertFailed) := by
  constructor
  · rw [show bigKey.length = U32 - 35 from List.length_replicate _ _]
    norm_num [DEFAULT_PAGE_SIZE, U32]
  · exact set_init_wrap_asserts bigKey (List.length_replicate _ _)

/-! ## Claim C5: smallest-fit selection and fresh-page allocation -/

theorem btMinGE_some_spec (m : List (Nat × List Nat)) (x f : Nat) (l : List Nat)
    (hs : m.Pairwise (fun a b => a.1 < b.1)) (h : btMinGE m x = some (f, l)) :
    (f, l) ∈ m ∧ x ≤ f ∧ ∀ kv ∈ m, x ≤ kv.1 → f ≤ kv.1 := by
  induction m with
  | nil => simp [btMinGE] at h
  | cons kv0 rest ih =>
    obtain ⟨k0, v0⟩ := kv0
    rw [List.pairwise_cons] at hs
    obtain ⟨hall, hrest⟩ := hs
    by_cases hx : x ≤ k0
    · simp only [btMinGE, if_pos hx] at h
      obtain ⟨rfl, rfl⟩ : k0 = f ∧ v0 = l := by
        have := Option.some.inj h
        exact ⟨congrArg Prod.fst this, congrArg Prod.snd this⟩
      refine ⟨by simp, hx, ?_⟩
      intro kv hkv _
      rcases List.mem_cons.mp hkv with rfl | hm
      · exact Nat.le_refl _
      · exact Nat.le_of_lt (hall kv hm)
    · simp only [btMinGE, if_neg hx] at h
      obtain ⟨hmem, hxf, hmin⟩ := ih hrest h
      refine ⟨by simp [hmem], hxf, ?_⟩
      intro kv hkv hxkv
      rcases List.mem_cons.mp hkv with rfl | hm
      · exact absurd hxkv hx
      · exact hmin kv hm hxkv

theorem btMinGE_none_iff (m : List (Nat × List Nat)) (x : Nat) :
    btMinGE m x = none ↔ ∀ kv ∈ m, kv.1 < x := by
  induction m with
  | nil => simp [btMinGE]
  | cons kv0 rest ih =>
    obtain ⟨k0, v0⟩ := kv0
    by_cases hx : x ≤ k0
    · simp only [btMinGE, if_pos hx]
      constructor
      · intro h; exact absurd h (by simp)
      · intro h
        have := h (k0, v0) (by simp)
        omega
    · simp only [btMinGE, if_neg hx]
      rw [ih]
      constructor
      · intro h kv hkv
        rcases List.mem_cons.mp hkv with rfl | hm
        · omega
        · exact h kv hm
      · intro h kv hm
        exact h kv (by simp [hm])

theorem alookup_ainsert_self {κ α : Type} [DecidableEq κ] (m : List (κ × α)) (k : κ) (v : α) :
    alookup (ainsert m k v) k = some v := by
  induction m with
  | nil => simp [ainsert, alookup]
  | cons kv0 rest ih =>
    obtain ⟨k0, v0⟩ := kv0
    by_cases hk : k0 = k
    · subst hk
      simp [ainsert, alookup]
    · simp [ainsert, alookup, hk, ih]

theorem alookup_ainsert_other {κ α : Type} [DecidableEq κ] (m : List (κ × α)) (k k2 : κ)
    (v : α) (h : k2 ≠ k) : alookup (ainsert m k v) k2 = alookup m k2 := by
  induction m with
  | nil =>
    simp only [ainsert, alookup]
    rw [if_neg (Ne.symm h)]
  | cons kv0 rest ih =>
    obtain ⟨k0, v0⟩ := kv0
    by_cases hk : k0 = k
    · subst hk
      simp only [ainsert, if_pos rfl, alookup]
      rw [if_neg (Ne.symm h), if_neg (Ne.symm h)]
    · simp only [ainsert, if_neg hk, alookup]
      by_cases hk2 : k0 = k2
      · rw [if_pos hk2, if_pos hk2]
      · rw [if_neg hk2, if_neg hk2, ih]

theorem updateFS_pages (pm : PageManager) (a b c : Nat) (h : Bool) :
    (pm.update_free_space_index a b c h).pages = pm.pages := by
  cases h <;> simp [PageManager.update_free_space_index]

theorem updateFS_next_id (pm : PageManager) (a b c : Nat) (h : Bool) :
    (pm.update_free_space_index a b c h).next_id = pm.next_id := by
  cases h <;> simp [PageManager.update_free_space_index]

theorem updateFS_cache (pm : PageManager) (a b c : Nat) (h : Bool) :
    (pm.update_free_space_index a b c h).cache = pm.cache := by
  cases h <;> simp [PageManager.update_free_space_index]

theorem updateFS_device (pm : PageManager) (a b c : Nat) (h : Bool) :
    (pm.update_free_space_index a b c h).device = pm.device := by
  cases h <;> simp [PageManager.update_free_space_index]

theorem updateFS_page_size (pm : PageManager) (a b c : Nat) (h : Bool) :
    (pm.update_free_space_index a b c h).page_size = pm.page_size := by
  cases h <;> simp [PageManager.update_free_space_index]

theorem updateFS_hit_count (pm : PageManager) (a b c : Nat) (h : Bool) :
    (pm.update_free_space_index a b c h).hit_count = pm.hit_count := by
  cases h <;> simp [PageManager.update_free_space_index]

theorem updateFS_miss_count (pm : PageManager) (a b c : Nat) (h : Bool) :
    (pm.update_free_space_index a b c h).miss_count = pm.miss_count := by
  cases h <;> simp [PageManager.update_free_space_index]

/-- When no indexed page fits, `PageManager::set` of an entry that fits
an empty page allocates the fresh page `next_id`, increments `next_id`,
and returns a location in that new page. -/
theorem pm_set_fresh_page (pm : PageManager) (k v : List Nat) (hot : Bool)
    (hnone : pm.find_suitable_page_id (k.length + v.length + 8) hot = none)
    (hfit : HEADER_SIZE + SIZE_FIELD_SIZE + ENTRY_METADATA_SIZE + k.length + v.length ≤
      pm.page_size)
    (hps : pm.page_size < U32)
    (hdev : pm.device.page_size = pm.page_size) :
    ∃ pm2 idx, pm.set k v hot =
        .ok (pm2, some { page_id := pm.next_id, page_index := idx }) ∧
      pm2.next_id = pm.next_id + 1 := by
  have hns : HEADER_SIZE + SIZE_FIELD_SIZE + ENTRY_METADATA_SIZE + k.length + v.length < U32 :=
    lt_of_le_of_lt hfit hps
  have hpush : (Page.new pm.next_id pm.page_size).push_entry k v =
      some ((HEADER_SIZE + SIZE_FIELD_SIZE) % U32,
        { header := { magic := MAGIC_BYTES, id := pm.next_id, size := pm.page_size, crc32 := 0 },
          data := [⟨⟨k.length % U32, v.length % U32⟩, k, v⟩],
          current_size := HEADER_SIZE + SIZE_FIELD_SIZE + ENTRY_METADATA_SIZE +
            k.length + v.length }) := by
    unfold Page.push_entry
    simp only [Page.new]
    rw [if_neg (by rw [Nat.mod_eq_of_lt hns]; omega)]
    simp
  have hc2 : ¬ (pm.device.page_size <
      HEADER_SIZE + SIZE_FIELD_SIZE + ENTRY_METADATA_SIZE + k.length + v.length) := by
    rw [hdev]; omega
  simp only [PageManager.set, PageManager.set_inner, hnone, PageManager.set_new_page, hpush,
    SsdDevice.write_page, Page.capacity]
  rw [if_neg (by rw [hdev]; simp)]
  rw [if_neg hc2]
  simp only [updateFS_pages, updateFS_next_id, alookup_ainsert_self]
  refine ⟨_, _, rfl, ?_⟩
  simp only [updateFS_next_id]

/-- C5 (amended): (1) whenever `find_suitable_page_id` selects a candidate,
that candidate is the first page listed under the smallest indexed
`free_space ≥ required` of the requested class (a deterministic choice);
(2) given the representation invariants of the `BTreeMap` model (sorted
keys, no empty lists), no candidate is found exactly when no page is
listed under any `free_space ≥ required`; (3) in that case, `set` of an
entry that fits an empty page allocates a fresh page whose id is the
current `next_id`, increments `next_id`, and returns a location in that
new page.  (When the entry does not fit an empty page, no page is
allocated and no location is returned — see the counterexample.) -/
theorem C5_smallest_fit_and_fresh_page :
    (∀ (pm : PageManager) (required : Nat) (hot : Bool) (pid : Nat),
      ((if hot then pm.hot_free_spaces else pm.cold_free_spaces).Pairwise
        (fun a b => a.1 < b.1)) →
      pm.find_suitable_page_id required hot = some pid →
      ∃ f l, (f, l) ∈ (if hot then pm.hot_free_spaces else pm.cold_free_spaces) ∧
        required ≤ f ∧ l.head? = some pid ∧
        ∀ kv ∈ (if hot then pm.hot_free_spaces else pm.cold_free_spaces),
          required ≤ kv.1 → f ≤ kv.1) ∧
    (∀ (pm : PageManager) (required : Nat) (hot : Bool),
      ((if hot then pm.hot_free_spaces else pm.cold_free_spaces).Pairwise
        (fun a b => a.1 < b.1)) →
      (∀ kv ∈ (if hot then pm.hot_free_spaces else pm.cold_free_spaces), kv.2 ≠ []) →
      (pm.find_suitable_page_id required hot = none ↔
        ∀ kv ∈ (if hot then pm.hot_free_spaces else pm.cold_free_spaces),
          kv.1 < required)) ∧
    (∀ (pm : PageManager) (k v : List Nat) (hot : Bool),
      pm.find_suitable_page_id (k.length + v.length + 8) hot = none →
      HEADER_SIZE + SIZE_FIELD_SIZE + ENTRY_METADATA_SIZE + k.length + v.length ≤
        pm.page_size →
      pm.page_size < U32 → pm.device.page_size = pm.page_size →
      ∃ pm2 idx, pm.set k v hot =
          .ok (pm2, some { page_id := pm.next_id, page_index := idx }) ∧
        pm2.next_id = pm.next_id + 1) := by
  refine ⟨?_, ?_, ?_⟩
  · intro pm required hot pid hs hfind
    simp only [PageManager.find_suitable_page_id] at hfind
    cases hbt : btMinGE (if hot = true then pm.hot_free_spaces else pm.cold_free_spaces)
        required with
    | none => rw [hbt] at hfind; exact absurd hfind (by simp)
    | some fl =>
      obtain ⟨f, l⟩ := fl
      rw [hbt] at hfind
      cases l with
      | nil => exact absurd hfind (by simp)
      | cons pid0 rest =>
        simp only at hfind
        have hpid : pid0 = pid := Option.some.inj hfind
        subst hpid
        obtain ⟨hmem, hge, hmin⟩ := btMinGE_some_spec _ _ _ _ hs hbt
        exact ⟨f, pid0 :: rest, hmem, hge, rfl, hmin⟩
  · intro pm required hot hs hne
    simp only [PageManager.find_suitable_page_id]
    cases hbt : btMinGE (if hot = true then pm.hot_free_spaces else pm.cold_free_spaces)
        required with
    | none =>
      simp only
      constructor
      · intro _
        exact (btMinGE_none_iff _ _).mp hbt
      · intro _
        exact trivial
    | some fl =>
      obtain ⟨f, l⟩ := fl
      obtain ⟨hmem, hge, _⟩ := btMinGE_some_spec _ _ _ _ hs hbt
      cases l with
      | nil => exact absurd (hne (f, []) hmem) (by simp)
      | cons pid0 rest =>
        simp only
        constructor
        · intro hc; exact absurd hc (by simp)
        · intro hall
          have := hall (f, pid0 :: rest) hmem
          omega
  · intro pm k v hot hnone hfit hps hdev
    exact pm_set_fresh_page pm k v hot hnone hfit hps hdev

theorem C5_smallest_fit_and_fresh_page_witness :
    ∃ pm2 idx, (PageManager.init 64).set [1] [2] false =
        .ok (pm2, some { page_id := (PageManager.init 64).next_id, page_index := idx }) ∧
      pm2.next_id = (PageManager.init 64).next_id + 1 :=
  C5_smallest_fit_and_fresh_page.2.2 (PageManager.init 64) [1] [2] false rfl
    (by decide) (by decide) rfl

/-! ## Invariants of reachable database states (claims C1, C3, C10) -/

theorem mem_btInsertSorted {m : List (Nat × List Nat)} {k : Nat} {v : List Nat}
    {kv : Nat × List Nat} (h : kv ∈ btInsertSorted m k v) : kv = (k, v) ∨ kv ∈ m := by
  induction m with
  | nil => simpa [btInsertSorted] using h
  | cons kv0 rest ih =>
    obtain ⟨k0, v0⟩ := kv0
    by_cases hlt : k < k0
    · simp only [btInsertSorted, if_pos hlt] at h
      rcases List.mem_cons.mp h with rfl | h2
      · exact Or.inl rfl
      · exact Or.inr h2
    · by_cases heq : k = k0
      · simp only [btInsertSorted, if_neg hlt, if_pos heq] at h
        rcases List.mem_cons.mp h with rfl | h2
        · exact Or.inl rfl
        · exact Or.inr (by simp [h2])
      · simp only [btInsertSorted, if_neg hlt, if_neg heq] at h
        rcases List.mem_cons.mp h with rfl | h2
        · exact Or.inr (by simp)
        · rcases ih h2 with h3 | h3
          · exact Or.inl h3
          · exact Or.inr (by simp [h3])

theorem btInsertSorted_sorted {m : List (Nat × List Nat)} (k : Nat) (v : List Nat)
    (hs : m.Pairwise (fun a b => a.1 < b.1)) :
    (btInsertSorted m k v).Pairwise (fun a b => a.1 < b.1) := by
  induction m with
  | nil => simp [btInsertSorted]
  | cons kv0 rest ih =>
    obtain ⟨k0, v0⟩ := kv0
    rw [List.pairwise_cons] at hs
    obtain ⟨hall, hrest⟩ := hs
    by_cases hlt : k < k0
    · simp only [btInsertSorted, if_pos hlt]
      rw [List.pairwise_cons]
      constructor
      · intro kv hkv
        rcases List.mem_cons.mp hkv with rfl | h2
        · exact hlt
        · exact lt_trans hlt (hall kv h2)
      · rw [List.pairwise_cons]
        exact ⟨hall, hrest⟩
    · by_cases heq : k = k0
      · subst heq
        simp only [btInsertSorted, if_neg hlt, eq_self_iff_true, if_true]
        rw [List.pairwise_cons]
        exact ⟨hall, hrest⟩
      · simp only [btInsertSorted, if_neg hlt, if_neg heq]
        rw [List.pairwise_cons]
        constructor
        · intro kv hkv
          rcases mem_btInsertSorted hkv with rfl | h2
          · omega
          · exact hall kv h2
        · exact ih hrest

theorem btRemove_sublist (m : List (Nat × List Nat)) (k : Nat) :
    (btRemove m k).Sublist m := by
  induction m with
  | nil => simp [btRemove]
  | cons kv0 rest ih =>
    obtain ⟨k0, v0⟩ := kv0
    by_cases hk : k0 = k
    · simp only [btRemove, if_pos hk]
      exact List.sublist_cons_self _ _
    · simp only [btRemove, if_neg hk]
      exact List.Sublist.cons₂ _ ih

theorem mem_btRemove {m : List (Nat × List Nat)} {k : Nat} {kv : Nat × List Nat}
    (h : kv ∈ btRemove m k) : kv ∈ m :=
  (btRemove_sublist m k).mem h

theorem btRemove_sorted {m : List (Nat × List Nat)} (k : Nat)
    (hs : m.Pairwise (fun a b => a.1 < b.1)) :
    (btRemove m k).Pairwise (fun a b => a.1 < b.1) :=
  hs.sublist (btRemove_sublist m k)

theorem mem_swapRemove {l : List Nat} {i : Nat} {x : Nat} (hne : l ≠ [])
    (h : x ∈ swapRemove l i) : x ∈ l := by
  unfold swapRemove at h
  have h2 := List.dropLast_sublist (l.set i (l.getLastD 0))
  have h3 := h2.mem h
  rcases List.mem_or_eq_of_mem_set h3 with h4 | h4
  · exact h4
  · subst h4
    cases l with
    | nil => exact absurd rfl hne
    | cons a as =>
      rw [List.getLastD_eq_getLast?, List.getLast?_eq_getLast _ (by simp)]
      · simp [List.getLast_mem]

theorem alookup_mem {κ α : Type} [DecidableEq κ] {m : List (κ × α)} {k : κ} {v : α}
    (h : alookup m k = some v) : (k, v) ∈ m := by
  induction m with
  | nil => simp [alookup] at h
  | cons kv0 rest ih =>
    obtain ⟨k0, v0⟩ := kv0
    by_cases hk : k0 = k
    · subst hk
      simp only [alookup, eq_self_iff_true, if_true] at h
      have := Option.some.inj h
      simp [this]
    · simp only [alookup, if_neg hk] at h
      exact List.mem_cons_of_mem _ (ih h)

/-- Elements of the removal stage of `update_free_space_index`: every
surviving pair has a key present in `m` and a list that is a subset of
the original list at that key; lists stay nonempty. -/
theorem mem_updateFreeMapRemove {m : List (Nat × List Nat)} {pid old : Nat}
    {kv : Nat × List Nat} (hne : ∀ kv0 ∈ m, kv0.2 ≠ [])
    (h : kv ∈ updateFreeMapRemove m pid old) :
    kv.2 ≠ [] ∧ ∃ l0, (kv.1, l0) ∈ m ∧ ∀ x ∈ kv.2, x ∈ l0 := by
  unfold updateFreeMapRemove at h
  by_cases hold : 0 < old
  · rw [if_pos hold] at h
    cases hl : alookup m old with
    | none =>
      rw [hl] at h
      exact ⟨hne kv h, kv.2, by simp [h], fun x hx => hx⟩
    | some page_list =>
      rw [hl] at h
      simp only at h
      have hplmem : (old, page_list) ∈ m := alookup_mem hl
      set l2 := (match page_list.findIdx? (fun pid2 => pid2 = pid) with
        | some pos => swapRemove page_list pos
        | none => page_list) with hl2
      have hsub : ∀ x ∈ l2, x ∈ page_list := by
        intro x hx
        rw [hl2] at hx
        cases hfi : page_list.findIdx? (fun pid2 => pid2 = pid) with
        | none => rw [hfi] at hx; exact hx
        | some pos =>
          rw [hfi] at hx
          by_cases hpl : page_list = []
          · subst hpl
            simp [swapRemove] at hx
          · exact mem_swapRemove hpl hx
      by_cases hl2e : l2 = []
      · rw [if_pos hl2e] at h
        exact ⟨hne kv (mem_btRemove h), kv.2, mem_btRemove h, fun x hx => hx⟩
      · rw [if_neg hl2e] at h
        rcases mem_btInsertSorted h with rfl | h2
        · exact ⟨hl2e, page_list, hplmem, hsub⟩
        · exact ⟨hne kv h2, kv.2, h2, fun x hx => hx⟩
  · rw [if_neg hold] at h
    exact ⟨hne kv h, kv.2, by simp [h], fun x hx => hx⟩

/-- Elements of `updateFreeMap m pid old new`: lists stay nonempty, and
every listed id either appeared in some list of `m` or is `pid`; the key
of a pair is either a key of `m` or `new`. -/
theorem mem_updateFreeMap {m : List (Nat × List Nat)} {pid old new : Nat}
    {kv : Nat × List Nat} (hne : ∀ kv0 ∈ m, kv0.2 ≠ [])
    (h : kv ∈ updateFreeMap m pid old new) :
    kv.2 ≠ [] ∧ ((∃ l0, (kv.1, l0) ∈ m) ∨ kv.1 = new) ∧
      ∀ x ∈ kv.2, x = pid ∨ ∃ l0, ∃ f0, (f0, l0) ∈ m ∧ x ∈ l0 := by
  unfold updateFreeMap at h
  simp only at h
  by_cases hnew : 0 < new
  · rw [if_pos hnew] at h
    cases hl : alookup (updateFreeMapRemove m pid old) new with
    | some l =>
      rw [hl] at h
      rcases mem_btInsertSorted h with rfl | h2
      · have hl1 := mem_updateFreeMapRemove hne (alookup_mem hl)
        obtain ⟨hlen, l0, hl0mem, hl0sub⟩ := hl1
        refine ⟨by simp, Or.inr rfl, ?_⟩
        intro x hx
        simp only [List.mem_append, List.mem_singleton] at hx
        rcases hx with hx | hx
        · exact Or.inr ⟨l0, new, hl0mem, hl0sub x hx⟩
        · exact Or.inl hx
      · obtain ⟨hlen, l0, hl0mem, hl0sub⟩ := mem_updateFreeMapRemove hne h2
        exact ⟨hlen, Or.inl ⟨l0, hl0mem⟩, fun x hx =>
          Or.inr ⟨l0, kv.1, hl0mem, hl0sub x hx⟩⟩
    | none =>
      rw [hl] at h
      rcases mem_btInsertSorted h with rfl | h2
      · refine ⟨by simp, Or.inr rfl, ?_⟩
        intro x hx
        simp only [List.mem_singleton] at hx
        exact Or.inl hx
      · obtain ⟨hlen, l0, hl0mem, hl0sub⟩ := mem_updateFreeMapRemove hne h2
        exact ⟨hlen, Or.inl ⟨l0, hl0mem⟩, fun x hx =>
          Or.inr ⟨l0, kv.1, hl0mem, hl0sub x hx⟩⟩
  · rw [if_neg hnew] at h
    obtain ⟨hlen, l0, hl0mem, hl0sub⟩ := mem_updateFreeMapRemove hne h
    exact ⟨hlen, Or.inl ⟨l0, hl0mem⟩, fun x hx =>
      Or.inr ⟨l0, kv.1, hl0mem, hl0sub x hx⟩⟩

theorem updateFreeMapRemove_sorted {m : List (Nat × List Nat)} (pid old : Nat)
    (hs : m.Pairwise (fun a b => a.1 < b.1)) :
    (updateFreeMapRemove m pid old).Pairwise (fun a b => a.1 < b.1) := by
  unfold updateFreeMapRemove
  by_cases hold : 0 < old
  · rw [if_pos hold]
    cases hl : alookup m old with
    | none => exact hs
    | some page_list =>
      simp only
      by_cases he : (match page_list.findIdx? (fun pid2 => pid2 = pid) with
        | some pos => swapRemove page_list pos
        | none => page_list) = []
      · rw [if_pos he]
        exact btRemove_sorted old hs
      · rw [if_neg he]
        exact btInsertSorted_sorted _ _ hs
  · rw [if_neg hold]
    exact hs

theorem updateFreeMap_sorted {m : List (Nat × List Nat)} (pid old new : Nat)
    (hs : m.Pairwise (fun a b => a.1 < b.1)) :
    (updateFreeMap m pid old new).Pairwise (fun a b => a.1 < b.1) := by
  unfold updateFreeMap
  simp only
  have h1 := updateFreeMapRemove_sorted pid old hs
  by_cases hnew : 0 < new
  · rw [if_pos hnew]
    cases hl : alookup (updateFreeMapRemove m pid old) new with
    | some l => exact btInsertSorted_sorted _ _ h1
    | none => exact btInsertSorted_sorted _ _ h1
  · rw [if_neg hnew]
    exact h1

theorem alookup_append {κ α : Type} [DecidableEq κ] (l1 l2 : List (κ × α)) (k : κ) :
    alookup (l1 ++ l2) k =
      match alookup l1 k with
      | some v => some v
      | none => alookup l2 k := by
  induction l1 with
  | nil => simp [alookup]
  | cons kv0 rest ih =>
    obtain ⟨k0, v0⟩ := kv0
    by_cases hk : k0 = k
    · simp [alookup, hk]
    · simp [alookup, hk, ih]

theorem alookup_filter_ne {α : Type} (l : List (Nat × α)) (pid q : Nat) (h : q ≠ pid) :
    alookup (l.filter (fun kv => kv.1 ≠ pid)) q = alookup l q := by
  induction l with
  | nil => simp [alookup]
  | cons kv0 rest ih =>
    obtain ⟨k0, v0⟩ := kv0
    by_cases hk0 : k0 = pid
    · subst hk0
      rw [List.filter_cons_of_neg (by simp)]
      rw [ih]
      simp only [alookup]
      rw [if_neg (fun hc => h hc.symm)]
    · rw [List.filter_cons_of_pos (by simp [hk0])]
      simp only [alookup]
      by_cases hq : k0 = q
      · rw [if_pos hq, if_pos hq]
      · rw [if_neg hq, if_neg hq, ih]

theorem alookup_filter_self {α : Type} (l : List (Nat × α)) (pid : Nat) :
    alookup (l.filter (fun kv => kv.1 ≠ pid)) pid = none := by
  induction l with
  | nil => simp [alookup]
  | cons kv0 rest ih =>
    obtain ⟨k0, v0⟩ := kv0
    by_cases hk0 : k0 = pid
    · subst hk0
      rw [List.filter_cons_of_neg (by simp)]
      exact ih
    · rw [List.filter_cons_of_pos (by simp [hk0])]
      simp only [alookup]
      rw [if_neg hk0]
      exact ih

theorem alookup_eq_none_iff {κ α : Type} [DecidableEq κ] (m : List (κ × α)) (k : κ) :
    alookup m k = none ↔ k ∉ m.map Prod.fst := by
  induction m with
  | nil => simp [alookup]
  | cons kv0 rest ih =>
    obtain ⟨k0, v0⟩ := kv0
    by_cases hk : k0 = k
    · subst hk
      simp [alookup]
    · simp only [alookup, if_neg hk, ih, List.map_cons, List.mem_cons, not_or]
      constructor
      · intro h
        exact ⟨fun hc => hk hc.symm, h⟩
      · intro h
        exact h.2

theorem alookup_isSome_iff {κ α : Type} [DecidableEq κ] (m : List (κ × α)) (k : κ) :
    (alookup m k).isSome = true ↔ k ∈ m.map Prod.fst := by
  induction m with
  | nil => simp [alookup]
  | cons kv0 rest ih =>
    obtain ⟨k0, v0⟩ := kv0
    by_cases hk : k0 = k
    · subst hk
      simp [alookup]
    · simp only [alookup, if_neg hk, List.map_cons, List.mem_cons, ih]
      constructor
      · intro h
        exact Or.inr h
      · intro h
        rcases h with hc | hc
        · exact absurd hc.symm hk
        · exact hc

theorem alookup_mapModify {α : Type} (l : List (Nat × α)) (pid q : Nat) (f : α → α) :
    alookup (l.map (fun kv => if kv.1 = pid then (kv.1, f kv.2) else kv)) q =
      if q = pid then (alookup l q).map f else alookup l q := by
  induction l with
  | nil => by_cases h : q = pid <;> simp [alookup, h]
  | cons kv0 rest ih =>
    obtain ⟨k0, v0⟩ := kv0
    by_cases hk0 : k0 = pid
    · subst hk0
      simp only [List.map_cons, eq_self_iff_true, if_true]
      simp only [alookup]
      by_cases hq : k0 = q
      · subst hq
        rw [if_pos rfl, if_pos rfl]
        simp [alookup]
      · rw [if_neg hq, ih]
        by_cases hq2 : q = k0
        · exact absurd hq2.symm hq
        · rw [if_neg hq2, if_neg hq2]
          simp [alookup, hq]
    · simp only [List.map_cons, if_neg hk0]
      simp only [alookup]
      by_cases hq : k0 = q
      · subst hq
        rw [if_pos rfl]
        rw [if_neg (fun hc : k0 = pid => hk0 hc)]
        simp [alookup]
      · rw [if_neg hq, ih]
        by_cases hqp : q = pid
        · rw [if_pos hqp, if_pos hqp]
          simp [alookup, hq]
        · rw [if_neg hqp, if_neg hqp]
          simp [alookup, hq]

/-- The entry data of the in-memory page at `pid` (the shared handle's
content). -/
def pageDataAt (pm : PageManager) (pid : Nat) : Option (List Entry) :=
  match alookup pm.pages pid with
  | some st => st.in_memory.map Page.data
  | none => none

/-- The invariant of page-manager states reachable through the database
facade: every known page has an in-memory handle whose encoding is the
device copy; cache entries alias the canonical handle; free-space maps
are sorted, list only known pages under feasible keys, and hold no empty
lists; `next_id` is fresh. -/
structure PMInv (pm : PageManager) : Prop where
  ps_lo : HEADER_SIZE + SIZE_FIELD_SIZE ≤ pm.page_size
  ps_hi : pm.page_size * 2 < U32
  dev_ps : pm.device.page_size = pm.page_size
  pages_ok : ∀ pid st, alookup pm.pages pid = some st →
    ∃ p, st.in_memory = some p ∧ p.header.id = pid ∧ p.header.size = pm.page_size ∧
      p.WF ∧ alookup pm.device.store pid = some p.write_to_buffer
  cache_ok : ∀ pid q, alookup pm.cache pid = some q →
    ∃ st, alookup pm.pages pid = some st ∧ st.in_memory = some q
  cache_nodup : (pm.cache.map Prod.fst).Nodup
  hot_ok : ∀ kv ∈ pm.hot_free_spaces, kv.2 ≠ [] ∧
    HEADER_SIZE + SIZE_FIELD_SIZE + kv.1 ≤ pm.page_size ∧
    ∀ q ∈ kv.2, (alookup pm.pages q).isSome = true
  cold_ok : ∀ kv ∈ pm.cold_free_spaces, kv.2 ≠ [] ∧
    HEADER_SIZE + SIZE_FIELD_SIZE + kv.1 ≤ pm.page_size ∧
    ∀ q ∈ kv.2, (alookup pm.pages q).isSome = true
  hot_sorted : pm.hot_free_spaces.Pairwise (fun a b => a.1 < b.1)
  cold_sorted : pm.cold_free_spaces.Pairwise (fun a b => a.1 < b.1)
  fresh : ∀ pid, (alookup pm.pages pid).isSome = true → pid < pm.next_id

theorem cacheGet_refresh_nodup {cache : List (Nat × Page)} {pid : Nat} {p : Page}
    (h : (cache.map Prod.fst).Nodup) :
    (((cache.filter (fun kv => kv.1 ≠ pid)) ++ [(pid, p)]).map Prod.fst).Nodup := by
  rw [List.map_append, List.nodup_append]
  refine ⟨?_, by simp, ?_⟩
  · exact h.sublist ((List.filter_sublist _).map Prod.fst)
  · intro x hx hxy
    simp only [List.map_cons, List.map_nil, List.mem_singleton] at hxy
    subst hxy
    simp only [List.mem_map] at hx
    obtain ⟨kv, hkv, rfl⟩ := hx
    have := List.of_mem_filter hkv
    simpa using this

theorem cacheInsert_nodup {cache : List (Nat × Page)} {pid : Nat} {p : Page}
    (h : (cache.map Prod.fst).Nodup) :
    ((cacheInsert cache pid p).map Prod.fst).Nodup := by
  unfold cacheInsert
  cases hl : alookup cache pid with
  | some q =>
    simp only
    exact cacheGet_refresh_nodup h
  | none =>
    simp only
    have hpid : pid ∉ cache.map Prod.fst := (alookup_eq_none_iff _ _).mp hl
    by_cases hfull : DEFAULT_CACHE_SIZE ≤ cache.length
    · rw [if_pos hfull, List.map_append, List.nodup_append]
      refine ⟨h.sublist ((List.tail_sublist _).map Prod.fst), by simp, ?_⟩
      intro x hx hxy
      simp only [List.map_cons, List.map_nil, List.mem_singleton] at hxy
      subst hxy
      exact hpid (((List.tail_sublist cache).map Prod.fst).mem hx)
    · rw [if_neg hfull, List.map_append, List.nodup_append]
      refine ⟨h, by simp, ?_⟩
      intro x hx hxy
      simp only [List.map_cons, List.map_nil, List.mem_singleton] at hxy
      subst hxy
      exact hpid hx

theorem alookup_tail_of_nodup {α : Type} {cache : List (Nat × α)} {q : Nat} {x : α}
    (hnd : (cache.map Prod.fst).Nodup) (h : alookup cache.tail q = some x) :
    alookup cache q = some x := by
  cases cache with
  | nil => simpa [alookup] using h
  | cons kv0 rest =>
    obtain ⟨k0, v0⟩ := kv0
    simp only [List.tail_cons] at h
    simp only [alookup]
    by_cases hk : k0 = q
    · subst hk
      exfalso
      have : k0 ∈ rest.map Prod.fst := by
        have := alookup_mem h
        exact List.mem_map_of_mem Prod.fst this
      simp only [List.map_cons, List.nodup_cons] at hnd
      exact hnd.1 this
    · rw [if_neg hk]
      exact h

theorem alookup_append_single_cases {α : Type} (base : List (Nat × α)) (pid : Nat) (p : α)
    (q : Nat) (w : α) (h : alookup (base ++ [(pid, p)]) q = some w) :
    alookup base q = some w ∨ (q = pid ∧ w = p ∧ alookup base q = none) := by
  rw [alookup_append] at h
  cases h2 : alookup base q with
  | some y =>
    rw [h2] at h
    exact Or.inl h
  | none =>
    rw [h2] at h
    simp only [alookup] at h
    by_cases hq : pid = q
    · rw [if_pos hq] at h
      exact Or.inr ⟨hq.symm, (Option.some.inj h).symm, rfl⟩
    · rw [if_neg hq] at h
      simp [alookup] at h

theorem alookup_refresh_cases {α : Type} (cache : List (Nat × α)) (pid : Nat) (p : α)
    (q : Nat) (w : α)
    (h : alookup (cache.filter (fun kv => kv.1 ≠ pid) ++ [(pid, p)]) q = some w) :
    (q = pid ∧ w = p) ∨ (q ≠ pid ∧ alookup cache q = some w) := by
  rcases alookup_append_single_cases _ _ _ _ _ h with h2 | ⟨rfl, rfl, _⟩
  · by_cases hq : q = pid
    · subst hq
      rw [alookup_filter_self] at h2
      exact absurd h2 (by simp)
    · rw [alookup_filter_ne _ _ _ hq] at h2
      exact Or.inr ⟨hq, h2⟩
  · exact Or.inl ⟨rfl, rfl⟩

theorem alookup_cacheInsert_cases {cache : List (Nat × Page)} (pid : Nat) (p : Page)
    (q : Nat) (w : Page) (hnd : (cache.map Prod.fst).Nodup)
    (h : alookup (cacheInsert cache pid p) q = some w) :
    (q = pid ∧ w = p) ∨ alookup cache q = some w := by
  unfold cacheInsert at h
  cases hl : alookup cache pid with
  | some y =>
    rw [hl] at h
    simp only at h
    rcases alookup_refresh_cases _ _ _ _ _ h with h2 | ⟨_, h2⟩
    · exact Or.inl h2
    · exact Or.inr h2
  | none =>
    rw [hl] at h
    simp only at h
    by_cases hfull : DEFAULT_CACHE_SIZE ≤ cache.length
    · rw [if_pos hfull] at h
      rcases alookup_append_single_cases _ _ _ _ _ h with h2 | ⟨rfl, rfl, _⟩
      · exact Or.inr (alookup_tail_of_nodup hnd h2)
      · exact Or.inl ⟨rfl, rfl⟩
    · rw [if_neg hfull] at h
      rcases alookup_append_single_cases _ _ _ _ _ h with h2 | ⟨rfl, rfl, _⟩
      · exact Or.inr h2
      · exact Or.inl ⟨rfl, rfl⟩

theorem alookup_ainsert_isSome {κ α : Type} [DecidableEq κ] (m : List (κ × α)) (k : κ)
    (v : α) (q : κ) :
    (alookup (ainsert m k v) q).isSome = true ↔ q = k ∨ (alookup m q).isSome = true := by
  by_cases hq : q = k
  · subst hq
    rw [alookup_ainsert_self]
    simp
  · rw [alookup_ainsert_other _ _ _ _ hq]
    simp [hq]

/-- Decoding the written buffer of a well-formed page gives back a page
that agrees with it on everything except the stored CRC field, and whose
re-encoding is the very same buffer. -/
theorem roundtrip_facts (p : Page) (h : p.WF) :
    ∃ q, Page.read_from_buffer p.write_to_buffer = .ok q ∧ q.data = p.data ∧
      q.current_size = p.current_size ∧ q.header.id = p.header.id ∧
      q.header.size = p.header.size ∧ q.header.magic = p.header.magic ∧
      q.WF ∧ q.write_to_buffer = p.write_to_buffer ∧ q.free_space = p.free_space := by
  refine ⟨_, write_read_roundtrip p h, rfl, rfl, rfl, rfl, rfl,
    ⟨h.magic_eq, h.id_lt, h.size_lt, h.cs, h.cap, h.ewf⟩, rfl, rfl⟩

theorem updateFS_hot_maps (pm : PageManager) (a b c : Nat) (h : Bool) :
    (pm.update_free_space_index a b c h).hot_free_spaces =
      cond h (updateFreeMap pm.hot_free_spaces a b c) pm.hot_free_spaces := by
  cases h <;> simp [PageManager.update_free_space_index]

theorem updateFS_cold_maps (pm : PageManager) (a b c : Nat) (h : Bool) :
    (pm.update_free_space_index a b c h).cold_free_spaces =
      cond h pm.cold_free_spaces (updateFreeMap pm.cold_free_spaces a b c) := by
  cases h <;> simp [PageManager.update_free_space_index]

/-- The class-map property survives `updateFreeMap` when the newly
indexed slot is feasible and the page is known. -/
theorem maps_ok_after_update {mOld : List (Nat × List Nat)}
    {pagesNew : List (Nat × PageStatus)} {ps pid old free : Nat}
    (hOld : ∀ kv ∈ mOld, kv.2 ≠ [] ∧ HEADER_SIZE + SIZE_FIELD_SIZE + kv.1 ≤ ps ∧
      ∀ q ∈ kv.2, (alookup pagesNew q).isSome = true)
    (hfree : HEADER_SIZE + SIZE_FIELD_SIZE + free ≤ ps)
    (hpid : (alookup pagesNew pid).isSome = true) :
    ∀ kv ∈ updateFreeMap mOld pid old free, kv.2 ≠ [] ∧
      HEADER_SIZE + SIZE_FIELD_SIZE + kv.1 ≤ ps ∧
      ∀ q ∈ kv.2, (alookup pagesNew q).isSome = true := by
  intro kv hkv
  have hne : ∀ kv0 ∈ mOld, kv0.2 ≠ [] := fun kv0 h0 => (hOld kv0 h0).1
  obtain ⟨h1, h2, h3⟩ := mem_updateFreeMap hne hkv
  refine ⟨h1, ?_, ?_⟩
  · rcases h2 with ⟨l0, hmem⟩ | hkey
    · exact (hOld _ hmem).2.1
    · rw [hkey]
      exact hfree
  · intro x hx
    rcases h3 x hx with rfl | ⟨l0, f0, hmem, hxl⟩
    · exact hpid
    · exact (hOld _ hmem).2.2 x hxl

/-- The free space of a well-formed page of capacity `ps` leaves room
for the header. -/
theorem free_space_feasible {q : Page} (hwf : q.WF) {ps : Nat} (hsz : q.header.size = ps) :
    HEADER_SIZE + SIZE_FIELD_SIZE + q.free_space ≤ ps := by
  have h1 := hwf.cs
  have h2 := hwf.cap
  unfold Page.free_space
  omega

/-- `ensure_page_loaded` on a known page succeeds, preserves the
invariant and every page's content, and returns the canonical in-memory
page. -/
theorem ensure_ok (pm : PageManager) (pid : Nat) (hInv : PMInv pm)
    (hmem : (alookup pm.pages pid).isSome = true) :
    ∃ pm2 p st2, pm.ensure_page_loaded pid = .ok (pm2, p) ∧ PMInv pm2 ∧
      (∀ pid2, pageDataAt pm2 pid2 = pageDataAt pm pid2) ∧
      pageDataAt pm pid = some p.data ∧ p.WF ∧ p.header.id = pid ∧
      p.header.size = pm.page_size ∧
      alookup pm2.pages pid = some st2 ∧ st2.in_memory = some p ∧
      pm2.device.store = pm.device.store ∧ pm2.page_size = pm.page_size ∧
      pm2.next_id = pm.next_id ∧
      (∀ q2, (alookup pm2.pages q2).isSome = true ↔ (alookup pm.pages q2).isSome = true) := by
  obtain ⟨st, hst⟩ := Option.isSome_iff_exists.mp hmem
  obtain ⟨p, hin, hid, hsize, hwf, hdevst⟩ := hInv.pages_ok pid st hst
  unfold PageManager.ensure_page_loaded
  cases hcl : alookup pm.cache pid with
  | some page =>
    have hcg : cacheGet pm.cache pid =
        some (page, pm.cache.filter (fun kv => kv.1 ≠ pid) ++ [(pid, page)]) := by
      unfold cacheGet
      rw [hcl]
    rw [hcg]
    obtain ⟨st3, hst3, hin3⟩ := hInv.cache_ok pid page hcl
    rw [hst] at hst3
    have hst3e : st = st3 := Option.some.inj hst3
    subst hst3e
    rw [hin] at hin3
    have hpage : p = page := Option.some.inj hin3
    subst hpage
    simp only [hst]
    refine ⟨_, p, { st with access_count := st.access_count + 1 }, rfl, ?_, ?_, ?_, hwf, hid,
      hsize, alookup_ainsert_self _ _ _, hin, rfl, rfl, rfl, ?_⟩
    · refine ⟨hInv.ps_lo, hInv.ps_hi, hInv.dev_ps, ?_, ?_, ?_, ?_, ?_,
        hInv.hot_sorted, hInv.cold_sorted, ?_⟩
      · intro pid2 st2 h2
        by_cases hq : pid2 = pid
        · subst hq
          rw [alookup_ainsert_self] at h2
          have h2e : { st with access_count := st.access_count + 1 } = st2 :=
            Option.some.inj h2
          rw [← h2e]
          exact ⟨p, hin, hid, hsize, hwf, hdevst⟩
        · rw [alookup_ainsert_other _ _ _ _ hq] at h2
          exact hInv.pages_ok pid2 st2 h2
      · intro pid2 w h2
        rcases alookup_refresh_cases _ _ _ _ _ h2 with ⟨rfl, rfl⟩ | ⟨hne, h3⟩
        · exact ⟨{ st with access_count := st.access_count + 1 }, alookup_ainsert_self _ _ _,
            hin⟩
        · obtain ⟨st4, hst4, hin4⟩ := hInv.cache_ok pid2 w h3
          refine ⟨st4, ?_, hin4⟩
          rw [alookup_ainsert_other _ _ _ _ hne]
          exact hst4
      · exact cacheGet_refresh_nodup hInv.cache_nodup
      · intro kv hkv
        obtain ⟨h1, h2, h3⟩ := hInv.hot_ok kv hkv
        refine ⟨h1, h2, fun x hx => ?_⟩
        rw [alookup_ainsert_isSome]
        exact Or.inr (h3 x hx)
      · intro kv hkv
        obtain ⟨h1, h2, h3⟩ := hInv.cold_ok kv hkv
        refine ⟨h1, h2, fun x hx => ?_⟩
        rw [alookup_ainsert_isSome]
        exact Or.inr (h3 x hx)
      · intro pid2 h2
        rw [alookup_ainsert_isSome] at h2
        rcases h2 with rfl | h2
        · exact hInv.fresh pid2 hmem
        · exact hInv.fresh pid2 h2
    · intro pid2
      unfold pageDataAt
      by_cases hq : pid2 = pid
      · subst hq
        rw [alookup_ainsert_self, hst]
      · rw [alookup_ainsert_other _ _ _ _ hq]
    · unfold pageDataAt
      rw [hst]
      simp only [hin]
      rfl
    · intro q2
      rw [alookup_ainsert_isSome]
      constructor
      · intro h2
        rcases h2 with rfl | h2
        · exact hmem
        · exact h2
      · intro h2
        exact Or.inr h2
  | none =>
    have hcg : cacheGet pm.cache pid = none := by
      unfold cacheGet
      rw [hcl]
    rw [hcg]
    obtain ⟨q, hread, hqdata, hqcur, hqid, hqsize, hqmagic, hqwf, hqwrite, hqfree⟩ :=
      roundtrip_facts p hwf
    have hreadpage : pm.device.read_page pid =
        .ok ({ pm.device with
          metrics := { pm.device.metrics with
            reads := pm.device.metrics.reads + 1,
            read_bytes := pm.device.metrics.read_bytes + pm.device.page_size } }, q) := by
      unfold SsdDevice.read_page
      rw [hdevst]
      simp only
      rw [hread]
    simp only [hreadpage]
    simp only [hst]
    have hdomiff : ∀ (stx : PageStatus) q2,
        (alookup (ainsert pm.pages pid stx) q2).isSome = true ↔
        (alookup pm.pages q2).isSome = true := by
      intro stx q2
      rw [alookup_ainsert_isSome]
      constructor
      · intro h2
        rcases h2 with rfl | h2
        · exact hmem
        · exact h2
      · intro h2
        exact Or.inr h2
    have hfeas : HEADER_SIZE + SIZE_FIELD_SIZE + q.free_space ≤ pm.page_size :=
      free_space_feasible hqwf (hqsize.trans hsize)
    refine ⟨_, q, { st with
        in_memory := some q, free_space := q.free_space,
        access_count := st.access_count + 1 },
      rfl, ?_, ?_, ?_, hqwf, hqid.trans hid, hqsize.trans hsize, ?_, rfl,
      ?_, ?_, ?_, ?_⟩
    · -- PMInv after the reload
      refine ⟨?_, ?_, ?_, ?_, ?_, ?_, ?_, ?_, ?_, ?_, ?_⟩
      · simp only [updateFS_page_size]
        exact hInv.ps_lo
      · simp only [updateFS_page_size]
        exact hInv.ps_hi
      · simp only [updateFS_device, updateFS_page_size]
        exact hInv.dev_ps
      · intro pid2 st2 h2
        simp only [updateFS_pages] at h2
        simp only [updateFS_device, updateFS_page_size]
        by_cases hq2 : pid2 = pid
        · subst hq2
          rw [alookup_ainsert_self] at h2
          have h2e : _ = st2 := Option.some.inj h2
          rw [← h2e]
          refine ⟨q, rfl, hqid.trans hid, hqsize.trans hsize, hqwf, ?_⟩
          rw [hqwrite]
          exact hdevst
        · rw [alookup_ainsert_other _ _ _ _ hq2] at h2
          exact hInv.pages_ok pid2 st2 h2
      · intro pid2 w h2
        simp only [updateFS_cache] at h2
        simp only [updateFS_pages]
        rcases alookup_cacheInsert_cases _ _ _ _ hInv.cache_nodup h2 with ⟨rfl, rfl⟩ | h3
        · exact ⟨_, alookup_ainsert_self _ _ _, rfl⟩
        · obtain ⟨st4, hst4, hin4⟩ := hInv.cache_ok pid2 w h3
          by_cases hq2 : pid2 = pid
          · subst hq2
            rw [hcl] at h3
            exact absurd h3 (by simp)
          · refine ⟨st4, ?_, hin4⟩
            rw [alookup_ainsert_other _ _ _ _ hq2]
            exact hst4
      · simp only [updateFS_cache]
        exact cacheInsert_nodup hInv.cache_nodup
      · simp only [updateFS_hot_maps, updateFS_pages, updateFS_page_size]
        cases st.is_hot with
        | true =>
          simp only [Bool.cond_true]
          apply maps_ok_after_update
          · intro kv hkv
            obtain ⟨h1, h2, h3⟩ := hInv.hot_ok kv hkv
            exact ⟨h1, h2, fun x hx => (hdomiff _ x).mpr (h3 x hx)⟩
          · exact hfeas
          · exact (hdomiff _ pid).mpr hmem
        | false =>
          simp only [Bool.cond_false]
          intro kv hkv
          obtain ⟨h1, h2, h3⟩ := hInv.hot_ok kv hkv
          exact ⟨h1, h2, fun x hx => (hdomiff _ x).mpr (h3 x hx)⟩
      · simp only [updateFS_cold_maps, updateFS_pages, updateFS_page_size]
        cases st.is_hot with
        | true =>
          simp only [Bool.cond_true]
          intro kv hkv
          obtain ⟨h1, h2, h3⟩ := hInv.cold_ok kv hkv
          exact ⟨h1, h2, fun x hx => (hdomiff _ x).mpr (h3 x hx)⟩
        | false =>
          simp only [Bool.cond_false]
          apply maps_ok_after_update
          · intro kv hkv
            obtain ⟨h1, h2, h3⟩ := hInv.cold_ok kv hkv
            exact ⟨h1, h2, fun x hx => (hdomiff _ x).mpr (h3 x hx)⟩
          · exact hfeas
          · exact (hdomiff _ pid).mpr hmem
      · simp only [updateFS_hot_maps]
        cases st.is_hot with
        | true =>
          simp only [Bool.cond_true]
          exact updateFreeMap_sorted _ _ _ hInv.hot_sorted
        | false =>
          simp only [Bool.cond_false]
          exact hInv.hot_sorted
      · simp only [updateFS_cold_maps]
        cases st.is_hot with
        | true =>
          simp only [Bool.cond_true]
          exact hInv.cold_sorted
        | false =>
          simp only [Bool.cond_false]
          exact updateFreeMap_sorted _ _ _ hInv.cold_sorted
      · intro pid2 h2
        simp only [updateFS_next_id]
        simp only [updateFS_pages] at h2
        exact hInv.fresh pid2 ((hdomiff _ pid2).mp h2)
    · intro pid2
      unfold pageDataAt
      simp only [updateFS_pages]
      by_cases hq2 : pid2 = pid
      · subst hq2
        rw [alookup_ainsert_self, hst]
        simp only [hin]
        show some q.data = some p.data
        rw [hqdata]
      · rw [alookup_ainsert_other _ _ _ _ hq2]
    · unfold pageDataAt
      rw [hst]
      simp only [hin]
      rw [hqdata]
      rfl
    · simp only [updateFS_pages]
      exact alookup_ainsert_self _ _ _
    · simp only [updateFS_device]
    · simp only [updateFS_page_size]
    · simp only [updateFS_next_id]
    · intro q2
      simp only [updateFS_pages]
      exact hdomiff _ q2

/-! ## Correctness of the `set` path -/

theorem PMInv.ps_lt {pm : PageManager} (hInv : PMInv pm) : pm.page_size < U32 := by
  have h1 := hInv.ps_hi
  omega

theorem mem_ainsert {κ α : Type} [DecidableEq κ] {m : List (κ × α)} {key : κ} {v : α}
    {kv : κ × α} (h : kv ∈ ainsert m key v) : kv = (key, v) ∨ kv ∈ m := by
  induction m with
  | nil =>
    simp only [ainsert] at h
    exact Or.inl (List.mem_singleton.mp h)
  | cons kv0 rest ih =>
    obtain ⟨k0, v0⟩ := kv0
    by_cases hk : k0 = key
    · subst hk
      simp only [ainsert, if_pos rfl] at h
      rcases List.mem_cons.mp h with h2 | h2
      · exact Or.inl h2
      · exact Or.inr (List.mem_cons_of_mem _ h2)
    · simp only [ainsert, if_neg hk] at h
      rcases List.mem_cons.mp h with h2 | h2
      · exact Or.inr (h2 ▸ List.mem_cons_self _ _)
      · rcases ih h2 with h3 | h3
        · exact Or.inl h3
        · exact Or.inr (List.mem_cons_of_mem _ h3)

theorem map_fst_of_fst_preserving {α : Type} (l : List (Nat × α)) (g : Nat × α → Nat × α)
    (hg : ∀ kv, (g kv).1 = kv.1) : (l.map g).map Prod.fst = l.map Prod.fst := by
  induction l with
  | nil => rfl
  | cons kv rest ih => simp [hg, ih]

theorem alookup_mapModify_isSome {α : Type} (l : List (Nat × α)) (pid q : Nat) (f : α → α) :
    (alookup (l.map (fun kv => if kv.1 = pid then (kv.1, f kv.2) else kv)) q).isSome =
      (alookup l q).isSome := by
  rw [alookup_mapModify]
  by_cases hq : q = pid
  · rw [if_pos hq]
    cases alookup l q <;> simp
  · rw [if_neg hq]

/-- `push_entry` onto a fresh page, when the entry fits. -/
theorem fresh_push_eq (id ps : Nat) (k v : List Nat)
    (hfit : HEADER_SIZE + SIZE_FIELD_SIZE + ENTRY_METADATA_SIZE + k.length + v.length ≤ ps)
    (hps : ps < U32) :
    (Page.new id ps).push_entry k v =
      some ((HEADER_SIZE + SIZE_FIELD_SIZE) % U32,
        { header := { magic := MAGIC_BYTES, id := id, size := ps, crc32 := 0 },
          data := [⟨⟨k.length % U32, v.length % U32⟩, k, v⟩],
          current_size := HEADER_SIZE + SIZE_FIELD_SIZE + ENTRY_METADATA_SIZE +
            k.length + v.length }) := by
  have hns : HEADER_SIZE + SIZE_FIELD_SIZE + ENTRY_METADATA_SIZE + k.length + v.length < U32 :=
    lt_of_le_of_lt hfit hps
  unfold Page.push_entry
  simp only [Page.new]
  rw [if_neg (by rw [Nat.mod_eq_of_lt hns]; omega)]
  simp

/-- `push_entry` onto a fresh page fails when the entry does not fit
(absent `u32` wrap-around). -/
theorem fresh_push_none (id ps : Nat) (k v : List Nat)
    (hbig : ps < HEADER_SIZE + SIZE_FIELD_SIZE + ENTRY_METADATA_SIZE + k.length + v.length)
    (hnw : HEADER_SIZE + SIZE_FIELD_SIZE + ENTRY_METADATA_SIZE + k.length + v.length < U32) :
    (Page.new id ps).push_entry k v = none := by
  unfold Page.push_entry
  simp only [Page.new]
  rw [if_pos (by rw [Nat.mod_eq_of_lt hnw]; omega)]

/-- `set_new_page` of an entry too large for an empty page changes
nothing and reports no location. -/
theorem set_new_page_none (pm : PageManager) (k v : List Nat) (hot : Bool)
    (hbig : pm.page_size <
      HEADER_SIZE + SIZE_FIELD_SIZE + ENTRY_METADATA_SIZE + k.length + v.length)
    (hnw : HEADER_SIZE + SIZE_FIELD_SIZE + ENTRY_METADATA_SIZE + k.length + v.length < U32) :
    pm.set_new_page k v hot = .ok (pm, none) := by
  simp only [PageManager.set_new_page,
    fresh_push_none pm.next_id pm.page_size k v hbig hnw]

/-- `set_new_page` of an entry that fits an empty page: allocates the
fresh page `next_id`, stores exactly the one new entry there, writes it
to the device, preserves every other page, and keeps the invariant. -/
theorem set_new_page_ok (pm : PageManager) (k v : List Nat) (hot : Bool)
    (hInv : PMInv pm) (hk : ByteOK k) (hv : ByteOK v) (hnid : pm.next_id < U64)
    (hfit : HEADER_SIZE + SIZE_FIELD_SIZE + ENTRY_METADATA_SIZE + k.length + v.length ≤
      pm.page_size) :
    ∃ pm4 idx, pm.set_new_page k v hot =
        .ok (pm4, some { page_id := pm.next_id, page_index := idx }) ∧ PMInv pm4 ∧
      pm4.page_size = pm.page_size ∧ pm4.next_id = pm.next_id + 1 ∧
      pageDataAt pm4 pm.next_id = some [⟨⟨k.length % U32, v.length % U32⟩, k, v⟩] ∧
      (∀ pid2, pid2 ≠ pm.next_id → pageDataAt pm4 pid2 = pageDataAt pm pid2) ∧
      (alookup pm4.pages pm.next_id).isSome = true ∧
      (∀ q2, (alookup pm.pages q2).isSome = true → (alookup pm4.pages q2).isSome = true) := by
  have hpush := fresh_push_eq pm.next_id pm.page_size k v hfit hInv.ps_lt
  set p2 : Page :=
    { header := { magic := MAGIC_BYTES, id := pm.next_id, size := pm.page_size, crc32 := 0 },
      data := [⟨⟨k.length % U32, v.length % U32⟩, k, v⟩],
      current_size := HEADER_SIZE + SIZE_FIELD_SIZE + ENTRY_METADATA_SIZE +
        k.length + v.length } with hp2
  have hwf2 : p2.WF := by
    refine push_entry_wf (page_new_wf pm.next_id pm.page_size hnid hInv.ps_lt hInv.ps_lo)
      hk hv ?_ hpush
    simp only [Page.new]
    exact lt_of_le_of_lt hfit hInv.ps_lt
  have hid2 : p2.header.id = pm.next_id := rfl
  have hsz2 : p2.header.size = pm.page_size := rfl
  have hwr : pm.device.write_page p2 = .ok { pm.device with
      store := ainsert pm.device.store p2.pageId p2.write_to_buffer,
      metrics := { pm.device.metrics with
        writes := pm.device.metrics.writes + 1,
        write_bytes := pm.device.metrics.write_bytes + pm.device.page_size } } := by
    unfold SsdDevice.write_page
    rw [if_neg (by rw [Page.capacity, hsz2, hInv.dev_ps]; simp)]
    rw [if_neg (by
      rw [hInv.dev_ps]
      have hcc : p2.current_size = HEADER_SIZE + SIZE_FIELD_SIZE + ENTRY_METADATA_SIZE +
        k.length + v.length := rfl
      omega)]
  have hfresh : alookup pm.pages pm.next_id = none := by
    cases hl : alookup pm.pages pm.next_id with
    | none => rfl
    | some st0 =>
      have := hInv.fresh pm.next_id (by rw [hl]; rfl)
      omega
  have hdomiff : ∀ (stx : PageStatus) q2,
      (alookup (ainsert pm.pages pm.next_id stx) q2).isSome = true ↔
      ((alookup pm.pages q2).isSome = true ∨ q2 = pm.next_id) := by
    intro stx q2
    rw [alookup_ainsert_isSome]
    constructor
    · intro h2
      rcases h2 with rfl | h2
      · exact Or.inr rfl
      · exact Or.inl h2
    · intro h2
      rcases h2 with h2 | rfl
      · exact Or.inr h2
      · exact Or.inl rfl
  have hfeas : HEADER_SIZE + SIZE_FIELD_SIZE + p2.free_space ≤ pm.page_size :=
    free_space_feasible hwf2 hsz2
  simp only [PageManager.set_new_page, hpush, ← hp2, hwr]
  refine ⟨_, (HEADER_SIZE + SIZE_FIELD_SIZE) % U32, rfl, ?_, ?_, ?_, ?_, ?_, ?_, ?_⟩
  · -- the invariant after the allocation
    refine ⟨?_, ?_, ?_, ?_, ?_, ?_, ?_, ?_, ?_, ?_, ?_⟩
    · simp only [updateFS_page_size]
      exact hInv.ps_lo
    · simp only [updateFS_page_size]
      exact hInv.ps_hi
    · simp only [updateFS_device, updateFS_page_size]
      exact hInv.dev_ps
    · intro pid2 st2 h2
      simp only [updateFS_pages] at h2
      simp only [updateFS_device, updateFS_page_size]
      by_cases hq2 : pid2 = pm.next_id
      · subst hq2
        rw [alookup_ainsert_self] at h2
        have h2e : _ = st2 := Option.some.inj h2
        rw [← h2e]
        refine ⟨p2, rfl, hid2, hsz2, hwf2, ?_⟩
        show alookup (ainsert pm.device.store p2.pageId p2.write_to_buffer) pm.next_id =
          some p2.write_to_buffer
        rw [show p2.pageId = pm.next_id from rfl]
        exact alookup_ainsert_self _ _ _
      · rw [alookup_ainsert_other _ _ _ _ hq2] at h2
        obtain ⟨p, hin, hid, hsize, hwf, hdevst⟩ := hInv.pages_ok pid2 st2 h2
        refine ⟨p, hin, hid, hsize, hwf, ?_⟩
        show alookup (ainsert pm.device.store p2.pageId p2.write_to_buffer) pid2 =
          some p.write_to_buffer
        rw [alookup_ainsert_other _ _ _ _ (by rw [show p2.pageId = pm.next_id from rfl]; exact hq2)]
        exact hdevst
    · intro pid2 w h2
      simp only [updateFS_cache] at h2
      simp only [updateFS_pages]
      rcases alookup_cacheInsert_cases _ _ _ _ hInv.cache_nodup h2 with ⟨rfl, rfl⟩ | h3
      · exact ⟨_, alookup_ainsert_self _ _ _, rfl⟩
      · obtain ⟨st4, hst4, hin4⟩ := hInv.cache_ok pid2 w h3
        by_cases hq2 : pid2 = pm.next_id
        · subst hq2
          rw [hfresh] at hst4
          exact absurd hst4 (by simp)
        · refine ⟨st4, ?_, hin4⟩
          rw [alookup_ainsert_other _ _ _ _ hq2]
          exact hst4
    · simp only [updateFS_cache]
      exact cacheInsert_nodup hInv.cache_nodup
    · simp only [updateFS_hot_maps, updateFS_pages, updateFS_page_size]
      cases hot with
      | true =>
        simp only [Bool.cond_true]
        apply maps_ok_after_update
        · intro kv hkv
          obtain ⟨h1, h2, h3⟩ := hInv.hot_ok kv hkv
          exact ⟨h1, h2, fun x hx => (hdomiff _ x).mpr (Or.inl (h3 x hx))⟩
        · exact hfeas
        · exact (hdomiff _ pm.next_id).mpr (Or.inr rfl)
      | false =>
        simp only [Bool.cond_false]
        intro kv hkv
        obtain ⟨h1, h2, h3⟩ := hInv.hot_ok kv hkv
        exact ⟨h1, h2, fun x hx => (hdomiff _ x).mpr (Or.inl (h3 x hx))⟩
    · simp only [updateFS_cold_maps, updateFS_pages, updateFS_page_size]
      cases hot with
      | true =>
        simp only [Bool.cond_true]
        intro kv hkv
        obtain ⟨h1, h2, h3⟩ := hInv.cold_ok kv hkv
        exact ⟨h1, h2, fun x hx => (hdomiff _ x).mpr (Or.inl (h3 x hx))⟩
      | false =>
        simp only [Bool.cond_false]
        apply maps_ok_after_update
        · intro kv hkv
          obtain ⟨h1, h2, h3⟩ := hInv.cold_ok kv hkv
          exact ⟨h1, h2, fun x hx => (hdomiff _ x).mpr (Or.inl (h3 x hx))⟩
        · exact hfeas
        · exact (hdomiff _ pm.next_id).mpr (Or.inr rfl)
    · simp only [updateFS_hot_maps]
      cases hot with
      | true =>
        simp only [Bool.cond_true]
        exact updateFreeMap_sorted _ _ _ hInv.hot_sorted
      | false =>
        simp only [Bool.cond_false]
        exact hInv.hot_sorted
    · simp only [updateFS_cold_maps]
      cases hot with
      | true =>
        simp only [Bool.cond_true]
        exact hInv.cold_sorted
      | false =>
        simp only [Bool.cond_false]
        exact updateFreeMap_sorted _ _ _ hInv.cold_sorted
    · intro pid2 h2
      simp only [updateFS_next_id]
      simp only [updateFS_pages] at h2
      rcases (hdomiff _ pid2).mp h2 with h3 | rfl
      · have := hInv.fresh pid2 h3
        omega
      · omega
  · simp only [updateFS_page_size]
  · simp only [updateFS_next_id]
  · unfold pageDataAt
    simp only [updateFS_pages]
    rw [alookup_ainsert_self]
    rfl
  · intro pid2 hne
    unfold pageDataAt
    simp only [updateFS_pages]
    rw [alookup_ainsert_other _ _ _ _ hne]
  · simp only [updateFS_pages]
    rw [alookup_ainsert_self]
    rfl
  · intro q2 h2
    simp only [updateFS_pages]
    exact (hdomiff _ q2).mpr (Or.inl h2)

/-- The tail of `PageManager::set`: the second free-space refresh from
the in-memory handle succeeds, keeps the invariant and changes no page
content. -/
theorem pm_set_of_inner (pm pm2 : PageManager) (k v : List Nat) (hot : Bool) (loc : Location)
    (hinner : pm.set_inner k v hot = .ok (pm2, some loc)) (hInv2 : PMInv pm2)
    (hmem : (alookup pm2.pages loc.page_id).isSome = true) :
    ∃ pm4, pm.set k v hot = .ok (pm4, some loc) ∧ PMInv pm4 ∧
      (∀ pid2, pageDataAt pm4 pid2 = pageDataAt pm2 pid2) ∧
      pm4.page_size = pm2.page_size ∧ pm4.next_id = pm2.next_id ∧
      (∀ q2, (alookup pm4.pages q2).isSome = true ↔ (alookup pm2.pages q2).isSome = true) := by
  obtain ⟨st, hst⟩ := Option.isSome_iff_exists.mp hmem
  obtain ⟨p, hin, hid, hsize, hwf, hdevst⟩ := hInv2.pages_ok loc.page_id st hst
  have hdomiff : ∀ (stx : PageStatus) q2,
      (alookup (ainsert pm2.pages loc.page_id stx) q2).isSome = true ↔
      (alookup pm2.pages q2).isSome = true := by
    intro stx q2
    rw [alookup_ainsert_isSome]
    constructor
    · intro h2
      rcases h2 with rfl | h2
      · exact hmem
      · exact h2
    · intro h2
      exact Or.inr h2
  have hfeas : HEADER_SIZE + SIZE_FIELD_SIZE + p.free_space ≤ pm2.page_size :=
    free_space_feasible hwf hsize
  unfold PageManager.set
  rw [hinner]
  simp only [hst, hin]
  refine ⟨_, rfl, ?_, ?_, ?_, ?_, ?_⟩
  · refine ⟨?_, ?_, ?_, ?_, ?_, ?_, ?_, ?_, ?_, ?_, ?_⟩
    · simp only [updateFS_page_size]
      exact hInv2.ps_lo
    · simp only [updateFS_page_size]
      exact hInv2.ps_hi
    · simp only [updateFS_device, updateFS_page_size]
      exact hInv2.dev_ps
    · intro pid2 st2 h2
      simp only [updateFS_pages] at h2
      simp only [updateFS_device, updateFS_page_size]
      by_cases hq2 : pid2 = loc.page_id
      · subst hq2
        rw [alookup_ainsert_self] at h2
        have h2e : _ = st2 := Option.some.inj h2
        rw [← h2e]
        exact ⟨p, rfl, hid, hsize, hwf, hdevst⟩
      · rw [alookup_ainsert_other _ _ _ _ hq2] at h2
        exact hInv2.pages_ok pid2 st2 h2
    · intro pid2 w h2
      simp only [updateFS_cache] at h2
      simp only [updateFS_pages]
      obtain ⟨st4, hst4, hin4⟩ := hInv2.cache_ok pid2 w h2
      by_cases hq2 : pid2 = loc.page_id
      · subst hq2
        rw [hst] at hst4
        have h4e : st = st4 := Option.some.inj hst4
        refine ⟨_, alookup_ainsert_self _ _ _, ?_⟩
        show some p = some w
        have h5 : st.in_memory = some w := by
          rw [h4e]
          exact hin4
        rw [hin] at h5
        exact h5
      · refine ⟨st4, ?_, hin4⟩
        rw [alookup_ainsert_other _ _ _ _ hq2]
        exact hst4
    · simp only [updateFS_cache]
      exact hInv2.cache_nodup
    · simp only [updateFS_hot_maps, updateFS_pages, updateFS_page_size]
      cases st.is_hot with
      | true =>
        simp only [Bool.cond_true]
        apply maps_ok_after_update
        · intro kv hkv
          obtain ⟨h1, h2, h3⟩ := hInv2.hot_ok kv hkv
          exact ⟨h1, h2, fun x hx => (hdomiff _ x).mpr (h3 x hx)⟩
        · exact hfeas
        · exact (hdomiff _ loc.page_id).mpr hmem
      | false =>
        simp only [Bool.cond_false]
        intro kv hkv
        obtain ⟨h1, h2, h3⟩ := hInv2.hot_ok kv hkv
        exact ⟨h1, h2, fun x hx => (hdomiff _ x).mpr (h3 x hx)⟩
    · simp only [updateFS_cold_maps, updateFS_pages, updateFS_page_size]
      cases st.is_hot with
      | true =>
        simp only [Bool.cond_true]
        intro kv hkv
        obtain ⟨h1, h2, h3⟩ := hInv2.cold_ok kv hkv
        exact ⟨h1, h2, fun x hx => (hdomiff _ x).mpr (h3 x hx)⟩
      | false =>
        simp only [Bool.cond_false]
        apply maps_ok_after_update
        · intro kv hkv
          obtain ⟨h1, h2, h3⟩ := hInv2.cold_ok kv hkv
          exact ⟨h1, h2, fun x hx => (hdomiff _ x).mpr (h3 x hx)⟩
        · exact hfeas
        · exact (hdomiff _ loc.page_id).mpr hmem
    · simp only [updateFS_hot_maps]
      cases st.is_hot with
      | true =>
        simp only [Bool.cond_true]
        exact updateFreeMap_sorted _ _ _ hInv2.hot_sorted
      | false =>
        simp only [Bool.cond_false]
        exact hInv2.hot_sorted
    · simp only [updateFS_cold_maps]
      cases st.is_hot with
      | true =>
        simp only [Bool.cond_true]
        exact hInv2.cold_sorted
      | false =>
        simp only [Bool.cond_false]
        exact updateFreeMap_sorted _ _ _ hInv2.cold_sorted
    · intro pid2 h2
      simp only [updateFS_next_id]
      simp only [updateFS_pages] at h2
      exact hInv2.fresh pid2 ((hdomiff _ pid2).mp h2)
  · intro pid2
    unfold pageDataAt
    simp only [updateFS_pages]
    by_cases hq2 : pid2 = loc.page_id
    · subst hq2
      rw [alookup_ainsert_self, hst]
      simp only [hin]
    · rw [alookup_ainsert_other _ _ _ _ hq2]
  · simp only [updateFS_page_size]
  · simp only [updateFS_next_id]
  · intro q2
    simp only [updateFS_pages]
    exact hdomiff _ q2

theorem alookup_setShared_pages (l : List (Nat × PageStatus)) (pid q : Nat) (p : Page) :
    alookup (l.map (fun kv =>
        if kv.1 = pid then (kv.1, { kv.2 with in_memory := some p }) else kv)) q =
      if q = pid then (alookup l q).map (fun st => { st with in_memory := some p })
      else alookup l q :=
  alookup_mapModify l pid q (fun st => { st with in_memory := some p })

theorem alookup_setShared_cache (l : List (Nat × Page)) (pid q : Nat) (p : Page) :
    alookup (l.map (fun kv => if kv.1 = pid then (kv.1, p) else kv)) q =
      if q = pid then (alookup l q).map (fun _ => p) else alookup l q :=
  alookup_mapModify l pid q (fun _ => p)

/-- A candidate returned by `find_suitable_page_id` is a known page, and
its indexed slot key bounds the entry: the entry also fits an empty
page. -/
theorem find_suitable_facts (pm : PageManager) (req : Nat) (hot : Bool) (pid : Nat)
    (hInv : PMInv pm) (hfind : pm.find_suitable_page_id req hot = some pid) :
    (alookup pm.pages pid).isSome = true ∧
    HEADER_SIZE + SIZE_FIELD_SIZE + req ≤ pm.page_size := by
  unfold PageManager.find_suitable_page_id at hfind
  cases hot with
  | true =>
    simp only [if_true] at hfind
    cases hbt : btMinGE pm.hot_free_spaces req with
    | none =>
      rw [hbt] at hfind
      exact absurd hfind (by simp)
    | some fl =>
      obtain ⟨f, pids⟩ := fl
      rw [hbt] at hfind
      cases pids with
      | nil => exact absurd hfind (by simp)
      | cons p0 rest =>
        have hp0 : p0 = pid := Option.some.inj hfind
        subst hp0
        obtain ⟨hmem, hreq, _⟩ := btMinGE_some_spec _ req f _ hInv.hot_sorted hbt
        obtain ⟨_, hbound, hids⟩ := hInv.hot_ok _ hmem
        exact ⟨hids p0 (List.mem_cons_self _ _), by omega⟩
  | false =>
    simp only [Bool.false_eq_true, if_false] at hfind
    cases hbt : btMinGE pm.cold_free_spaces req with
    | none =>
      rw [hbt] at hfind
      exact absurd hfind (by simp)
    | some fl =>
      obtain ⟨f, pids⟩ := fl
      rw [hbt] at hfind
      cases pids with
      | nil => exact absurd hfind (by simp)
      | cons p0 rest =>
        have hp0 : p0 = pid := Option.some.inj hfind
        subst hp0
        obtain ⟨hmem, hreq, _⟩ := btMinGE_some_spec _ req f _ hInv.cold_sorted hbt
        obtain ⟨_, hbound, hids⟩ := hInv.cold_ok _ hmem
        exact ⟨hids p0 (List.mem_cons_self _ _), by omega⟩

/-- Anatomy of a successful `push_entry` in the no-wrap regime. -/
theorem push_entry_eq {p : Page} {k v : List Nat} {idx : Nat} {p2 : Page}
    (hnw : p.current_size + ENTRY_METADATA_SIZE + k.length + v.length < U32)
    (hp : p.push_entry k v = some (idx, p2)) :
    idx = p.current_size % U32 ∧
    p2.data = p.data ++ [⟨⟨k.length % U32, v.length % U32⟩, k, v⟩] ∧
    p2.current_size = p.current_size + ENTRY_METADATA_SIZE + k.length + v.length ∧
    p2.header = p.header ∧
    p2.current_size ≤ p.header.size := by
  simp only [Page.push_entry] at hp
  by_cases hg : (p.current_size + ENTRY_METADATA_SIZE + k.length + v.length) % U32 >
      p.header.size
  · rw [if_pos hg] at hp
    exact absurd hp (by simp)
  · rw [if_neg hg] at hp
    have hpair := Option.some.inj hp
    obtain ⟨hidx, hp2⟩ := Prod.mk.inj hpair
    subst hp2
    rw [Nat.mod_eq_of_lt hnw] at hg
    refine ⟨hidx.symm, rfl, rfl, rfl, ?_⟩
    show p.current_size + ENTRY_METADATA_SIZE + k.length + v.length ≤ p.header.size
    omega

/-- `set_inner` with a candidate page: the entry lands either appended
to that page or in a fresh page, the invariant is preserved, and other
pages keep their content. -/
theorem set_inner_candidate_ok (pm : PageManager) (k v : List Nat) (hot : Bool) (pid : Nat)
    (hInv : PMInv pm) (hk : ByteOK k) (hv : ByteOK v) (hnid : pm.next_id < U64)
    (hfind : pm.find_suitable_page_id (k.length + v.length + 8) hot = some pid) :
    ∃ pm6 loc, pm.set_inner k v hot = .ok (pm6, some loc) ∧ PMInv pm6 ∧
      pm6.page_size = pm.page_size ∧ pm6.next_id ≤ pm.next_id + 1 ∧
      HEADER_SIZE + SIZE_FIELD_SIZE + ENTRY_METADATA_SIZE + k.length + v.length ≤
        pm.page_size ∧
      (∀ q2, (alookup pm.pages q2).isSome = true → (alookup pm6.pages q2).isSome = true) ∧
      ∃ old, (pageDataAt pm loc.page_id = some old ∨
          (pageDataAt pm loc.page_id = none ∧ old = [])) ∧
        pageDataAt pm6 loc.page_id =
          some (old ++ [⟨⟨k.length % U32, v.length % U32⟩, k, v⟩]) ∧
        (∀ pid2, pid2 ≠ loc.page_id → pageDataAt pm6 pid2 = pageDataAt pm pid2) ∧
        (alookup pm6.pages loc.page_id).isSome = true := by
  obtain ⟨hmem, hbound⟩ :=
    find_suitable_facts pm (k.length + v.length + 8) hot pid hInv hfind
  obtain ⟨pm2, p, st2, heq, hInv2, hdataPres, hdata, hwf, hpidid, hpsize, hst2, hin2,
    hstore, hps2, hnid2, hdom2⟩ := ensure_ok pm pid hInv hmem
  have hE : ENTRY_METADATA_SIZE = 8 := rfl
  have hH : HEADER_SIZE = 23 := rfl
  have hS : SIZE_FIELD_SIZE = 4 := rfl
  simp only [PageManager.set_inner, hfind, heq, hst2]
  cases hpush : p.push_entry k v with
  | some pair =>
    obtain ⟨idx, p2⟩ := pair
    have hsmall : p.current_size + ENTRY_METADATA_SIZE + k.length + v.length < U32 := by
      have h1 := hwf.cap
      have h2 := hInv.ps_hi
      rw [hpsize] at h1
      omega
    have hwfp2 := push_entry_wf hwf hk hv hsmall hpush
    obtain ⟨hidx, hd2, hc2, hhd2, hle2⟩ := push_entry_eq hsmall hpush
    have hpid2 : p2.header.id = pid := by rw [hhd2]; exact hpidid
    have hsz2 : p2.header.size = pm.page_size := by rw [hhd2]; exact hpsize
    have hkey : p2.pageId = pid := by
      simp only [Page.pageId]
      exact hpid2
    have hwr : pm2.device.write_page p2 = .ok { pm2.device with
        store := ainsert pm2.device.store pid p2.write_to_buffer,
        metrics := { pm2.device.metrics with
          writes := pm2.device.metrics.writes + 1,
          write_bytes := pm2.device.metrics.write_bytes + pm2.device.page_size } } := by
      unfold SsdDevice.write_page
      rw [if_neg (by rw [Page.capacity, hsz2, hInv2.dev_ps, hps2]; simp)]
      rw [if_neg (by
        rw [hInv2.dev_ps, hps2]
        have h3 := hle2
        rw [hpsize] at h3
        omega)]
      rw [hkey]
    have hlook4 : alookup (pm2.pages.map (fun kv =>
        if kv.1 = pid then (kv.1, { kv.2 with in_memory := some p2 }) else kv)) pid =
        some { st2 with in_memory := some p2 } := by
      rw [alookup_setShared_pages, if_pos rfl, hst2]
      rfl
    have hdomMap : ∀ q2, (alookup (pm2.pages.map (fun kv =>
        if kv.1 = pid then (kv.1, { kv.2 with in_memory := some p2 }) else kv)) q2).isSome =
        (alookup pm2.pages q2).isSome :=
      fun q2 => alookup_mapModify_isSome pm2.pages pid q2 (fun st => { st with in_memory := some p2 })
    have hdomiff5 : ∀ (stx : PageStatus) q2,
        (alookup (ainsert (pm2.pages.map (fun kv =>
          if kv.1 = pid then (kv.1, { kv.2 with in_memory := some p2 }) else kv)) pid stx)
          q2).isSome = true ↔ (alookup pm2.pages q2).isSome = true := by
      intro stx q2
      rw [alookup_ainsert_isSome]
      constructor
      · intro h2
        rcases h2 with rfl | h2
        · rw [hst2]; rfl
        · rw [← hdomMap q2]; exact h2
      · intro h2
        rw [← hdomMap q2] at h2
        exact Or.inr h2
    have hfeas : HEADER_SIZE + SIZE_FIELD_SIZE + p2.free_space ≤ pm.page_size :=
      free_space_feasible hwfp2 hsz2
    simp only [PageManager.setSharedPage, hwr, hlook4]
    refine ⟨_, _, rfl, ?_, ?_, ?_, ?_, ?_, ?_⟩
    · -- the invariant after appending to the candidate page
      refine ⟨?_, ?_, ?_, ?_, ?_, ?_, ?_, ?_, ?_, ?_, ?_⟩
      · simp only [updateFS_page_size]
        exact hInv2.ps_lo
      · simp only [updateFS_page_size]
        exact hInv2.ps_hi
      · simp only [updateFS_device, updateFS_page_size]
        exact hInv2.dev_ps
      · intro pid2 stx h2
        simp only [updateFS_pages] at h2
        simp only [updateFS_device, updateFS_page_size]
        by_cases hq2 : pid2 = pid
        · subst hq2
          rw [alookup_ainsert_self] at h2
          have h2e : _ = stx := Option.some.inj h2
          rw [← h2e]
          refine ⟨p2, rfl, hpid2, by rw [hsz2, hps2], hwfp2, ?_⟩
          exact alookup_ainsert_self _ _ _
        · rw [alookup_ainsert_other _ _ _ _ hq2, alookup_setShared_pages,
            if_neg hq2] at h2
          obtain ⟨p3, hin3, hid3, hsize3, hwf3, hdevst3⟩ := hInv2.pages_ok pid2 stx h2
          refine ⟨p3, hin3, hid3, hsize3, hwf3, ?_⟩
          rw [alookup_ainsert_other _ _ _ _ hq2]
          exact hdevst3
      · intro pid2 w h2
        simp only [updateFS_cache] at h2
        simp only [updateFS_pages]
        rw [alookup_setShared_cache] at h2
        by_cases hq2 : pid2 = pid
        · subst hq2
          rw [if_pos rfl] at h2
          cases hc : alookup pm2.cache pid2 with
          | none =>
            rw [hc] at h2
            exact absurd h2 (by simp)
          | some q0 =>
            rw [hc] at h2
            have hw : p2 = w := Option.some.inj h2
            refine ⟨_, alookup_ainsert_self _ _ _, ?_⟩
            show some p2 = some w
            rw [hw]
        · rw [if_neg hq2] at h2
          obtain ⟨st4, hst4, hin4⟩ := hInv2.cache_ok pid2 w h2
          refine ⟨{ st4 with in_memory := st4.in_memory }, ?_, hin4⟩
          rw [alookup_ainsert_other _ _ _ _ hq2, alookup_setShared_pages, if_neg hq2]
          rw [hst4]
      · simp only [updateFS_cache]
        have hfst := map_fst_of_fst_preserving pm2.cache
          (fun kv => if kv.1 = pid then (kv.1, p2) else kv)
          (by intro kv; by_cases h3 : kv.1 = pid <;> simp [h3])
        rw [hfst]
        exact hInv2.cache_nodup
      · simp only [updateFS_hot_maps, updateFS_pages, updateFS_page_size]
        cases hot with
        | true =>
          simp only [Bool.cond_true]
          apply maps_ok_after_update
          · intro kv hkv
            obtain ⟨h1, h2, h3⟩ := hInv2.hot_ok kv hkv
            refine ⟨h1, h2, fun x hx => (hdomiff5 _ x).mpr (h3 x hx)⟩
          · rw [hps2]
            exact hfeas
          · exact (hdomiff5 _ pid).mpr (by rw [hst2]; rfl)
        | false =>
          simp only [Bool.cond_false]
          intro kv hkv
          obtain ⟨h1, h2, h3⟩ := hInv2.hot_ok kv hkv
          exact ⟨h1, h2, fun x hx => (hdomiff5 _ x).mpr (h3 x hx)⟩
      · simp only [updateFS_cold_maps, updateFS_pages, updateFS_page_size]
        cases hot with
        | true =>
          simp only [Bool.cond_true]
          intro kv hkv
          obtain ⟨h1, h2, h3⟩ := hInv2.cold_ok kv hkv
          exact ⟨h1, h2, fun x hx => (hdomiff5 _ x).mpr (h3 x hx)⟩
        | false =>
          simp only [Bool.cond_false]
          apply maps_ok_after_update
          · intro kv hkv
            obtain ⟨h1, h2, h3⟩ := hInv2.cold_ok kv hkv
            exact ⟨h1, h2, fun x hx => (hdomiff5 _ x).mpr (h3 x hx)⟩
          · rw [hps2]
            exact hfeas
          · exact (hdomiff5 _ pid).mpr (by rw [hst2]; rfl)
      · simp only [updateFS_hot_maps]
        cases hot with
        | true =>
          simp only [Bool.cond_true]
          exact updateFreeMap_sorted _ _ _ hInv2.hot_sorted
        | false =>
          simp only [Bool.cond_false]
          exact hInv2.hot_sorted
      · simp only [updateFS_cold_maps]
        cases hot with
        | true =>
          simp only [Bool.cond_true]
          exact hInv2.cold_sorted
        | false =>
          simp only [Bool.cond_false]
          exact updateFreeMap_sorted _ _ _ hInv2.cold_sorted
      · intro pid2 h2
        simp only [updateFS_next_id]
        simp only [updateFS_pages] at h2
        exact hInv2.fresh pid2 ((hdomiff5 _ pid2).mp h2)
    · simp only [updateFS_page_size]
      exact hps2
    · simp only [updateFS_next_id]
      omega
    · omega
    · intro q2 h2
      simp only [updateFS_pages]
      exact (hdomiff5 _ q2).mpr ((hdom2 q2).mpr h2)
    · refine ⟨p.data, Or.inl hdata, ?_, ?_, ?_⟩
      · show pageDataAt _ pid = _
        unfold pageDataAt
        simp only [updateFS_pages]
        rw [alookup_ainsert_self]
        show Option.map Page.data (some p2) = _
        rw [Option.map_some', hd2]
      · intro pid2 hne
        show pageDataAt _ pid2 = _
        unfold pageDataAt
        simp only [updateFS_pages]
        rw [alookup_ainsert_other _ _ _ _ hne, alookup_setShared_pages, if_neg hne]
        have h4 := hdataPres pid2
        unfold pageDataAt at h4
        exact h4
      · show (alookup _ pid).isSome = true
        simp only [updateFS_pages]
        exact (hdomiff5 _ pid).mpr (by rw [hst2]; rfl)
  | none =>
    obtain ⟨pm4, idx, heq4, hInv4, hps4, hnid4, hdataNew, hdataPres4, hmem4, hdom4⟩ :=
      set_new_page_ok pm2 k v hot hInv2 hk hv (by omega) (by rw [hps2]; omega)
    simp only [heq4]
    have hnot : alookup pm.pages pm2.next_id = none := by
      cases hl : alookup pm.pages pm2.next_id with
      | none => rfl
      | some st0 =>
        have h5 := hInv.fresh pm2.next_id (by rw [hl]; rfl)
        omega
    refine ⟨_, _, rfl, hInv4, by rw [hps4, hps2], by omega, by omega, ?_, ?_⟩
    · intro q2 h2
      exact hdom4 q2 ((hdom2 q2).mpr h2)
    · refine ⟨[], Or.inr ⟨?_, rfl⟩, ?_, ?_, ?_⟩
      · show pageDataAt pm pm2.next_id = none
        unfold pageDataAt
        rw [hnot]
      · show pageDataAt pm4 pm2.next_id = _
        rw [hdataNew]
        simp
      · intro pid2 hne
        show pageDataAt pm4 pid2 = pageDataAt pm pid2
        rw [hdataPres4 pid2 hne]
        exact hdataPres pid2
      · exact hmem4

/-- `PageManager::set` on an invariant state (entry sizes below the
`u32` wrap): it succeeds; it returns no location exactly when the entry
exceeds what an empty page can hold, and then changes nothing; otherwise
it appends the entry to the chosen page (possibly fresh) and preserves
every other page's content and the invariant. -/
theorem pm_set_ok (pm : PageManager) (k v : List Nat) (hot : Bool)
    (hInv : PMInv pm) (hk : ByteOK k) (hv : ByteOK v) (hnid : pm.next_id < U64)
    (hnw : HEADER_SIZE + SIZE_FIELD_SIZE + ENTRY_METADATA_SIZE + k.length + v.length < U32) :
    ∃ pm2 res, pm.set k v hot = .ok (pm2, res) ∧ PMInv pm2 ∧
      pm2.page_size = pm.page_size ∧ pm2.next_id ≤ pm.next_id + 1 ∧
      (∀ q2, (alookup pm.pages q2).isSome = true → (alookup pm2.pages q2).isSome = true) ∧
      ((res = none ∧ pm2 = pm ∧ pm.page_size <
          HEADER_SIZE + SIZE_FIELD_SIZE + ENTRY_METADATA_SIZE + k.length + v.length) ∨
       (∃ loc old, res = some loc ∧
          HEADER_SIZE + SIZE_FIELD_SIZE + ENTRY_METADATA_SIZE + k.length + v.length ≤
            pm.page_size ∧
          (pageDataAt pm loc.page_id = some old ∨
            (pageDataAt pm loc.page_id = none ∧ old = [])) ∧
          pageDataAt pm2 loc.page_id =
            some (old ++ [⟨⟨k.length % U32, v.length % U32⟩, k, v⟩]) ∧
          (∀ pid2, pid2 ≠ loc.page_id → pageDataAt pm2 pid2 = pageDataAt pm pid2) ∧
          (alookup pm2.pages loc.page_id).isSome = true)) := by
  cases hfind : pm.find_suitable_page_id (k.length + v.length + 8) hot with
  | some pid =>
    obtain ⟨pm6, loc, hinner, hInv6, hps6, hnid6, hbound6, hdom6, old, hold, hnew, hpres,
      hloc⟩ := set_inner_candidate_ok pm k v hot pid hInv hk hv hnid hfind
    obtain ⟨pm4, hset, hInv4, hdataPres4, hps4, hnid4, hdom4⟩ :=
      pm_set_of_inner pm pm6 k v hot loc hinner hInv6 hloc
    refine ⟨pm4, some loc, hset, hInv4, by rw [hps4, hps6], by omega, ?_, ?_⟩
    · intro q2 h2
      exact (hdom4 q2).mpr (hdom6 q2 h2)
    · refine Or.inr ⟨loc, old, rfl, hbound6, hold, ?_, ?_, ?_⟩
      · rw [hdataPres4]
        exact hnew
      · intro pid2 hne
        rw [hdataPres4]
        exact hpres pid2 hne
      · exact (hdom4 loc.page_id).mpr hloc
  | none =>
    by_cases hfit : HEADER_SIZE + SIZE_FIELD_SIZE + ENTRY_METADATA_SIZE +
        k.length + v.length ≤ pm.page_size
    · obtain ⟨pm4, idx, heq4, hInv4, hps4, hnid4, hdataNew, hdataPres4, hmem4, hdom4⟩ :=
        set_new_page_ok pm k v hot hInv hk hv hnid hfit
      have hinner : pm.set_inner k v hot =
          .ok (pm4, some { page_id := pm.next_id, page_index := idx }) := by
        simp only [PageManager.set_inner, hfind]
        exact heq4
      obtain ⟨pm5, hset, hInv5, hdataPres5, hps5, hnid5, hdom5⟩ :=
        pm_set_of_inner pm pm4 k v hot _ hinner hInv4 hmem4
      have hnot : alookup pm.pages pm.next_id = none := by
        cases hl : alookup pm.pages pm.next_id with
        | none => rfl
        | some st0 =>
          have h5 := hInv.fresh pm.next_id (by rw [hl]; rfl)
          omega
      refine ⟨pm5, _, hset, hInv5, by rw [hps5, hps4], by omega, ?_, ?_⟩
      · intro q2 h2
        exact (hdom5 q2).mpr (hdom4 q2 h2)
      · refine Or.inr ⟨_, [], rfl, hfit, Or.inr ⟨?_, rfl⟩, ?_, ?_, ?_⟩
        · show pageDataAt pm pm.next_id = none
          unfold pageDataAt
          rw [hnot]
        · show pageDataAt pm5 pm.next_id = _
          rw [hdataPres5, hdataNew]
          simp
        · intro pid2 hne
          rw [hdataPres5]
          exact hdataPres4 pid2 hne
        · exact (hdom5 pm.next_id).mpr hmem4
    · have h1 : pm.set_new_page k v hot = .ok (pm, none) :=
        set_new_page_none pm k v hot (by omega) hnw
      have hinner : pm.set_inner k v hot = .ok (pm, none) := by
        simp only [PageManager.set_inner, hfind]
        exact h1
      have hset : pm.set k v hot = .ok (pm, none) := by
        unfold PageManager.set
        rw [hinner]
      exact ⟨pm, none, hset, hInv, rfl, by omega, fun q2 h2 => h2,
        Or.inl ⟨rfl, rfl, by omega⟩⟩

/-- `PageManager::get` on a known page: the shared handle is returned
and looked up; state changes are confined to cache/counters. -/
theorem pm_get_ok (pm : PageManager) (loc : Location) (k : List Nat) (hInv : PMInv pm)
    (hmem : (alookup pm.pages loc.page_id).isSome = true) :
    ∃ (pm2 : PageManager) (p : Page),
      pm.get loc k = .ok (pm2, p.get loc.page_index k) ∧ PMInv pm2 ∧
      pageDataAt pm loc.page_id = some p.data ∧
      (∀ pid2, pageDataAt pm2 pid2 = pageDataAt pm pid2) ∧
      pm2.page_size = pm.page_size ∧ pm2.next_id = pm.next_id ∧
      (∀ q2, (alookup pm2.pages q2).isSome = true ↔ (alookup pm.pages q2).isSome = true) := by
  obtain ⟨pm2, p, st2, heq, hInv2, hdataPres, hdata, hwf, hpidid, hpsize, hst2, hin2,
    hstore, hps2, hnid2, hdom2⟩ := ensure_ok pm loc.page_id hInv hmem
  refine ⟨pm2, p, ?_, hInv2, hdata, hdataPres, hps2, hnid2, hdom2⟩
  unfold PageManager.get
  rw [heq]

/-- `push_entry` onto a fresh page succeeds whenever the (`u32`-reduced)
size guard passes. -/
theorem fresh_push_some_of_guard (id ps : Nat) (k v : List Nat)
    (hg : (HEADER_SIZE + SIZE_FIELD_SIZE + ENTRY_METADATA_SIZE +
      k.length + v.length) % U32 ≤ ps) :
    ∃ pr, (Page.new id ps).push_entry k v = some pr := by
  unfold Page.push_entry
  simp only [Page.new]
  rw [if_neg (by omega)]
  exact ⟨_, rfl⟩

/-- Same guard failing makes the fresh push fail. -/
theorem fresh_push_none_of_guard (id ps : Nat) (k v : List Nat)
    (hg : (HEADER_SIZE + SIZE_FIELD_SIZE + ENTRY_METADATA_SIZE +
      k.length + v.length) % U32 > ps) :
    (Page.new id ps).push_entry k v = none := by
  unfold Page.push_entry
  simp only [Page.new]
  rw [if_pos hg]

/-- The only way `PageManager::set` reports no location (`StorageFull`
upstream) is the untouched-state path: candidate-page attempts either
return a location or abort with an error, never a clean no-location. -/
theorem pm_storage_full_unchanged (pm pm2 : PageManager) (k v : List Nat) (hot : Bool)
    (hInv : PMInv pm) (hset : pm.set k v hot = .ok (pm2, none)) : pm2 = pm := by
  have hsnp_none : ∀ pmj pmi, PMInv pmj →
      (HEADER_SIZE + SIZE_FIELD_SIZE + ENTRY_METADATA_SIZE + k.length + v.length) % U32 ≤
        pmj.page_size →
      pmj.set_new_page k v hot = .ok (pmi, none) → False := by
    intro pmj pmi hInvj hg hsnp
    obtain ⟨pr, hfp⟩ := fresh_push_some_of_guard pmj.next_id pmj.page_size k v hg
    simp only [PageManager.set_new_page, hfp] at hsnp
    split at hsnp
    · exact Except.noConfusion hsnp
    · have := congrArg (fun x : PageManager × Option Location => x.2) (Except.ok.inj hsnp)
      simp at this
  have hinner_none : ∀ pmi, pm.set_inner k v hot = .ok (pmi, none) → pmi = pm := by
    intro pmi hinner
    cases hfind : pm.find_suitable_page_id (k.length + v.length + 8) hot with
    | some pid =>
      exfalso
      obtain ⟨hmem, hbound⟩ :=
        find_suitable_facts pm (k.length + v.length + 8) hot pid hInv hfind
      obtain ⟨pm2', p, st2, heq, hInv2, hdataPres, hdata, hwf, hpidid, hpsize, hst2, hin2,
        hstore, hps2, hnid2, hdom2⟩ := ensure_ok pm pid hInv hmem
      simp only [PageManager.set_inner, hfind, heq, hst2] at hinner
      cases hpush : p.push_entry k v with
      | some pair =>
        obtain ⟨idx, p2⟩ := pair
        rw [hpush] at hinner
        simp only [PageManager.setSharedPage] at hinner
        split at hinner
        · exact Except.noConfusion hinner
        · split at hinner
          · exact Except.noConfusion hinner
          · have := congrArg (fun x : PageManager × Option Location => x.2)
              (Except.ok.inj hinner)
            simp at this
      | none =>
        rw [hpush] at hinner
        refine hsnp_none pm2' pmi hInv2 ?_ hinner
        have hE : ENTRY_METADATA_SIZE = 8 := rfl
        have hH : HEADER_SIZE = 23 := rfl
        have hS : SIZE_FIELD_SIZE = 4 := rfl
        have hps := hInv2.ps_lt
        rw [hps2]
        rw [Nat.mod_eq_of_lt (by omega)]
        omega
    | none =>
      simp only [PageManager.set_inner, hfind] at hinner
      by_cases hg : (HEADER_SIZE + SIZE_FIELD_SIZE + ENTRY_METADATA_SIZE +
          k.length + v.length) % U32 > pm.page_size
      · have hfp := fresh_push_none_of_guard pm.next_id pm.page_size k v hg
        simp only [PageManager.set_new_page, hfp] at hinner
        exact (congrArg (fun x : PageManager × Option Location => x.1)
          (Except.ok.inj hinner)).symm
      · exact absurd hinner (fun h => hsnp_none pm pmi hInv (by omega) h)
  unfold PageManager.set at hset
  cases hinner : pm.set_inner k v hot with
  | error e =>
    simp only [hinner] at hset
    exact Except.noConfusion hset
  | ok pr =>
    obtain ⟨pmi, locO⟩ := pr
    simp only [hinner] at hset
    cases locO with
    | none =>
      have h1 := congrArg (fun x : PageManager × Option Location => x.1) (Except.ok.inj hset)
      have h2 := hinner_none pmi hinner
      simp only at h1
      rw [← h1, h2]
    | some loc =>
      exfalso
      cases hl : alookup pmi.pages loc.page_id with
      | none =>
        simp only [hl] at hset
        have := congrArg (fun x : PageManager × Option Location => x.2) (Except.ok.inj hset)
        simp at this
      | some status =>
        simp only [hl] at hset
        cases hm : status.in_memory with
        | none =>
          simp only [hm] at hset
          have := congrArg (fun x : PageManager × Option Location => x.2)
            (Except.ok.inj hset)
          simp at this
        | some page_rc =>
          simp only [hm] at hset
          have := congrArg (fun x : PageManager × Option Location => x.2)
            (Except.ok.inj hset)
          simp at this

/-! ## Database-level invariant and run lemmas -/

/-- Well-formed operation payloads: byte-valued keys and values whose
encoded entry stays below the `u32` wrap (`Vec<u8>` contents; the wrap
anomaly beyond it is covered by the C3 counterexample). -/
def OpOK : Op → Prop
  | .set k v _ => ByteOK k ∧ ByteOK v ∧
      HEADER_SIZE + SIZE_FIELD_SIZE + ENTRY_METADATA_SIZE + k.length + v.length < U32
  | .get _ => True

/-- The database invariant: the page-manager invariant, the default
page size, and an index that only points at known pages. -/
structure DBInv (db : Database) : Prop where
  pm : PMInv db.page_manager
  ps_eq : db.page_manager.page_size = DEFAULT_PAGE_SIZE
  index_ok : ∀ kv ∈ db.index,
    (alookup db.page_manager.pages kv.2.location.page_id).isSome = true

theorem db_init_inv (t : Nat) : DBInv (Database.init t) := by
  refine ⟨⟨?_, ?_, rfl, ?_, ?_, ?_, ?_, ?_, ?_, ?_, ?_⟩, rfl, ?_⟩
  · show HEADER_SIZE + SIZE_FIELD_SIZE ≤ DEFAULT_PAGE_SIZE
    decide
  · show DEFAULT_PAGE_SIZE * 2 < U32
    decide
  · intro pid st h
    simp [Database.init, PageManager.init, alookup] at h
  · intro pid q h
    simp [Database.init, PageManager.init, alookup] at h
  · simp [Database.init, PageManager.init]
  · intro kv hkv
    simp [Database.init, PageManager.init] at hkv
  · intro kv hkv
    simp [Database.init, PageManager.init] at hkv
  · simp [Database.init, PageManager.init]
  · simp [Database.init, PageManager.init]
  · intro pid h
    simp [Database.init, PageManager.init, alookup] at h
  · intro kv hkv
    simp [Database.init] at hkv

/-- `Database::set` under the invariant: always returns `Ok`; the inner
result is `StorageFull` (with nothing changed) exactly when the entry
exceeds an empty page, and otherwise the entry is appended to the
located page and indexed. -/
theorem db_set_ok (db : Database) (k v : List Nat) (h : Bool)
    (hInv : DBInv db) (hk : ByteOK k) (hv : ByteOK v)
    (hnid : db.page_manager.next_id < U64)
    (hnw : HEADER_SIZE + SIZE_FIELD_SIZE + ENTRY_METADATA_SIZE + k.length + v.length < U32) :
    ∃ db2 r, db.set k v h = .ok (db2, r) ∧ DBInv db2 ∧
      db2.page_manager.next_id ≤ db.page_manager.next_id + 1 ∧
      (∀ q2, (alookup db.page_manager.pages q2).isSome = true →
        (alookup db2.page_manager.pages q2).isSome = true) ∧
      ((r = .error .storageFull ∧ db2 = db ∧ DEFAULT_PAGE_SIZE <
          HEADER_SIZE + SIZE_FIELD_SIZE + ENTRY_METADATA_SIZE + k.length + v.length) ∨
       (∃ loc old, r = .ok () ∧
          HEADER_SIZE + SIZE_FIELD_SIZE + ENTRY_METADATA_SIZE + k.length + v.length ≤
            DEFAULT_PAGE_SIZE ∧
          db2.index = ainsert db.index k
            { location := loc, size := k.length + v.length } ∧
          (pageDataAt db.page_manager loc.page_id = some old ∨
            (pageDataAt db.page_manager loc.page_id = none ∧ old = [])) ∧
          pageDataAt db2.page_manager loc.page_id =
            some (old ++ [⟨⟨k.length % U32, v.length % U32⟩, k, v⟩]) ∧
          (∀ pid2, pid2 ≠ loc.page_id →
            pageDataAt db2.page_manager pid2 = pageDataAt db.page_manager pid2) ∧
          (alookup db2.page_manager.pages loc.page_id).isSome = true)) := by
  obtain ⟨pm2, res, heq, hInv2, hps2, hnid2, hdomMono, hcases⟩ :=
    pm_set_ok db.page_manager k v
      (match alookup db.index k with | some _ => h | none => false)
      hInv.pm hk hv hnid hnw
  rcases hcases with ⟨hres, hpm2, hbig⟩ | ⟨loc, old, hres, hfit, hold, hnew, hpres, hmemloc⟩
  · subst hres
    refine ⟨db, .error .storageFull, ?_, hInv, by omega, fun q2 h2 => h2, ?_⟩
    · simp only [Database.set, heq]
      rw [hpm2]
    · exact Or.inl ⟨rfl, rfl, by rw [← hInv.ps_eq]; exact hbig⟩
  · subst hres
    refine ⟨({ db with
        index := ainsert db.index k { location := loc, size := k.length + v.length },
        page_manager := pm2 } : Database), .ok (), ?_, ?_, ?_, ?_, ?_⟩
    · simp only [Database.set, heq]
    · refine ⟨hInv2, by rw [hps2]; exact hInv.ps_eq, ?_⟩
      intro kv hkv
      rcases mem_ainsert hkv with hkv2 | hkv2
      · rw [hkv2]
        exact hmemloc
      · exact hdomMono _ (hInv.index_ok kv hkv2)
    · exact hnid2
    · exact hdomMono
    · refine Or.inr ⟨loc, old, rfl, by rw [← hInv.ps_eq]; exact hfit, rfl, hold, hnew,
        hpres, hmemloc⟩

/-- `Database::get` under the invariant: always returns `Ok`, leaves the
index and all page contents unchanged. -/
theorem db_get_ok (db : Database) (k : List Nat) (hInv : DBInv db) :
    ∃ db2 r, db.get k = .ok (db2, r) ∧ DBInv db2 ∧
      db2.index = db.index ∧
      db2.page_manager.next_id = db.page_manager.next_id ∧
      (∀ pid2, pageDataAt db2.page_manager pid2 = pageDataAt db.page_manager pid2) ∧
      (∀ q2, (alookup db2.page_manager.pages q2).isSome = true ↔
        (alookup db.page_manager.pages q2).isSome = true) := by
  cases hix : alookup db.index k with
  | none =>
    refine ⟨db, .error .keyNotFound, ?_, hInv, rfl, rfl, fun _ => rfl, fun _ => Iff.rfl⟩
    unfold Database.get
    rw [hix]
  | some md =>
    have hmem : (alookup db.page_manager.pages md.location.page_id).isSome = true :=
      hInv.index_ok (k, md) (alookup_mem hix)
    obtain ⟨pm2, p, heq, hInv2, hdata, hdataPres, hps2, hnid2, hdom2⟩ :=
      pm_get_ok db.page_manager md.location k hInv.pm hmem
    have hdb2Inv : DBInv { db with page_manager := pm2 } :=
      ⟨hInv2, by rw [hps2]; exact hInv.ps_eq,
        fun kv hkv => (hdom2 _).mpr (hInv.index_ok kv hkv)⟩
    cases hr : p.get md.location.page_index k with
    | some w =>
      refine ⟨_, .ok w, ?_, hdb2Inv, rfl, hnid2, hdataPres, hdom2⟩
      simp only [Database.get, hix, heq, hr]
    | none =>
      refine ⟨_, .error .invalidData, ?_, hdb2Inv, rfl, hnid2, hdataPres, hdom2⟩
      simp only [Database.get, hix, heq, hr]

/-! ## Key-uniqueness tracking for the round-trip property -/

/-- No page holds an entry with key `k`. -/
def NoKeyPM (pm : PageManager) (k : List Nat) : Prop :=
  ∀ pid d, pageDataAt pm pid = some d → ∀ e ∈ d, e.key ≠ k

/-- Key `k` is indexed, its page is known, and every entry for `k` in
that page carries the value `v` (with at least one present). -/
def KeyOnce (db : Database) (k v : List Nat) : Prop :=
  ∃ md d, alookup db.index k = some md ∧
    (alookup db.page_manager.pages md.location.page_id).isSome = true ∧
    pageDataAt db.page_manager md.location.page_id = some d ∧
    (∃ e ∈ d, e.key = k) ∧ (∀ e ∈ d, e.key = k → e.value = v)

/-- When every `k`-keyed entry of a page has value `v` and one exists,
`Page::get` returns `v` at every probe index: the indexed hit (if any)
is such an entry, and the fallback scan's first match is too. -/
theorem page_get_unique (p : Page) (k v : List Nat) (idx : Nat)
    (hex : ∃ e ∈ p.data, e.key = k)
    (hall : ∀ e ∈ p.data, e.key = k → e.value = v) :
    p.get idx k = some v := by
  have hfind : ∀ r, p.data.find? (fun x => x.key = k) = some r → r.value = v := by
    intro r hr
    have h1 := List.find?_some hr
    have h2 := List.mem_of_find?_eq_some hr
    exact hall r h2 (of_decide_eq_true h1)
  have hfs : (p.data.find? (fun x => x.key = k)).isSome = true := by
    rw [List.find?_isSome]
    obtain ⟨e, he, hek⟩ := hex
    exact ⟨e, he, by simp [hek]⟩
  obtain ⟨r, hr⟩ := Option.isSome_iff_exists.mp hfs
  have hrv := hfind r hr
  unfold Page.get
  cases hi : p.data[idx]? with
  | none =>
    show (p.data.find? (fun x => x.key = k)).map Entry.value = some v
    rw [hr, Option.map_some', hrv]
  | some e =>
    show (if e.key = k then some e.value
      else (p.data.find? (fun x => x.key = k)).map Entry.value) = some v
    by_cases hek : e.key = k
    · rw [if_pos hek, hall e (List.getElem?_mem hi) hek]
    · rw [if_neg hek, hr, Option.map_some', hrv]

/-- A successful `set(k, v)` on a database holding no `k` entry
establishes `KeyOnce k v`. -/
theorem set_establishes_keyonce (db db2 : Database) (k v : List Nat) (h : Bool)
    (hInv : DBInv db) (hk : ByteOK k) (hv : ByteOK v)
    (hnid : db.page_manager.next_id < U64)
    (hnw : HEADER_SIZE + SIZE_FIELD_SIZE + ENTRY_METADATA_SIZE + k.length + v.length < U32)
    (hnk : NoKeyPM db.page_manager k)
    (hset : db.set k v h = .ok (db2, .ok ())) :
    DBInv db2 ∧ db2.page_manager.next_id ≤ db.page_manager.next_id + 1 ∧ KeyOnce db2 k v := by
  obtain ⟨db2', r, heq, hInv2, hnid2, hdomM, hc⟩ := db_set_ok db k v h hInv hk hv hnid hnw
  rw [heq] at hset
  obtain ⟨hdb, hr⟩ := Prod.mk.inj (Except.ok.inj hset)
  subst hdb
  rcases hc with ⟨hres, _, _⟩ | ⟨loc, old, hres, hfit, hixEq, hold, hnew, hpres, hmemloc⟩
  · rw [hres] at hr
    exact absurd hr (by simp)
  · refine ⟨hInv2, hnid2, { location := loc, size := k.length + v.length },
      old ++ [⟨⟨k.length % U32, v.length % U32⟩, k, v⟩], ?_, hmemloc, hnew, ?_, ?_⟩
    · rw [hixEq]
      exact alookup_ainsert_self _ _ _
    · exact ⟨_, List.mem_append_right _ (List.mem_singleton.mpr rfl), rfl⟩
    · intro e he hek
      rcases List.mem_append.mp he with he2 | he2
      · rcases hold with hold2 | ⟨_, holde⟩
        · exact absurd hek (hnk loc.page_id old hold2 e he2)
        · rw [holde] at he2
          exact absurd he2 (List.not_mem_nil e)
      · rw [List.mem_singleton.mp he2]

/-- With `KeyOnce k v`, a `get(k)` returns `v`. -/
theorem keyonce_get (db : Database) (k v : List Nat) (hInv : DBInv db)
    (hko : KeyOnce db k v) : db.getResult k = .ok v := by
  obtain ⟨md, d, hix, hmem, hdat, hex, hall⟩ := hko
  obtain ⟨pm2, p, heq, hInv2, hdata, hdataPres, hps2, hnid2, hdom2⟩ :=
    pm_get_ok db.page_manager md.location k hInv.pm hmem
  have hpd : p.data = d := by
    rw [hdat] at hdata
    exact (Option.some.inj hdata).symm
  have hget : p.get md.location.page_index k = some v := by
    apply page_get_unique
    · rw [hpd]
      exact hex
    · rw [hpd]
      exact hall
  simp only [Database.getResult, Database.get, hix, heq, hget]

/-- Running well-formed operations that never set `k` keeps the
invariant, the `next_id` budget, and the absence of `k` entries. -/
theorem run_nokey (k : List Nat) : ∀ (ops : List Op) (db db2 : Database),
    DBInv db → (∀ op ∈ ops, OpOK op) →
    db.page_manager.next_id + ops.length < U64 →
    (∀ v2 h2, Op.set k v2 h2 ∉ ops) →
    NoKeyPM db.page_manager k →
    db.run ops = .ok db2 →
    DBInv db2 ∧
      db2.page_manager.next_id ≤ db.page_manager.next_id + ops.length ∧
      NoKeyPM db2.page_manager k := by
  intro ops
  induction ops with
  | nil =>
    intro db db2 hInv _ _ _ hnk hrun
    simp only [Database.run] at hrun
    have hdb := Except.ok.inj hrun
    subst hdb
    exact ⟨hInv, by omega, hnk⟩
  | cons op rest ih =>
    intro db db2 hInv hok hlen hnotk hnk hrun
    simp only [Database.run] at hrun
    cases op with
    | set k2 v2 h2 =>
      obtain ⟨hbk, hbv, hnw⟩ := hok _ (List.mem_cons_self _ _)
      have hk2 : k2 ≠ k := by
        intro hc
        subst hc
        exact hnotk v2 h2 (List.mem_cons_self _ _)
      obtain ⟨db1, r, heq, hInv1, hnid1, hdomM, hc⟩ :=
        db_set_ok db k2 v2 h2 hInv hbk hbv (by simp at hlen; omega) hnw
      simp only [Database.step, heq] at hrun
      have hnk1 : NoKeyPM db1.page_manager k := by
        rcases hc with ⟨_, hdb1, _⟩ | ⟨loc, old, _, _, _, hold, hnew, hpres, _⟩
        · rw [hdb1]
          exact hnk
        · intro pid d hd e he
          by_cases hp : pid = loc.page_id
          · subst hp
            rw [hnew] at hd
            have hde := Option.some.inj hd
            rw [← hde] at he
            rcases List.mem_append.mp he with he2 | he2
            · rcases hold with hold2 | ⟨_, holde⟩
              · exact hnk loc.page_id old hold2 e he2
              · rw [holde] at he2
                exact absurd he2 (List.not_mem_nil e)
            · rw [List.mem_singleton.mp he2]
              show ¬ k2 = k
              exact hk2
          · rw [hpres pid hp] at hd
            exact hnk pid d hd e he
      have hres := ih db1 db2 hInv1 (fun op2 h3 => hok op2 (List.mem_cons_of_mem _ h3))
        (by simp at hlen; omega) (fun v3 h3 hm => hnotk v3 h3 (List.mem_cons_of_mem _ hm))
        hnk1 hrun
      refine ⟨hres.1, ?_, hres.2.2⟩
      have := hres.2.1
      simp only [List.length_cons]
      omega
    | get k2 =>
      obtain ⟨db1, r, heq, hInv1, hix1, hnid1, hdataPres1, hdom1⟩ := db_get_ok db k2 hInv
      simp only [Database.step, heq] at hrun
      have hnk1 : NoKeyPM db1.page_manager k := by
        intro pid d hd e he
        rw [hdataPres1 pid] at hd
        exact hnk pid d hd e he
      have hres := ih db1 db2 hInv1 (fun op2 h3 => hok op2 (List.mem_cons_of_mem _ h3))
        (by simp at hlen; omega) (fun v3 h3 hm => hnotk v3 h3 (List.mem_cons_of_mem _ hm))
        hnk1 hrun
      refine ⟨hres.1, ?_, hres.2.2⟩
      have := hres.2.1
      simp only [List.length_cons]
      omega

/-- Running well-formed operations that never set `k` preserves
`KeyOnce k v`. -/
theorem run_keyonce (k v : List Nat) : ∀ (ops : List Op) (db db2 : Database),
    DBInv db → (∀ op ∈ ops, OpOK op) →
    db.page_manager.next_id + ops.length < U64 →
    (∀ v2 h2, Op.set k v2 h2 ∉ ops) →
    KeyOnce db k v →
    db.run ops = .ok db2 →
    DBInv db2 ∧ KeyOnce db2 k v := by
  intro ops
  induction ops with
  | nil =>
    intro db db2 hInv _ _ _ hko hrun
    simp only [Database.run] at hrun
    have hdb := Except.ok.inj hrun
    subst hdb
    exact ⟨hInv, hko⟩
  | cons op rest ih =>
    intro db db2 hInv hok hlen hnotk hko hrun
    simp only [Database.run] at hrun
    cases op with
    | set k2 v2 h2 =>
      obtain ⟨hbk, hbv, hnw⟩ := hok _ (List.mem_cons_self _ _)
      have hk2 : k ≠ k2 := by
        intro hc
        subst hc
        exact hnotk v2 h2 (List.mem_cons_self _ _)
      obtain ⟨db1, r, heq, hInv1, hnid1, hdomM, hc⟩ :=
        db_set_ok db k2 v2 h2 hInv hbk hbv (by simp at hlen; omega) hnw
      simp only [Database.step, heq] at hrun
      have hko1 : KeyOnce db1 k v := by
        obtain ⟨md, d, hix, hmem, hdat, hex, hall⟩ := hko
        rcases hc with ⟨_, hdb1, _⟩ | ⟨loc, old, _, _, hixEq, hold, hnew, hpres, _⟩
        · rw [hdb1]
          exact ⟨md, d, hix, hmem, hdat, hex, hall⟩
        · by_cases hp : md.location.page_id = loc.page_id
          · rw [hp] at hdat
            rcases hold with hold2 | ⟨holdn, _⟩
            · have hdo : old = d := Option.some.inj (hold2.symm.trans hdat)
              refine ⟨md, d ++ [⟨⟨k2.length % U32, v2.length % U32⟩, k2, v2⟩], ?_,
                hdomM _ hmem, ?_, ?_, ?_⟩
              · rw [hixEq, alookup_ainsert_other _ _ _ _ hk2]
                exact hix
              · rw [hp]
                rw [hdo] at hnew
                exact hnew
              · obtain ⟨e, he, hek⟩ := hex
                exact ⟨e, List.mem_append_left _ he, hek⟩
              · intro e he hek
                rcases List.mem_append.mp he with he2 | he2
                · exact hall e he2 hek
                · rw [List.mem_singleton.mp he2] at hek
                  exact absurd hek.symm hk2
            · rw [hdat] at holdn
              exact absurd holdn (by simp)
          · refine ⟨md, d, ?_, hdomM _ hmem, ?_, hex, hall⟩
            · rw [hixEq, alookup_ainsert_other _ _ _ _ hk2]
              exact hix
            · rw [hpres _ hp]
              exact hdat
      have hres := ih db1 db2 hInv1 (fun op2 h3 => hok op2 (List.mem_cons_of_mem _ h3))
        (by simp at hlen; omega) (fun v3 h3 hm => hnotk v3 h3 (List.mem_cons_of_mem _ hm))
        hko1 hrun
      exact hres
    | get k2 =>
      obtain ⟨db1, r, heq, hInv1, hix1, hnid1, hdataPres1, hdom1⟩ := db_get_ok db k2 hInv
      simp only [Database.step, heq] at hrun
      have hko1 : KeyOnce db1 k v := by
        obtain ⟨md, d, hix, hmem, hdat, hex, hall⟩ := hko
        exact ⟨md, d, by rw [hix1]; exact hix, (hdom1 _).mpr hmem,
          by rw [hdataPres1]; exact hdat, hex, hall⟩
      exact ih db1 db2 hInv1 (fun op2 h3 => hok op2 (List.mem_cons_of_mem _ h3))
        (by simp at hlen; omega) (fun v3 h3 hm => hnotk v3 h3 (List.mem_cons_of_mem _ hm))
        hko1 hrun

/-- Running well-formed operations preserves the invariant within the
`u64` id budget. -/
theorem run_inv : ∀ (ops : List Op) (db db2 : Database),
    DBInv db → (∀ op ∈ ops, OpOK op) →
    db.page_manager.next_id + ops.length < U64 →
    db.run ops = .ok db2 →
    DBInv db2 ∧ db2.page_manager.next_id ≤ db.page_manager.next_id + ops.length := by
  intro ops
  induction ops with
  | nil =>
    intro db db2 hInv _ _ hrun
    simp only [Database.run] at hrun
    have hdb := Except.ok.inj hrun
    subst hdb
    exact ⟨hInv, by omega⟩
  | cons op rest ih =>
    intro db db2 hInv hok hlen hrun
    simp only [Database.run] at hrun
    cases op with
    | set k2 v2 h2 =>
      obtain ⟨hbk, hbv, hnw⟩ := hok _ (List.mem_cons_self _ _)
      obtain ⟨db1, r, heq, hInv1, hnid1, _, _⟩ :=
        db_set_ok db k2 v2 h2 hInv hbk hbv (by simp at hlen; omega) hnw
      simp only [Database.step, heq] at hrun
      have hres := ih db1 db2 hInv1 (fun op2 h3 => hok op2 (List.mem_cons_of_mem _ h3))
        (by simp at hlen; omega) hrun
      refine ⟨hres.1, ?_⟩
      have := hres.2
      simp only [List.length_cons]
      omega
    | get k2 =>
      obtain ⟨db1, r, heq, hInv1, _, hnid1, _, _⟩ := db_get_ok db k2 hInv
      simp only [Database.step, heq] at hrun
      have hres := ih db1 db2 hInv1 (fun op2 h3 => hok op2 (List.mem_cons_of_mem _ h3))
        (by simp at hlen; omega) hrun
      refine ⟨hres.1, ?_⟩
      have := hres.2
      simp only [List.length_cons]
      omega

/-- On a fresh database, a `set` of an entry too large for an empty page
returns `StorageFull` and leaves the state untouched. -/
theorem init_set_too_big (t : Nat) (k v : List Nat) (hk : ByteOK k) (hv : ByteOK v)
    (hbig : DEFAULT_PAGE_SIZE <
      HEADER_SIZE + SIZE_FIELD_SIZE + ENTRY_METADATA_SIZE + k.length + v.length)
    (hnw : HEADER_SIZE + SIZE_FIELD_SIZE + ENTRY_METADATA_SIZE + k.length + v.length < U32) :
    (Database.init t).set k v false = .ok (Database.init t, .error .storageFull) := by
  obtain ⟨db2, r, heq, _, _, _, hc⟩ := db_set_ok (Database.init t) k v false (db_init_inv t)
    hk hv (by show (0:Nat) < U64; decide) hnw
  rcases hc with ⟨hres, hdb, _⟩ | ⟨loc, old, _, hfit, _⟩
  · rw [heq, hres, hdb]
  · exact absurd hfit (by omega)

/-! ## Claim C1, C3, C10 theorems -/

/-- C1 (amended): in any well-formed run on a fresh database in which
`set(k, v)` succeeds and NO OTHER `set(k, _)` occurs — neither before nor
after — `get(k)` returns `Ok(v)`.  (The original claim, allowing earlier
sets of `k`, is refuted by the counterexample: the page-level lookup's
fallback linear scan returns the FIRST match, so an earlier same-page
version of `k` shadows the newest one; the stored `page_index` is a byte
offset and virtually never hits.)  The hotness oracle `h` is universally
quantified, covering whichever classification the `f64` computation
produces; operation payloads are byte vectors below the `u32` wrap and
runs stay within the `u64` id space. -/
theorem C1_roundtrip_without_other_sets (t : Nat) (pre suf : List Op)
    (k v : List Nat) (h : Bool) (db1 db2 db3 : Database)
    (hops : ∀ op ∈ pre ++ suf, OpOK op)
    (hlen : pre.length + suf.length + 1 < U64)
    (hk : ByteOK k) (hv : ByteOK v)
    (hnw : HEADER_SIZE + SIZE_FIELD_SIZE + ENTRY_METADATA_SIZE + k.length + v.length < U32)
    (hnopre : ∀ v2 h2, Op.set k v2 h2 ∉ pre)
    (hnosuf : ∀ v2 h2, Op.set k v2 h2 ∉ suf)
    (hrun1 : (Database.init t).run pre = .ok db1)
    (hset : db1.set k v h = .ok (db2, .ok ()))
    (hrun2 : db2.run suf = .ok db3) :
    db3.getResult k = .ok v := by
  have h0 : (Database.init t).page_manager.next_id = 0 := rfl
  have hnk0 : NoKeyPM (Database.init t).page_manager k := by
    intro pid d hd e he
    simp [Database.init, PageManager.init, pageDataAt, alookup] at hd
  obtain ⟨hInv1, hnid1, hnk1⟩ := run_nokey k pre (Database.init t) db1 (db_init_inv t)
    (fun op hm => hops op (List.mem_append_left _ hm)) (by rw [h0]; omega)
    hnopre hnk0 hrun1
  rw [h0] at hnid1
  obtain ⟨hInv2, hnid2, hko2⟩ := set_establishes_keyonce db1 db2 k v h hInv1 hk hv
    (by omega) hnw hnk1 hset
  obtain ⟨hInv3, hko3⟩ := run_keyonce k v suf db2 db3 hInv2
    (fun op hm => hops op (List.mem_append_right _ hm)) (by omega) hnosuf hko2 hrun2
  exact keyonce_get db3 k v hInv3 hko3

/-- The database produced by the witness `set`. -/
def c1wdb : Database :=
  match (Database.init 2).set [1] [2] false with
  | .ok (d, _) => d
  | .error _ => Database.init 2

theorem C1_roundtrip_without_other_sets_witness :
    (Database.init 2).set [1] [2] false = .ok (c1wdb, .ok ()) ∧
    c1wdb.getResult [1] = .ok [2] :=
  ⟨by decide,
    C1_roundtrip_without_other_sets 2 [] [] [1] [2] false (Database.init 2) c1wdb c1wdb
      (fun op hm => absurd hm (List.not_mem_nil op)) (by decide) (by decide) (by decide)
      (by decide) (fun v2 h2 hm => absurd hm (List.not_mem_nil _))
      (fun v2 h2 hm => absurd hm (List.not_mem_nil _)) rfl (by decide) rfl⟩

/-- C3 (amended): on any reachable database with healthy storage, for
byte-valued `k`, `v` below the `u32` wrap, `set(k, v)` returns `Ok`; the
inner result is `StorageFull` exactly when `23 + 4 + 8 + |k| + |v|`
exceeds the 4096-byte capacity — i.e. the entry is larger than
`capacity - 23 - 4 - 8` bytes (the code's `HEADER_SIZE` is 23, not 19,
and the 8 metadata bytes count against the capacity too) — and every
`set` within that bound succeeds.  (Without the wrap bound the claim
fails: see the counterexample, where an oversized entry wraps `u32` and
is accepted.) -/
theorem C3_storage_full_iff_oversized (t : Nat) (ops : List Op) (db : Database)
    (k v : List Nat) (h : Bool)
    (hops : ∀ op ∈ ops, OpOK op) (hlen : ops.length < U64)
    (hrun : (Database.init t).run ops = .ok db)
    (hk : ByteOK k) (hv : ByteOK v)
    (hnw : HEADER_SIZE + SIZE_FIELD_SIZE + ENTRY_METADATA_SIZE + k.length + v.length < U32) :
    ∃ db2, db.set k v h = .ok (db2,
      if DEFAULT_PAGE_SIZE <
          HEADER_SIZE + SIZE_FIELD_SIZE + ENTRY_METADATA_SIZE + k.length + v.length
      then .error .storageFull else .ok ()) := by
  have h0 : (Database.init t).page_manager.next_id = 0 := rfl
  obtain ⟨hInv, hnid⟩ := run_inv ops (Database.init t) db (db_init_inv t) hops
    (by rw [h0]; omega) hrun
  rw [h0] at hnid
  obtain ⟨db2, r, heq, _, _, _, hc⟩ := db_set_ok db k v h hInv hk hv (by omega) hnw
  refine ⟨db2, ?_⟩
  rcases hc with ⟨hres, _, hbig⟩ | ⟨loc, old, hres, hfit, _⟩
  · rw [heq, hres, if_pos hbig]
  · rw [heq, hres, if_neg (by omega)]

theorem C3_storage_full_iff_oversized_witness :
    ∃ db2, (Database.init 0).set [1] [2] false = .ok (db2,
      if DEFAULT_PAGE_SIZE <
          HEADER_SIZE + SIZE_FIELD_SIZE + ENTRY_METADATA_SIZE +
            ([1] : List Nat).length + ([2] : List Nat).length
      then .error .storageFull else .ok ()) :=
  C3_storage_full_iff_oversized 0 [] (Database.init 0) [1] [2] false
    (fun op hm => absurd hm (List.not_mem_nil op)) (by decide) rfl
    (by decide) (by decide) (by decide)

/-- C10: on any reachable database, a `set(k, v)` of an unindexed key
that returns `StorageFull` leaves the entire database state unchanged —
index, pages, free-space indexes, cache, counters and `next_id` — and
writes nothing to the device (the state, including the device store and
its metrics, is equal to the prior one). -/
theorem C10_storage_full_leaves_db_unchanged (t : Nat) (ops : List Op) (db db2 : Database)
    (k v : List Nat) (h : Bool)
    (hops : ∀ op ∈ ops, OpOK op) (hlen : ops.length < U64)
    (hrun : (Database.init t).run ops = .ok db)
    (hkey : alookup db.index k = none)
    (hset : db.set k v h = .ok (db2, .error .storageFull)) :
    db2 = db := by
  have h0 : (Database.init t).page_manager.next_id = 0 := rfl
  obtain ⟨hInv, _⟩ := run_inv ops (Database.init t) db (db_init_inv t) hops
    (by rw [h0]; omega) hrun
  unfold Database.set at hset
  cases hpm : db.page_manager.set k v
      (match alookup db.index k with | some _ => h | none => false) with
  | error e =>
    simp only [hpm] at hset
    exact Except.noConfusion hset
  | ok pr =>
    obtain ⟨pm2, locO⟩ := pr
    simp only [hpm] at hset
    cases locO with
    | some loc =>
      have := congrArg (fun x : Database × Except DatabaseError Unit => x.2)
        (Except.ok.inj hset)
      simp at this
    | none =>
      obtain ⟨hdb, _⟩ := Prod.mk.inj (Except.ok.inj hset)
      have hpm2 := pm_storage_full_unchanged db.page_manager pm2 k v _ hInv.pm hpm
      rw [← hdb, hpm2]

theorem C10_storage_full_leaves_db_unchanged_witness :
    (Database.init 0).set [1] (List.replicate 4100 0) false =
      .ok (Database.init 0, .error .storageFull) ∧
    (Database.init 0 : Database) = Database.init 0 :=
  have hset : (Database.init 0).set [1] (List.replicate 4100 0) false =
      .ok (Database.init 0, .error .storageFull) :=
    init_set_too_big 0 [1] (List.replicate 4100 0) (by decide)
      (fun b hb => by rw [List.eq_of_mem_replicate hb]; decide)
      (by rw [List.length_replicate]; decide)
      (by rw [List.length_replicate]; decide)
  ⟨hset,
    C10_storage_full_leaves_db_unchanged 0 [] (Database.init 0) (Database.init 0)
      [1] (List.replicate 4100 0) false
      (fun op hm => absurd hm (List.not_mem_nil op)) (by decide) rfl rfl hset⟩

end BlitzKV
